import Mathlib

/-! # rex1337: state store, reset policy, task runner and cycle scheduler

A shallow embedding of `src/index.js`, with `updateAppState` of `src/server.js`
and `validateAccounts` of `src/validator.js`.

Conventions of the embedding.

* JavaScript numbers that the program handles (millisecond timestamps, counters,
  configured limits) are mathematical integers (`Int`); the IEEE doubles of the
  source agree with them below `2^53`.
* The content of `data/state.json` is a JSON object. Its values are the ones the
  program itself writes: a string or a number (the two reset markers) or a flat
  account record. A record is a structure with one optional field per property
  the program reads or writes. Keys are kept in insertion order; nothing proved
  here depends on the order (JavaScript lists integer-like keys first).
* Except in the section on the state file as text, the disk of the model holds
  the parsed store; that section embeds `JSON.stringify(state, null, 2)` and
  `JSON.parse` (ECMA-262, 25.5) on these values and relates the two levels.
* Everything the environment decides (clock readings, the shutdown flag, whether
  a file write succeeds, the replies of Steam and of the task service, random
  draws) is an oracle in `Env`, indexed by how many times it has been consulted;
  the counters live in `World` next to the disk content and the trace of
  effects.
* The dashboard (`appState`, `updateAppState`) and the logger are write-only
  sinks for `index.js`; their calls are left out of the embedding of `index.js`,
  except that `syncDashboardAccounts` runs `checkDateResets`, which is kept.
  The clock readings that only feed the dashboard are left out with them.
  `updateAppState` itself is embedded on its own, in the last section.
-/

namespace Rex

/-! ## Calendar arithmetic of the JavaScript `Date` object (ECMA-262, 21.4.1) -/

/-- Milliseconds per day. -/
def msPerDay : Int := 86400000

/-- `Day(t)`: the day number of a time value. -/
def day (t : Int) : Int := t / msPerDay

/-- `TimeWithinDay(t)`. -/
def timeWithinDay (t : Int) : Int := t % msPerDay

/-- `DayFromYear(y)`: day number of the first day of year `y`. -/
def dayFromYear (y : Int) : Int :=
  365 * (y - 1970) + (y - 1969) / 4 - (y - 1901) / 100 + (y - 1601) / 400

/-- `DaysInYear(y)`. -/
def daysInYear (y : Int) : Int :=
  if y % 4 ≠ 0 then 365
  else if y % 100 ≠ 0 then 366
  else if y % 400 ≠ 0 then 365
  else 366

/-- The largest `y` with `DayFromYear(y) ≤ n`, computed by estimating the year
from the mean year length and correcting by one. -/
def yearFromDay (n : Int) : Int :=
  let y := 1970 + (400 * n) / 146097
  if n < dayFromYear y then y - 1
  else if dayFromYear (y + 1) ≤ n then y + 1
  else y

/-- `YearFromTime(t)`. -/
def yearFromTime (t : Int) : Int := yearFromDay (day t)

/-- `InLeapYear(t)`, as a 0/1 number. -/
def inLeapYear (t : Int) : Int :=
  if daysInYear (yearFromTime t) = 366 then 1 else 0

/-- `DayWithinYear(t)`. -/
def dayWithinYear (t : Int) : Int := day t - dayFromYear (yearFromTime t)

/-- Number of days of the year before month `m` (0 = January), `leap` being 0 or 1. -/
def daysBeforeMonth (m : Int) (leap : Int) : Int :=
  if m ≤ 0 then 0
  else if m = 1 then 31
  else if m = 2 then 59 + leap
  else if m = 3 then 90 + leap
  else if m = 4 then 120 + leap
  else if m = 5 then 151 + leap
  else if m = 6 then 181 + leap
  else if m = 7 then 212 + leap
  else if m = 8 then 243 + leap
  else if m = 9 then 273 + leap
  else if m = 10 then 304 + leap
  else 334 + leap

/-- `MonthFromTime(t)`, 0 = January. -/
def monthFromTime (t : Int) : Int :=
  let d := dayWithinYear t
  let l := inLeapYear t
  if d < 31 then 0
  else if d < 59 + l then 1
  else if d < 90 + l then 2
  else if d < 120 + l then 3
  else if d < 151 + l then 4
  else if d < 181 + l then 5
  else if d < 212 + l then 6
  else if d < 243 + l then 7
  else if d < 273 + l then 8
  else if d < 304 + l then 9
  else if d < 334 + l then 10
  else 11

/-- `DateFromTime(t)`: day of the month, from 1. -/
def dateFromTime (t : Int) : Int :=
  dayWithinYear t - daysBeforeMonth (monthFromTime t) (inLeapYear t) + 1

/-- `WeekDay(t)`: 0 = Sunday .. 6 = Saturday. -/
def weekDay (t : Int) : Int := (day t + 4) % 7

/-- `MakeDay(year, month, date)` for integral arguments. -/
def makeDay (year month date : Int) : Int :=
  let ym := year + month / 12
  let mn := month % 12
  dayFromYear ym + daysBeforeMonth mn (if daysInYear ym = 366 then 1 else 0) + date - 1

/-- `MakeDate(day, time)`. -/
def makeDate (d time : Int) : Int := d * msPerDay + time

/-- `MakeFullYear(y)`: a year from 0 to 99 stands for 1900 + y. -/
def makeFullYear (y : Int) : Int :=
  if 0 ≤ y ∧ y ≤ 99 then 1900 + y else y

/-- `Date.UTC(year, month, date)`; the time value of midnight of that day. -/
def dateUTC (year month date : Int) : Int :=
  makeDate (makeDay (makeFullYear year) month date) 0

/-- `d.setUTCDate(dt)`: the new time value of `d`. -/
def setUTCDate (t dt : Int) : Int :=
  makeDate (makeDay (yearFromTime t) (monthFromTime t) dt) (timeWithinDay t)

/-- `Math.ceil(a / b)` for integers `a` and `b > 0`. -/
def ceilDiv (a b : Int) : Int := -((-a) / b)

/-- One reading of the system clock: what `Date.now()` returns and the local
calendar fields `getFullYear()`, `getMonth()` (0 = January), `getDate()` of
`new Date()`. The time zone relating them is not modelled. -/
structure Instant where
  ms : Int
  year : Int
  month : Int
  date : Int
deriving DecidableEq, Repr

/-- Source `getWeekNumber(d)` (index.js 50-55). -/
def getWeekNumber (d : Instant) : Int :=
  -- d = new Date(Date.UTC(d.getFullYear(), d.getMonth(), d.getDate()));
  let d1 := dateUTC d.year d.month d.date
  -- d.setUTCDate(d.getUTCDate() + 4 - (d.getUTCDay() || 7));
  let d2 := setUTCDate d1 (dateFromTime d1 + 4 - (if weekDay d1 = 0 then 7 else weekDay d1))
  -- const yearStart = new Date(Date.UTC(d.getUTCFullYear(), 0, 1));
  let yearStart := dateUTC (yearFromTime d2) 0 1
  -- return Math.ceil(((d - yearStart) / 86400000 + 1) / 7);
  ceilDiv ((d2 - yearStart) / 86400000 + 1) 7

/-- English three-letter day names, indexed by `WeekDay`. -/
def dayName (w : Int) : String :=
  if w = 0 then "Sun" else if w = 1 then "Mon" else if w = 2 then "Tue"
  else if w = 3 then "Wed" else if w = 4 then "Thu" else if w = 5 then "Fri" else "Sat"

/-- English three-letter month names, indexed from 0. -/
def monthName (m : Int) : String :=
  if m = 0 then "Jan" else if m = 1 then "Feb" else if m = 2 then "Mar"
  else if m = 3 then "Apr" else if m = 4 then "May" else if m = 5 then "Jun"
  else if m = 6 then "Jul" else if m = 7 then "Aug" else if m = 8 then "Sep"
  else if m = 9 then "Oct" else if m = 10 then "Nov" else "Dec"

/-- Decimal digits of `n`, left-padded with zeros to at least `width` characters. -/
def padZero (width : Nat) (n : Nat) : String :=
  let s := toString n
  String.mk (List.replicate (width - s.length) '0') ++ s

/-- `new Date().toDateString()` of a clock reading, e.g. "Thu Jan 01 1970"
(ECMA-262 DateString: day name, month name, two-digit day, year of at least four
digits with a leading minus sign when negative). -/
def toDateString (d : Instant) : String :=
  let t := makeDate (makeDay d.year d.month d.date) 0
  dayName (weekDay t) ++ " " ++ monthName (monthFromTime t) ++ " " ++
    padZero 2 (dateFromTime t).toNat ++ " " ++
    (if yearFromTime t < 0 then "-" else "") ++ padZero 4 (yearFromTime t).natAbs

/-- Day number of the Thursday of the Monday..Sunday week that holds day `n`
(day 0, 1 January 1970, is a Thursday, so `(n + 3) % 7` is the position of `n`
in its week counted from Monday = 0). -/
def thursdayOfWeek (n : Int) : Int := n - (n + 3) % 7 + 3

/-- The ISO-8601 week number in the words of the specification: weeks run Monday
to Sunday and week 1 is the week with the year's first Thursday, so the number
is `1 + floor((ordinal - 1) / 7)` for the ordinal day of the year (from 1) of
the Thursday of the date's week. `n` is the day number of the date. -/
def isoWeekOfDay (n : Int) : Int :=
  let thursday := thursdayOfWeek n
  let ordinal := thursday - dayFromYear (yearFromDay thursday) + 1
  1 + (ordinal - 1) / 7

/-- Day number (days since 1 January 1970) of a proleptic Gregorian date with
`month` from 0 to 11. -/
def dayNumber (year month date : Int) : Int := makeDay year month date

/-- Number of days of month `m` (0 = January), `leap` being 0 or 1. -/
def daysInMonth (m : Int) (leap : Int) : Int :=
  if m = 1 then 28 + leap
  else if m = 3 ∨ m = 5 ∨ m = 8 ∨ m = 10 then 30
  else 31

/-- A calendar date that exists: month 0..11 and day within the month. -/
def ValidDate (year month date : Int) : Prop :=
  0 ≤ month ∧ month ≤ 11 ∧ 1 ≤ date ∧
    date ≤ daysInMonth month (if daysInYear year = 366 then 1 else 0)

instance (y m d : Int) : Decidable (ValidDate y m d) := by
  unfold ValidDate; infer_instance

/-! ## The state store (`data/state.json`) -/

/-- A property that holds a string when present: missing (`undefined`), `null`,
or a string. -/
inductive JString where
  | absent
  | null
  | str (s : String)
deriving DecidableEq, Repr

/-- One account's record in the store. A numeric property is `none` when the
property is missing. -/
structure AccountRecord where
  avatarUrl : JString
  steamNickname : JString
  steamID : JString
  cooldownUntil : Option Int
  completedToday : Option Int
  completedThisWeek : Option Int
  totalCompleted : Option Int
  lastSuccess : Option Int
  lastError : JString
  lastErrorType : JString
deriving DecidableEq, Repr

/-- The empty object `{}`. -/
def AccountRecord.empty : AccountRecord :=
  { avatarUrl := .absent, steamNickname := .absent, steamID := .absent,
    cooldownUntil := none, completedToday := none, completedThisWeek := none,
    totalCompleted := none, lastSuccess := none, lastError := .absent,
    lastErrorType := .absent }

/-- A top-level value of the store: a string, a number, or a record (the only
values with `typeof v === "object"`). -/
inductive Entry where
  | str (s : String)
  | num (n : Int)
  | obj (r : AccountRecord)
deriving DecidableEq, Repr

/-- The parsed store: keys in insertion order with their values. -/
abbrev State := List (String × Entry)

/-- Property read `state[k]`; `none` is `undefined`. The first binding of a key
is the one seen. -/
def State.get : State → String → Option Entry
  | [], _ => none
  | (k', v) :: rest, k => if k' = k then some v else State.get rest k

/-- Property write `state[k] = v`: an existing key keeps its place, a new key is
added at the end. -/
def State.set : State → String → Entry → State
  | [], k, v => [(k, v)]
  | (k', v') :: rest, k, v =>
    if k' = k then (k, v) :: rest else (k', v') :: State.set rest k v

/-- JavaScript truthiness of a top-level value (`undefined` is falsy). -/
def truthy : Option Entry → Bool
  | none => false
  | some (.str s) => s ≠ ""
  | some (.num n) => n ≠ 0
  | some (.obj _) => true

/-- `x || 0` for a numeric property: a missing property and 0 both give 0. -/
def orZero (x : Option Int) : Int :=
  match x with
  | some n => n
  | none => 0

/-- `s.includes(sub)` on the characters of two strings. -/
def includesChars : List Char → List Char → Bool
  | [], sub => sub.isEmpty
  | c :: rest, sub => sub.isPrefixOf (c :: rest) || includesChars rest sub

/-- `s.includes(sub)`. -/
def includes (s sub : String) : Bool := includesChars s.data sub.data

/-- Configuration values read by the core (`config.system`, `config.delay`). -/
structure Config where
  dailyLimit : Int
  cooldownHours : Int
  consecutiveFailuresLimit : Int
  delayMin : Int
  delayMax : Int
  accountSwitch : Int
deriving DecidableEq, Repr

/-- One entry of `config.accounts`. -/
structure Account where
  username : String
  password : String
deriving DecidableEq, Repr

/-- What `loginAccount` resolves with, as far as `processAccount` uses it. -/
structure Session where
  steamID : String
  username : String
  avatarUrl : JString
  steamNickname : JString
deriving DecidableEq, Repr

/-- A profile known to the task service. -/
structure Profile where
  id : String
  steamId : String
deriving DecidableEq, Repr

/-- One pending task. -/
structure Task where
  taskId : String
  targetSteamProfileId : String
  requiredCommentText : String
  requiredCommentId : String
deriving DecidableEq, Repr

/-- Observable effects, in the order they happen. -/
inductive Event where
  | login (username : String)
  | logOff (username : String)
  | post (target : String) (text : String)
  | complete (taskId : String) (commentId : String) (profileId : String)
  | save (st : State)
  | sleep (ms : Int)
deriving DecidableEq, Repr

/-- The environment's choices. Each oracle is indexed by the number of earlier
consultations of the same kind (see `World`). -/
structure Env where
  /-- successive readings of the system clock -/
  clock : Nat → Instant
  /-- successive reads of the `isRunning` flag -/
  running : Nat → Bool
  /-- whether the n-th `writeFileSync` of the state file succeeds -/
  writeOk : Nat → Bool
  /-- n-th `loginAccount`: steamID, avatarUrl, steamNickname, or the rejection message -/
  login : Nat → Except String (String × JString × JString)
  /-- n-th task-service request when it is `getSteamProfiles` -/
  getSteamProfiles : Nat → Except String (List Profile)
  /-- n-th task-service request when it is `addSteamProfile`: `none` is success -/
  addSteamProfile : Nat → Option String
  /-- n-th task-service request when it is `getTasks` -/
  getTasks : Nat → Except String (List Task)
  /-- n-th task-service request when it is `completeTask`: `none` is success -/
  completeTask : Nat → Option String
  /-- n-th `postUserComment`: `none` is success, `some m` the error message -/
  postUserComment : Nat → Option String
  /-- n-th `Math.random()` -/
  random : Nat → Rat

/-- The mutable world of the process: the content of the state file (`none`
when it is missing or cannot be parsed), how often each oracle was consulted,
and the effects so far. -/
structure World where
  disk : Option State
  clockReads : Nat
  flagReads : Nat
  writes : Nat
  logins : Nat
  requests : Nat
  posts : Nat
  randoms : Nat
  trace : List Event
deriving DecidableEq, Repr

/-- Outcome of a step that may throw: the value or the thrown message, and the
world afterwards. -/
abbrev Res (α : Type) := Except String α × World

/-- Source `loadState()` (index.js 32-44). -/
def loadState (env : Env) (w : World) : State × World :=
  match w.disk with
  | some st => (st, w)
  | none =>
    ([("lastResetDate", .str (toDateString (env.clock w.clockReads))),
      ("lastWeeklyReset", .num (getWeekNumber (env.clock (w.clockReads + 1))))],
     { w with clockReads := w.clockReads + 2 })

/-- Source `saveState(state)` (index.js 46-48): `writeFileSync` replaces the file
or throws. -/
def saveState (env : Env) (w : World) (st : State) : Res Unit :=
  if env.writeOk w.writes then
    (.ok (), { w with disk := some st, writes := w.writes + 1,
                      trace := w.trace ++ [Event.save st] })
  else
    (.error "write failed", { w with writes := w.writes + 1 })

/-- The loop `for (let user in state) if (typeof state[user] === "object")
state[user].completedToday = 0`. -/
def resetDaily (st : State) : State :=
  st.map fun kv =>
    match kv.2 with
    | .obj r => (kv.1, .obj { r with completedToday := some 0 })
    | _ => kv

/-- The loop `for (let user in state) if (typeof state[user] === "object")
state[user].completedThisWeek = 0`. -/
def resetWeekly (st : State) : State :=
  st.map fun kv =>
    match kv.2 with
    | .obj r => (kv.1, .obj { r with completedThisWeek := some 0 })
    | _ => kv

/-- The two rollover checks of `checkDateResets` (index.js 61-79) on a loaded
state: the state to save and the `changed` flag. -/
def applyResets (st : State) (today : String) (currentWeek : Int) : State × Bool :=
  let r1 : State × Bool :=
    if st.get "lastResetDate" ≠ some (.str today) then
      ((resetDaily st).set "lastResetDate" (.str today), true)
    else (st, false)
  if r1.1.get "lastWeeklyReset" ≠ some (.num currentWeek) then
    ((resetWeekly r1.1).set "lastWeeklyReset" (.num currentWeek), true)
  else r1

/-- Source `checkDateResets()` (index.js 57-82). -/
def checkDateResets (env : Env) (w : World) : Res Unit :=
  let (state, w1) := loadState env w
  let today := toDateString (env.clock w1.clockReads)
  let currentWeek := getWeekNumber (env.clock (w1.clockReads + 1))
  let w2 := { w1 with clockReads := w1.clockReads + 2 }
  let r := applyResets state today currentWeek
  if r.2 then saveState env w2 r.1 else (.ok (), w2)

/-- Source `syncDashboardAccounts()` (index.js 84-126): the date resets, then a
read-only snapshot for the dashboard. -/
def syncDashboardAccounts (env : Env) (w : World) : Res Unit :=
  checkDateResets env w

/-- Source `getRandomDelay(min, max)` (index.js 128-130) for the draw `r`. -/
def getRandomDelay (r : Rat) (min max : Int) : Int :=
  Int.floor (r * ((max - min + 1 : Int) : Rat)) + min

/-! ## The task runner (`processAccount`) -/

/-- The identity write at the start of `processAccount` (index.js 209-213):
`if (!s[username]) s[username] = {}` and three property writes. `none` is the
`TypeError` of a property write on a string or number (module code is strict). -/
def identityWrite (s : State) (session : Session) : Option State :=
  let s1 := if truthy (s.get session.username) then s
            else s.set session.username (.obj AccountRecord.empty)
  match s1.get session.username with
  | some (.obj r) =>
    some (s1.set session.username
      (.obj { r with avatarUrl := session.avatarUrl,
                     steamNickname := session.steamNickname,
                     steamID := .str session.steamID }))
  | _ => none

/-- `state[username]?.completedToday || 0` (index.js 256). -/
def completedTodayOf (st : State) (username : String) : Int :=
  match st.get username with
  | some (.obj r) => orZero r.completedToday
  | _ => 0

/-- The daily-limit branch's writes (index.js 260-262). `none` is the `TypeError`
when `state[username]` is not an object. -/
def limitCooldown (st : State) (username : String) (now cooldownHours : Int) :
    Option State :=
  match st.get username with
  | some (.obj r) =>
    some (st.set username
      (.obj { r with cooldownUntil := some (now + cooldownHours * 60 * 60 * 1000),
                     lastError := .null }))
  | _ => none

/-- The success branch's replacement of the record (index.js 309-317). A value
that is not a record spreads to no property the program reads. -/
def successUpdate (st : State) (username : String) (now : Int) : State :=
  let old : AccountRecord :=
    match st.get username with
    | some (.obj r) => r
    | _ => AccountRecord.empty
  st.set username
    (.obj { old with completedToday := some (orZero old.completedToday + 1),
                     completedThisWeek := some (orZero old.completedThisWeek + 1),
                     totalCompleted := some (orZero old.totalCompleted + 1),
                     lastSuccess := some now,
                     lastError := .null,
                     lastErrorType := .null })

/-- The writes when the restricted-target counter reaches the limit
(index.js 370-371). -/
def restrictedCooldown (st : State) (username : String) (now : Int) : Option State :=
  match st.get username with
  | some (.obj r) =>
    some (st.set username
      (.obj { r with cooldownUntil := some (now + 2 * 60 * 60 * 1000),
                     lastError := .str "Consecutive failures" }))
  | _ => none

/-- `s[username]?.lastErrorType === "429"` (index.js 381). -/
def isTiered (st : State) (username : String) : Bool :=
  match st.get username with
  | some (.obj r) => r.lastErrorType = .str "429"
  | _ => false

/-- The rate-limit branch's writes (index.js 381-389). -/
def rateLimitCooldown (st : State) (username : String) (now : Int) (error : String) :
    Option State :=
  let waitMs : Int := if isTiered st username then 20 * 60 * 1000 else 12 * 60 * 60 * 1000
  match st.get username with
  | some (.obj r) =>
    some (st.set username
      (.obj { r with cooldownUntil := some (now + waitMs),
                     lastError := .str error,
                     lastErrorType := .str "429" }))
  | _ => none

/-- The tail shared by the three cooldown branches: `saveState(s);
syncDashboardAccounts(); break;` once the new state was built (`none`: the
property write threw). The result `none` means `break`. -/
def persistAndStop (env : Env) (w : World) (st : Option State) : Res (Option Int) :=
  match st with
  | none => (.error "TypeError", w)
  | some st1 =>
    match saveState env w st1 with
    | (.error e, w1) => (.error e, w1)
    | (.ok _, w1) =>
      match syncDashboardAccounts env w1 with
      | (.error e, w2) => (.error e, w2)
      | (.ok _, w2) => (.ok none, w2)

/-- The success branch (index.js 284-347) after `postUserComment` succeeded.
The result `some 0` is the reset `sessionFailures`. -/
def onSuccess (env : Env) (cfg : Config) (username profileId : String) (task : Task)
    (w : World) : Res (Option Int) :=
  -- await api.completeTask(task.taskId, task.requiredCommentId, r4rProfile.id);
  let w1 := { w with requests := w.requests + 1,
                     trace := w.trace ++
                       [Event.complete task.taskId task.requiredCommentId profileId] }
  match env.completeTask w.requests with
  | some e => (.error e, w1)
  | none =>
    -- sessionFailures = 0; const newState = loadState(); ...; saveState(newState);
    let (newState, w2) := loadState env w1
    let now := (env.clock w2.clockReads).ms
    let w3 := { w2 with clockReads := w2.clockReads + 1 }
    match saveState env w3 (successUpdate newState username now) with
    | (.error e, w4) => (.error e, w4)
    | (.ok _, w4) =>
      match syncDashboardAccounts env w4 with
      | (.error e, w5) => (.error e, w5)
      | (.ok _, w5) =>
        -- await sleep(getRandomDelay(config.delay.min, config.delay.max));
        let delay := getRandomDelay (env.random w5.randoms) cfg.delayMin cfg.delayMax
        (.ok (some 0), { w5 with randoms := w5.randoms + 1,
                                 trace := w5.trace ++ [Event.sleep delay] })

/-- The failure branch (index.js 348-398) for the error message `error`. The
result `some n` continues the loop with `sessionFailures = n`, `none` breaks. -/
def onFailure (env : Env) (cfg : Config) (username : String) (error : String)
    (sessionFailures : Int) (w : World) : Res (Option Int) :=
  let isRateLimit := includes error "frequently" || includes error "429"
  let isSettingsError := includes error "allow you to add comments"
  if isSettingsError then
    if cfg.consecutiveFailuresLimit ≤ sessionFailures + 1 then
      let (s, w1) := loadState env w
      let now := (env.clock w1.clockReads).ms
      let w2 := { w1 with clockReads := w1.clockReads + 1 }
      persistAndStop env w2 (restrictedCooldown s username now)
    else
      -- continue
      (.ok (some (sessionFailures + 1)), w)
  else if isRateLimit then
    let (s, w1) := loadState env w
    let now := (env.clock w1.clockReads).ms
    let w2 := { w1 with clockReads := w1.clockReads + 1 }
    persistAndStop env w2 (rateLimitCooldown s username now error)
  else
    -- await sleep(5000);
    (.ok (some sessionFailures), { w with trace := w.trace ++ [Event.sleep 5000] })

/-- One iteration of `for (const task of tasks)` (index.js 252-399). The result
`some n` goes on to the next task with `sessionFailures = n`; `none` is `break`. -/
def taskStep (env : Env) (cfg : Config) (username profileId : String) (task : Task)
    (sessionFailures : Int) (w : World) : Res (Option Int) :=
  -- if (!isRunning) break;
  let w1 := { w with flagReads := w.flagReads + 1 }
  if env.running w.flagReads = false then (.ok none, w1)
  else
    -- const state = loadState();
    let (state, w2) := loadState env w1
    if cfg.dailyLimit ≤ completedTodayOf state username then
      let now := (env.clock w2.clockReads).ms
      let w3 := { w2 with clockReads := w2.clockReads + 1 }
      persistAndStop env w3 (limitCooldown state username now cfg.cooldownHours)
    else
      -- community.postUserComment(task.targetSteamProfileId, task.requiredCommentText, ...)
      let w3 := { w2 with posts := w2.posts + 1,
                          trace := w2.trace ++
                            [Event.post task.targetSteamProfileId task.requiredCommentText] }
      match env.postUserComment w2.posts with
      | none => onSuccess env cfg username profileId task w3
      | some error => onFailure env cfg username error sessionFailures w3

/-- The loop `for (const task of tasks)`; it ends when the tasks are used up, on
`break`, or when an iteration throws. -/
def taskLoop (env : Env) (cfg : Config) (username profileId : String) :
    List Task → Int → World → Res Unit
  | [], _, w => (.ok (), w)
  | task :: rest, sessionFailures, w =>
    match taskStep env cfg username profileId task sessionFailures w with
    | (.ok (some n), w1) => taskLoop env cfg username profileId rest n w1
    | (.ok none, w1) => (.ok (), w1)
    | (.error e, w1) => (.error e, w1)

/-- From `api.getTasks` to the end of the `try` block (index.js 237-399). -/
def fetchAndRun (env : Env) (cfg : Config) (session : Session) (profile : Profile)
    (w : World) : Res Unit :=
  let w1 := { w with requests := w.requests + 1 }
  match env.getTasks w.requests with
  | .error e => (.error e, w1)
  | .ok tasks =>
    -- if (tasks.length === 0) return;
    if tasks.length = 0 then (.ok (), w1)
    else taskLoop env cfg session.username profile.id tasks 0 w1

/-- The `try` block of `processAccount` (index.js 217-399). -/
def sessionBody (env : Env) (cfg : Config) (session : Session) (w : World) : Res Unit :=
  -- const steamProfiles = await api.getSteamProfiles();
  let w1 := { w with requests := w.requests + 1 }
  match env.getSteamProfiles w.requests with
  | .error e => (.error e, w1)
  | .ok steamProfiles =>
    match steamProfiles.find? (fun p => p.steamId = session.steamID) with
    | some profile => fetchAndRun env cfg session profile w1
    | none =>
      -- await api.addSteamProfile(steamID);
      let w2 := { w1 with requests := w1.requests + 1 }
      match env.addSteamProfile w1.requests with
      | some e => (.error e, w2)
      | none =>
        -- const updated = await api.getSteamProfiles();
        let w3 := { w2 with requests := w2.requests + 1 }
        match env.getSteamProfiles w2.requests with
        | .error e => (.error e, w3)
        | .ok updated =>
          match updated.find? (fun p => p.steamId = session.steamID) with
          | some profile => fetchAndRun env cfg session profile w3
          | none => (.error "Rep4Rep profile init failed", w3)

/-- Source `processAccount(session)` (index.js 205-418). The identity write,
its save and the first dashboard sync stand before the `try`; what they throw
leaves the function. The `catch` swallows what the `try` block throws, and
`finally` logs the session off. -/
def processAccount (env : Env) (cfg : Config) (session : Session) (w : World) : Res Unit :=
  let (s, w1) := loadState env w
  match identityWrite s session with
  | none => (.error "TypeError", w1)
  | some s1 =>
    match saveState env w1 s1 with
    | (.error e, w2) => (.error e, w2)
    | (.ok _, w2) =>
      match syncDashboardAccounts env w2 with
      | (.error e, w3) => (.error e, w3)
      | (.ok _, w3) =>
        let w4 := (sessionBody env cfg session w3).2
        (.ok (), { w4 with trace := w4.trace ++ [Event.logOff session.username] })

/-! ## The cycle scheduler (`main`) -/

/-- `state[account.username]?.cooldownUntil || 0` (index.js 455). -/
def cooldownOf (state : State) (username : String) : Int :=
  match state.get username with
  | some (.obj r) => orZero r.cooldownUntil
  | _ => 0

/-- `Math.min(nextAvailableTime, cooldownUntil)`, `none` being `Infinity`. -/
def minTime (next : Option Int) (cooldownUntil : Int) : Option Int :=
  match next with
  | none => some cooldownUntil
  | some n => some (min n cooldownUntil)

/-- The inner `try` block of the account loop (index.js 461-470). -/
def attemptAccount (env : Env) (cfg : Config) (account : Account) (w : World) : Res Unit :=
  -- const session = await loginAccount(account);
  let w1 := { w with logins := w.logins + 1,
                     trace := w.trace ++ [Event.login account.username] }
  match env.login w.logins with
  | .error e => (.error e, w1)
  | .ok (steamID, avatarUrl, steamNickname) =>
    let session : Session :=
      { steamID := steamID, username := account.username,
        avatarUrl := avatarUrl, steamNickname := steamNickname }
    match processAccount env cfg session w1 with
    | (.error e, w2) => (.error e, w2)
    | (.ok _, w2) =>
      match syncDashboardAccounts env w2 with
      | (.error e, w3) => (.error e, w3)
      | (.ok _, w3) =>
        -- await sleep(config.delay.accountSwitch);
        (.ok (), { w3 with trace := w3.trace ++ [Event.sleep cfg.accountSwitch] })

/-- The loop `for (const account of accounts)` of one cycle (index.js 453-477),
on the `state` loaded at the start of the cycle. It carries `accountsAttempted`
and `nextAvailableTime` (`none` is `Infinity`). What the inner `catch` block
throws ends the loop. -/
def accountsPass (env : Env) (cfg : Config) (state : State) :
    List Account → Nat → Option Int → World → Res (Nat × Option Int)
  | [], attempted, next, w => (.ok (attempted, next), w)
  | account :: rest, attempted, next, w =>
    -- if (!isRunning) break;
    let w1 := { w with flagReads := w.flagReads + 1 }
    if env.running w.flagReads = false then (.ok (attempted, next), w1)
    else
      let cooldownUntil := cooldownOf state account.username
      let now := (env.clock w1.clockReads).ms
      let w2 := { w1 with clockReads := w1.clockReads + 1 }
      if now < cooldownUntil then
        accountsPass env cfg state rest attempted (minTime next cooldownUntil) w2
      else
        match attemptAccount env cfg account w2 with
        | (.ok _, w3) => accountsPass env cfg state rest (attempted + 1) next w3
        | (.error _, w3) =>
          -- catch (e) { logger.error(...); syncDashboardAccounts(); }
          match syncDashboardAccounts env w3 with
          | (.ok _, w4) => accountsPass env cfg state rest (attempted + 1) next w4
          | (.error e, w4) => (.error e, w4)

/-- The start of one cycle up to the end of the account loop (index.js
448-477): `const state = loadState(); let nextAvailableTime = Infinity; let
accountsAttempted = 0;` and the loop over `accounts = config.accounts`. -/
def cyclePass (env : Env) (cfg : Config) (accounts : List Account) (w : World) :
    Res (Nat × Option Int) :=
  let (state, w1) := loadState env w
  accountsPass env cfg state accounts 0 none w1

/-- The usernames of the login attempts recorded in a trace, in order. -/
def loginsOf : List Event → List String
  | [] => []
  | Event.login u :: rest => u :: loginsOf rest
  | _ :: rest => loginsOf rest

/-- The targets of the posted comments recorded in a trace, in order. -/
def postsOf : List Event → List String
  | [] => []
  | Event.post target _ :: rest => target :: postsOf rest
  | _ :: rest => postsOf rest

/-! ## Auxiliary notions used in the statements -/

/-- A stretch of trace that holds only saved states. -/
def OnlySaves (es : List Event) : Prop := ∀ e ∈ es, ∃ s, e = Event.save s

/-- What the reset loops do to one top-level value: `daily` and `weekly` tell
which of the two loops run. -/
def resetEntry (daily weekly : Bool) : Entry → Entry
  | .obj r =>
    .obj { r with completedToday := if daily then some 0 else r.completedToday,
                  completedThisWeek := if weekly then some 0 else r.completedThisWeek }
  | e => e

/-- The step from `w1` to `w2` did nothing but read the clock and write the state
file: no login, request, comment, flag read, random draw or sleep. -/
def StoreOnly (w1 w2 : World) : Prop :=
  w2.posts = w1.posts ∧ w2.requests = w1.requests ∧ w2.logins = w1.logins ∧
  w2.flagReads = w1.flagReads ∧ w2.randoms = w1.randoms ∧
  ∃ more, w2.trace = w1.trace ++ more ∧ OnlySaves more

/-! ## Sample data for the worked instances -/

/-- The defaults of `config.js`: 10 comments a day, 24 h cooldown, 7 consecutive
failures, delays of 60 s to 300 s, 30 s between accounts. -/
def defaultConfig : Config :=
  { dailyLimit := 10, cooldownHours := 24, consecutiveFailuresLimit := 7,
    delayMin := 60000, delayMax := 300000, accountSwitch := 30000 }

/-- An environment in which nothing fails: the clock stands at noon UTC of
Thursday 5 November 2026, the flag is set, writes succeed, the task service
knows the profile and has no tasks, comments succeed. -/
def calmEnv : Env :=
  { clock := fun _ => { ms := 1793880000000, year := 2026, month := 10, date := 5 },
    running := fun _ => true,
    writeOk := fun _ => true,
    login := fun _ => .ok ("7656", .null, .null),
    getSteamProfiles := fun _ => .ok [{ id := "p1", steamId := "7656" }],
    addSteamProfile := fun _ => none,
    getTasks := fun _ => .ok [],
    completeTask := fun _ => none,
    postUserComment := fun _ => none,
    random := fun _ => 0 }

/-- A record with the three counters at `n` and nothing else recorded. -/
def recordWithCount (n : Int) : AccountRecord :=
  { AccountRecord.empty with completedToday := some n, completedThisWeek := some n,
                             totalCompleted := some n }

/-- A store with both markers for 5 November 2026 and account "bob" at count `n`. -/
def storeWithCount (n : Int) : State :=
  [("lastResetDate", .str "Thu Nov 05 2026"), ("lastWeeklyReset", .num 45),
   ("bob", .obj (recordWithCount n))]

/-- A fresh world whose state file holds `st`. -/
def worldWith (st : State) : World :=
  { disk := some st, clockReads := 0, flagReads := 0, writes := 0, logins := 0,
    requests := 0, posts := 0, randoms := 0, trace := [] }

/-- A sample task aimed at profile `target`. -/
def taskFor (target : String) : Task :=
  { taskId := "t-" ++ target, targetSteamProfileId := target,
    requiredCommentText := "+rep", requiredCommentId := "c1" }

/-- The trace entry of the comment posted for a task. -/
def postEvent (task : Task) : Event :=
  Event.post task.targetSteamProfileId task.requiredCommentText

/-- `postUserComment` number `n` fails because the target restricts comments. -/
def RestrictedAt (env : Env) (n : Nat) : Prop :=
  ∃ m, env.postUserComment n = some m ∧ includes m "allow you to add comments" = true

/-- An environment in which the state file cannot be written and Steam rejects
the first login; everything else is as in `calmEnv`. -/
def fullDiskEnv : Env :=
  { calmEnv with
    writeOk := fun _ => false,
    login := fun n => if n = 0 then .error "InvalidPassword" else calmEnv.login n }

/-- A store last touched on Wednesday 4 November 2026, with two accounts. -/
def staleStore : State :=
  [("lastResetDate", .str "Wed Nov 04 2026"), ("lastWeeklyReset", .num 45),
   ("alice", .obj (recordWithCount 3)), ("bob", .obj (recordWithCount 3))]

/-- Two configured accounts. -/
def twoAccounts : List Account :=
  [{ username := "alice", password := "pw1" }, { username := "bob", password := "pw2" }]

/-- Six sample tasks. -/
def sixTasks : List Task :=
  [taskFor "a1", taskFor "a2", taskFor "a3", taskFor "a4", taskFor "a5", taskFor "a6"]

/-- The error text of a profile that restricts comments. -/
def restrictedText : String :=
  "The settings on this account do not allow you to add comments."

/-- The error text of Steam's throttling. -/
def throttledText : String :=
  "You have been posting too frequently, and can not make another post right now"

/-- As `calmEnv`, but every comment fails on a restricted target. -/
def restrictedEnv : Env :=
  { calmEnv with postUserComment := fun _ => some restrictedText }

/-- As `calmEnv`, but every comment fails on a restricted target except the
seventh (number 6), which succeeds. -/
def mixedEnv : Env :=
  { calmEnv with postUserComment := fun n => if n = 6 then none else some restrictedText }

/-- As `calmEnv`, but every comment is throttled. -/
def throttledEnv : Env :=
  { calmEnv with postUserComment := fun _ => some throttledText }

/-- A store whose day marker is current and whose week marker is last week's. -/
def lastWeekStore : State :=
  [("lastResetDate", .str "Thu Nov 05 2026"), ("lastWeeklyReset", .num 44),
   ("bob", .obj (recordWithCount 3))]

/-! ## After the account loop: the wait before the next cycle -/

/-- The wait computed when no account was attempted (index.js 482-485):
`nextAvailableTime !== Infinity ? Math.max(0, nextAvailableTime - Date.now()) :
600000`, `none` being `Infinity`. -/
def computeWait (next : Option Int) (now : Int) : Int :=
  match next with
  | some t => max 0 (t - now)
  | none => 600000

/-- The polling loop of the idle wait (index.js 495-507). `accountsAt i` is what
`config.accounts` returns at the `i`-th poll of this wait, `lastCount` the
length noted before the loop, `waited` the loop variable. -/
def idleWait (env : Env) (accountsAt : Nat → List Account) (waitMs : Int) (lastCount : Nat)
    (waited : Int) (poll : Nat) (w : World) : World :=
  -- while (waited < waitMs && isRunning)
  if waited < waitMs then
    if env.running w.flagReads = false then { w with flagReads := w.flagReads + 1 }
    -- if (config.accounts.length !== lastCount) break;
    else if (accountsAt poll).length ≠ lastCount then
      { w with flagReads := w.flagReads + 1 }
    else
      -- await sleep(Math.min(chunk, waitMs - waited)); waited += chunk;
      idleWait env accountsAt waitMs lastCount (waited + 5000) (poll + 1)
        { w with flagReads := w.flagReads + 1,
                 trace := w.trace ++ [Event.sleep (min 5000 (waitMs - waited))] }
  else w
termination_by (waitMs - waited).toNat
decreasing_by omega

/-- What follows the account loop in one cycle (index.js 479-515). `accountsAt 0`
is the list read for `lastCount`, `accountsAt (i + 1)` the list at the `i`-th
poll. The result tells whether the supervisor loop goes on (`false` is the
`break` on shutdown). -/
def afterPass (env : Env) (accountsAt : Nat → List Account) (attempted : Nat)
    (next : Option Int) (w : World) : Bool × World :=
  -- if (!isRunning) break;
  let w1 := { w with flagReads := w.flagReads + 1 }
  if env.running w.flagReads = false then (false, w1)
  else if attempted = 0 then
    let waitMs := computeWait next (env.clock w1.clockReads).ms
    let w2 := { w1 with clockReads := w1.clockReads + 1 }
    (true, idleWait env (fun i => accountsAt (i + 1)) waitMs (accountsAt 0).length 0 0 w2)
  else
    -- await sleep(60000);
    (true, { w1 with trace := w1.trace ++ [Event.sleep 60000] })

/-- One turn of the supervisor loop of `main` (index.js 432-521): the account
loop on the list `accountsAt 0` that `config.accounts` returns, then the wait.
What escapes the account loop is caught, and the cycle is retried after 30 s. -/
def cycle (env : Env) (cfg : Config) (accountsAt : Nat → List Account) (w : World) :
    Bool × World :=
  match cyclePass env cfg (accountsAt 0) w with
  | (.error _, w1) => (true, { w1 with trace := w1.trace ++ [Event.sleep 30000] })
  | (.ok (attempted, next), w1) =>
    afterPass env (fun i => accountsAt (i + 1)) attempted next w1

/-- The start of `main` before the supervisor loop (index.js 420-429): the
first `syncDashboardAccounts()`, outside any `try`. -/
def mainStartup (env : Env) (w : World) : Res Unit :=
  syncDashboardAccounts env w

/-- The durations of the sleeps recorded in a trace, in order. -/
def sleepsOf : List Event → List Int
  | [] => []
  | Event.sleep ms :: rest => ms :: sleepsOf rest
  | _ :: rest => sleepsOf rest

/-- The usernames of the logoffs recorded in a trace, in order. -/
def logOffsOf : List Event → List String
  | [] => []
  | Event.logOff u :: rest => u :: logOffsOf rest
  | _ :: rest => logOffsOf rest

/-- The smallest of a list of timestamps, `none` for the empty list. -/
def minimumTime : List Int → Option Int
  | [] => none
  | t :: rest => some (match minimumTime rest with
                       | none => t
                       | some m => min t m)

/-- As `calmEnv`, but the task service has one task pending. -/
def busyEnv : Env :=
  { calmEnv with getTasks := fun _ => .ok [taskFor "a"] }

/-- The account "bob" listed twice. -/
def bobTwice : List Account :=
  [{ username := "bob", password := "pw" }, { username := "bob", password := "pw" }]

/-- The `cooldownUntil` (or 0) that the state file holds for `username`; 0 when
the file is missing. -/
def cooldownOnDisk (w : World) (username : String) : Int :=
  match w.disk with
  | some st => cooldownOf st username
  | none => 0

/-- The earlier of two optional timestamps, `none` being `Infinity`. -/
def earlier (a b : Option Int) : Option Int :=
  match a, b with
  | none, b => b
  | some x, none => some x
  | some x, some y => some (min x y)

/-- A store in which "alice" and "bob" are in cooldown until two later times. -/
def coolingStore : State :=
  [("lastResetDate", .str "Wed Nov 04 2026"), ("lastWeeklyReset", .num 45),
   ("alice", .obj { recordWithCount 3 with cooldownUntil := some 1793880900000 }),
   ("bob", .obj { recordWithCount 3 with cooldownUntil := some 1793880600000 })]

/-- The account list holding only "alice". -/
def onlyAlice : List Account := [{ username := "alice", password := "pw1" }]

/-- The account list holding only "carol". -/
def onlyCarol : List Account := [{ username := "carol", password := "pw3" }]

/-- An error text of neither special kind. -/
def otherText : String := "Error: socket hang up"

/-- As `calmEnv`, but every comment fails with an error of neither special kind. -/
def flakyEnv : Env :=
  { calmEnv with postUserComment := fun _ => some otherText }

/-- As `calmEnv`, but the completion report is refused. -/
def refusingEnv : Env :=
  { calmEnv with completeTask := fun _ => some "API Error (/tasks/complete): task expired" }

/-- An error text that names a restricted target and carries "429" as well. -/
def bothText : String :=
  "429: The settings on this account do not allow you to add comments."

/-- As `calmEnv`, but the state file cannot be written. -/
def readOnlyEnv : Env :=
  { calmEnv with writeOk := fun _ => false }

/-- A session of "bob" as `loginAccount` resolves it. -/
def bobSession : Session :=
  { steamID := "7656", username := "bob", avatarUrl := .null, steamNickname := .null }

/-! ## The dashboard state (`server.js`) and the account validator (`validator.js`) -/

/-- An object whose property values are not looked into: property names with
rendered values, as in `appState.stats`, `appState.system` and the rows of
`appState.accounts`. -/
abbrev Props := List (String × String)

/-- `target[k] = v`: an existing property keeps its place, a new one goes last. -/
def setProp : Props → String → String → Props
  | [], k, v => [(k, v)]
  | (k', v') :: rest, k, v =>
    if k' = k then (k, v) :: rest else (k', v') :: setProp rest k v

/-- `Object.assign(target, source)`. -/
def objectAssign (target source : Props) : Props :=
  source.foldl (fun t kv => setProp t kv.1 kv.2) target

/-- An entry of `appState.logs`. -/
structure LogEntry where
  text : String
  type : String
  time : String
deriving DecidableEq, Repr

/-- The `logEntry` of an update: a string, or an object with `text` and `type`. -/
inductive LogInput where
  | text (s : String)
  | entry (text : String) (type : String)
deriving DecidableEq, Repr

/-- The fields of `appState` that `updateAppState` touches (`currentAccount`:
`none` is `null`). -/
structure AppState where
  status : String
  currentAccount : Option String
  accounts : List Props
  stats : Props
  logs : List LogEntry
  system : Props
deriving DecidableEq, Repr

/-- The argument of `updateAppState`; `none` is a property that is not supplied
(`undefined`). For `currentAccount`, `some none` is `null`. -/
structure Update where
  logEntry : Option LogInput
  stats : Option Props
  system : Option Props
  accounts : Option (List Props)
  status : Option String
  currentAccount : Option (Option String)
deriving DecidableEq, Repr

/-- The initial `appState` of `server.js` (24-49), values rendered as text. -/
def initialAppState : AppState :=
  { status := "idle", currentAccount := none, accounts := [],
    stats := [("totalWeekly", "0"), ("todayEarned", "0"), ("commentsPerHour", "0"),
              ("avgTaskTime", "0"), ("taskHistory", "[]")],
    logs := [],
    system := [("nextCycle", "Calculating..."), ("memoryUsage", "0 MB"),
               ("cpuUsage", "0%"), ("totalAccounts", "0"), ("apiStatus", "checking")] }

/-- The test `if (newState.logEntry)`: an object is truthy, a string unless it
is empty, `undefined` is not. -/
def logEntryTruthy : Option LogInput → Bool
  | none => false
  | some (.text s) => s ≠ ""
  | some (.entry _ _) => true

/-- The entry built from a `logEntry` (server.js 53-63); `time` is
`new Date().toLocaleTimeString("en-GB")`. -/
def entryOf (time : String) : LogInput → LogEntry
  | .text s => { text := s, type := "info", time := time }
  | .entry text type => { text := text, type := type, time := time }

/-- Source `updateAppState(newState)` (server.js 51-76), `time` being the
wall-clock text of the call. -/
def updateAppState (time : String) (app : AppState) (newState : Update) : AppState :=
  -- if (newState.logEntry) appState.logs = [entry, ...appState.logs].slice(0, 20);
  let logs :=
    match newState.logEntry with
    | some e =>
      if logEntryTruthy (some e) then (entryOf time e :: app.logs).take 20 else app.logs
    | none => app.logs
  -- if (newState.stats) Object.assign(appState.stats, newState.stats);
  let stats := match newState.stats with
    | some s => objectAssign app.stats s
    | none => app.stats
  -- if (newState.system) Object.assign(appState.system, newState.system);
  let system := match newState.system with
    | some s => objectAssign app.system s
    | none => app.system
  -- if (newState.accounts) appState.accounts = newState.accounts;
  let accounts := match newState.accounts with
    | some a => a
    | none => app.accounts
  -- if (newState.status) appState.status = newState.status;
  let status := match newState.status with
    | some s => if s ≠ "" then s else app.status
    | none => app.status
  -- if (newState.currentAccount !== undefined) appState.currentAccount = ...
  let currentAccount := match newState.currentAccount with
    | some c => c
    | none => app.currentAccount
  { status := status, currentAccount := currentAccount, accounts := accounts,
    stats := stats, logs := logs, system := system }

/-- The dashboard state after a series of calls, each with its wall-clock text. -/
def runUpdates (app : AppState) (calls : List (String × Update)) : AppState :=
  calls.foldl (fun a c => updateAppState c.1 a c.2) app

/-- An update that supplies nothing. -/
def Update.none : Update :=
  { logEntry := Option.none, stats := Option.none, system := Option.none,
    accounts := Option.none, status := Option.none, currentAccount := Option.none }

/-- A property value of an element, as far as the test `!x` tells values apart:
missing (`undefined`), `null`, a boolean, a number, a string, or an object or
array. -/
inductive FieldValue where
  | missing
  | null
  | bool (b : Bool)
  | num (n : Rat)
  | str (s : String)
  | object
deriving DecidableEq, Repr

/-- JavaScript truthiness of a property value: `undefined`, `null`, `false`, 0
and the empty string are falsy. -/
def truthyValue : FieldValue → Bool
  | .missing => false
  | .null => false
  | .bool b => b
  | .num n => n ≠ 0
  | .str s => s ≠ ""
  | .object => true

/-- An element of the accounts array as the validator sees it: `null` or
`undefined`, on which a property read throws `TypeError`, or any other value
with its `username` and `password` (both missing for an element that is a
number, a string, a boolean or an array). -/
inductive AccountInput where
  | nullish
  | value (username password : FieldValue)
deriving DecidableEq, Repr

/-- The argument of `validateAccounts`: something that is not an array, or an
array of elements. -/
inductive AccountsInput where
  | notArray
  | array (elems : List AccountInput)
deriving DecidableEq, Repr

/-- The loop of `validateAccounts` (validator.js 13-21): throws at the first
element for which `!acc.username || !acc.password` holds, or on which the
property read itself throws. -/
def checkElements : List AccountInput → Except String Bool
  | [] => .ok true
  | .nullish :: _ => .error "TypeError"
  | .value username password :: rest =>
    if !truthyValue username || !truthyValue password then
      .error "Account missing required fields (username or password)"
    else checkElements rest

/-- Source `validateAccounts(accounts)` (validator.js 3-24). -/
def validateAccounts : AccountsInput → Except String Bool
  | .notArray => .error "accounts.json must be an array"
  | .array elems =>
    if elems.length = 0 then .ok false
    else checkElements elems

/-- Whether a run threw. -/
def raised {α : Type} : Except String α → Bool
  | .error _ => true
  | .ok _ => false

/-! ## Reading a date string back -/

/-- The value of a decimal digit character. -/
def charVal (c : Char) : Nat := c.toNat - 48

/-- The number that the digits `cs` continue from the value `a` read so far. -/
def valFrom (a : Nat) (cs : List Char) : Nat :=
  cs.foldl (fun acc c => 10 * acc + charVal c) a

/-- The index of an English three-letter month name; 12 for anything else. -/
def monthIndex (s : String) : Int :=
  if s = "Jan" then 0 else if s = "Feb" then 1 else if s = "Mar" then 2
  else if s = "Apr" then 3 else if s = "May" then 4 else if s = "Jun" then 5
  else if s = "Jul" then 6 else if s = "Aug" then 7 else if s = "Sep" then 8
  else if s = "Oct" then 9 else if s = "Nov" then 10 else if s = "Dec" then 11 else 12

/-! ## The store under the writes of the program -/

/-- One write of the program to the store: the resets of `checkDateResets` with
its two clock readings, and the writes of `processAccount`. -/
inductive StoreStep where
  | reset (today weekNow : Instant)
  | identity (session : Session)
  | success (username : String) (now : Int)
  | dailyLimit (username : String) (now cooldownHours : Int)
  | restricted (username : String) (now : Int)
  | rateLimit (username : String) (now : Int) (error : String)
deriving DecidableEq, Repr

/-- The store that is saved by a step made on the loaded store `st`; a step
that throws before its save leaves the store as it is. -/
def applyStep (st : State) : StoreStep → State
  | .reset today weekNow => (applyResets st (toDateString today) (getWeekNumber weekNow)).1
  | .identity session => (identityWrite st session).getD st
  | .success username now => successUpdate st username now
  | .dailyLimit username now cooldownHours =>
    (limitCooldown st username now cooldownHours).getD st
  | .restricted username now => (restrictedCooldown st username now).getD st
  | .rateLimit username now error => (rateLimitCooldown st username now error).getD st

/-- The default of `loadState` (index.js 40-43) for its two clock readings. -/
def defaultState (today weekNow : Instant) : State :=
  [("lastResetDate", .str (toDateString today)),
   ("lastWeeklyReset", .num (getWeekNumber weekNow))]

/-- The store after a series of steps. -/
def runSteps (st : State) (steps : List StoreStep) : State :=
  steps.foldl applyStep st

/-- Two clock readings taken one after the other that show the same calendar
day, an existing date of a year from 0 on. -/
def ClockOk (a b : Instant) : Prop :=
  ValidDate a.year a.month a.date ∧ 0 ≤ a.year ∧
    b.year = a.year ∧ b.month = a.month ∧ b.date = a.date

instance (a b : Instant) : Decidable (ClockOk a b) := by
  unfold ClockOk; infer_instance

/-- A key that is not one of the two markers. -/
def NotMarker (k : String) : Prop := k ≠ "lastResetDate" ∧ k ≠ "lastWeeklyReset"

instance (k : String) : Decidable (NotMarker k) := by
  unfold NotMarker; infer_instance

/-- The steps considered: resets whose two readings show one calendar day, and
account writes under a username that is not a marker key. -/
def StepOk : StoreStep → Prop
  | .reset today weekNow => ClockOk today weekNow
  | .identity session => NotMarker session.username
  | .success username _ => NotMarker username
  | .dailyLimit username _ _ => NotMarker username
  | .restricted username _ => NotMarker username
  | .rateLimit username _ _ => NotMarker username

instance (s : StoreStep) : Decidable (StepOk s) := by
  cases s <;> unfold StepOk <;> infer_instance

/-- The counters of a record are in order, a missing counter counting as 0. -/
def Ordered (r : AccountRecord) : Prop :=
  0 ≤ orZero r.completedToday ∧ orZero r.completedToday ≤ orZero r.completedThisWeek ∧
    orZero r.completedThisWeek ≤ orZero r.totalCompleted

/-- Both markers describe one clock reading. -/
def Coherent (st : State) : Prop :=
  ∃ i : Instant, ValidDate i.year i.month i.date ∧ 0 ≤ i.year ∧
    st.get "lastResetDate" = some (.str (toDateString i)) ∧
    st.get "lastWeeklyReset" = some (.num (getWeekNumber i))

/-- The markers are coherent and every record has its counters in order. -/
def StoreInv (st : State) : Prop :=
  Coherent st ∧ ∀ k r, st.get k = some (.obj r) → Ordered r

/-- Noon of Sunday 8 November 2026. -/
def sundayNoon : Instant := { ms := 1794139200000, year := 2026, month := 10, date := 8 }

/-- The last millisecond of Sunday 8 November 2026. -/
def sundayNight : Instant := { ms := 1794182399999, year := 2026, month := 10, date := 8 }

/-- The first millisecond of Monday 9 November 2026. -/
def mondayMorning : Instant := { ms := 1794182400000, year := 2026, month := 10, date := 9 }

/-- The store on Sunday after three completed tasks of "bob", from the default. -/
def sundayStore : State :=
  runSteps (defaultState sundayNoon sundayNoon)
    [.identity bobSession, .success "bob" 1794139200000, .success "bob" 1794139260000,
     .success "bob" 1794139320000]

/-- A clock whose first reading is the end of Sunday and whose later readings
are Monday; everything else as in `calmEnv`. -/
def midnightEnv : Env :=
  { calmEnv with clock := fun n => if n = 0 then sundayNight else mondayMorning }

/-- The record of "bob" in `sundayStore`. -/
def bobAfterThree : AccountRecord :=
  { avatarUrl := .null, steamNickname := .null, steamID := .str "7656",
    cooldownUntil := none, completedToday := some 3, completedThisWeek := some 3,
    totalCompleted := some 3, lastSuccess := some 1794139320000,
    lastError := .null, lastErrorType := .null }

/-! ## The state file as text: `JSON.stringify` and `JSON.parse` on the store -/

/-- The two JSON built-ins as the store uses them: `stringify` is
`JSON.stringify(state, null, 2)`, `parse` is `JSON.parse`, `none` being its
`SyntaxError`. -/
structure JsonCodec where
  stringify : State → String
  parse : String → Option State

/-- Source `saveState(state)` (index.js 46-48) at the level of the file's text:
the text that `writeFileSync` is given. -/
def saveStateText (json : JsonCodec) (state : State) : String :=
  json.stringify state

/-- Source `loadState()` (index.js 32-44) at the level of the file's text:
`file` is the content of `state.json`, `none` when the file is missing or
cannot be read; the two instants are the clock readings of the default. -/
def loadStateText (json : JsonCodec) (file : Option String) (today weekNow : Instant) :
    State :=
  match file with
  | some text =>
    match json.parse text with
    | some st => st
    | none => defaultState today weekNow
  | none => defaultState today weekNow

/-- The double quote. -/
def quoteChar : Char := Char.ofNat 34

/-- The backslash. -/
def backslashChar : Char := Char.ofNat 92

/-- The line feed. -/
def newlineChar : Char := Char.ofNat 10

/-- The opening brace. -/
def openBrace : Char := Char.ofNat 123

/-- The closing brace. -/
def closeBrace : Char := Char.ofNat 125

/-- `QuoteJSONString` for one character (ECMA-262 25.5.2.3): the short escapes,
`\u00XX` for the other control characters, the character itself otherwise. -/
def escapeChar (c : Char) : List Char :=
  if c = quoteChar then [backslashChar, quoteChar]
  else if c = backslashChar then [backslashChar, backslashChar]
  else if c = Char.ofNat 8 then [backslashChar, 'b']
  else if c = Char.ofNat 12 then [backslashChar, 'f']
  else if c = Char.ofNat 10 then [backslashChar, 'n']
  else if c = Char.ofNat 13 then [backslashChar, 'r']
  else if c = Char.ofNat 9 then [backslashChar, 't']
  else if c.toNat < 32 then
    [backslashChar, 'u', '0', '0', Nat.digitChar (c.toNat / 16), Nat.digitChar (c.toNat % 16)]
  else [c]

/-- The characters of a string with their escapes, without the quotes. -/
def escapeChars : List Char → List Char
  | [] => []
  | c :: rest => escapeChar c ++ escapeChars rest

/-- `QuoteJSONString`: the string literal of `s`. -/
def quoteJson (s : String) : List Char :=
  quoteChar :: (escapeChars s.data ++ [quoteChar])

/-- A value inside a record: a string, a number or `null`. -/
inductive Scalar where
  | str (s : String)
  | num (n : Int)
  | null
deriving DecidableEq, Repr

/-- The text of a number of the store. -/
def showInt (n : Int) : List Char := (toString n).data

/-- The text of a scalar. -/
def showScalar : Scalar → List Char
  | .str s => quoteJson s
  | .num n => showInt n
  | .null => ['n', 'u', 'l', 'l']

/-- The value of a string property; `none` for a missing property, which
`JSON.stringify` leaves out. -/
def scalarOfJString : JString → Option Scalar
  | .absent => none
  | .null => some .null
  | .str s => some (.str s)

/-- The value of a numeric property; `none` for a missing property. -/
def scalarOfNumber : Option Int → Option Scalar
  | none => none
  | some n => some (.num n)

/-- A property with its value, if it is present. -/
def present (kv : String × Option Scalar) : Option (String × Scalar) :=
  kv.2.map (fun v => (kv.1, v))

/-- The properties of a record that are present, with their values. -/
def recordScalars (r : AccountRecord) : List (String × Scalar) :=
  [("avatarUrl", scalarOfJString r.avatarUrl),
   ("steamNickname", scalarOfJString r.steamNickname),
   ("steamID", scalarOfJString r.steamID),
   ("cooldownUntil", scalarOfNumber r.cooldownUntil),
   ("completedToday", scalarOfNumber r.completedToday),
   ("completedThisWeek", scalarOfNumber r.completedThisWeek),
   ("totalCompleted", scalarOfNumber r.totalCompleted),
   ("lastSuccess", scalarOfNumber r.lastSuccess),
   ("lastError", scalarOfJString r.lastError),
   ("lastErrorType", scalarOfJString r.lastErrorType)].filterMap present

/-- One member line: indentation, the quoted key, a colon, a space, the value. -/
def showMember (indent : Nat) (k : String) (v : List Char) : List Char :=
  List.replicate indent ' ' ++ (quoteJson k ++ (':' :: ' ' :: v))

/-- The lines of the members of an object at indentation `indent`, joined by a
comma and a line feed. -/
def showMembers (indent : Nat) : List (String × List Char) → List Char
  | [] => []
  | kv :: rest =>
    match rest with
    | [] => showMember indent kv.1 kv.2
    | _ :: _ => showMember indent kv.1 kv.2 ++ (',' :: newlineChar :: showMembers indent rest)

/-- `SerializeJSONObject` with a gap of two spaces, for an object that stands
at indentation `indent`. -/
def showObject (indent : Nat) (props : List (String × List Char)) : List Char :=
  match props with
  | [] => [openBrace, closeBrace]
  | _ :: _ =>
    openBrace :: newlineChar :: (showMembers (indent + 2) props ++
      (newlineChar :: (List.replicate indent ' ' ++ [closeBrace])))

/-- The text of a top-level value of the store. -/
def showEntry : Entry → List Char
  | .str s => quoteJson s
  | .num n => showInt n
  | .obj r => showObject 2 ((recordScalars r).map (fun kv => (kv.1, showScalar kv.2)))

/-- `JSON.stringify(state, null, 2)` on a store. -/
def stringifyState (st : State) : String :=
  String.mk (showObject 0 (st.map (fun kv => (kv.1, showEntry kv.2))))

/-- The tokens of a JSON text of the store's shape. -/
inductive Token where
  | lbrace
  | rbrace
  | colon
  | comma
  | str (s : String)
  | num (n : Int)
  | null
deriving DecidableEq, Repr

/-- The value of a hexadecimal digit. -/
def hexVal (c : Char) : Option Nat :=
  if c.isDigit then some (c.toNat - 48)
  else if 97 ≤ c.toNat ∧ c.toNat ≤ 102 then some (c.toNat - 87)
  else if 65 ≤ c.toNat ∧ c.toNat ≤ 70 then some (c.toNat - 55)
  else none

/-- The character of a short escape. -/
def unescapeChar (c : Char) : Option Char :=
  if c = quoteChar then some quoteChar
  else if c = backslashChar then some backslashChar
  else if c = '/' then some '/'
  else if c = 'b' then some (Char.ofNat 8)
  else if c = 'f' then some (Char.ofNat 12)
  else if c = 'n' then some (Char.ofNat 10)
  else if c = 'r' then some (Char.ofNat 13)
  else if c = 't' then some (Char.ofNat 9)
  else none

/-- The character of a `\uXXXX` escape from its four digits. -/
def unicodeEscape (a b x y : Char) : Option Char :=
  match hexVal a, hexVal b, hexVal x, hexVal y with
  | some h3, some h2, some h1, some h0 =>
    some (Char.ofNat (((h3 * 16 + h2) * 16 + h1) * 16 + h0))
  | _, _, _, _ => none

/-- The rest of a string literal after its opening quote: the string and what
follows the closing quote. `acc` holds the characters read so far, last first.
A control character, a bad escape or a missing closing quote is a syntax
error. -/
def lexString : List Char → List Char → Option (String × List Char)
  | [], _ => none
  | c :: rest, acc =>
    if c = quoteChar then some (String.mk acc.reverse, rest)
    else if c = backslashChar then
      match rest with
      | [] => none
      | e :: rest2 =>
        if e = 'u' then
          match rest2 with
          | a :: b :: x :: y :: rest3 =>
            match unicodeEscape a b x y with
            | some ch => lexString rest3 (ch :: acc)
            | none => none
          | _ => none
        else
          match unescapeChar e with
          | some ch => lexString rest2 (ch :: acc)
          | none => none
    else if c.toNat < 32 then none
    else lexString rest (c :: acc)

/-- The leading decimal digits of a text and the rest. -/
def takeDigits : List Char → List Char × List Char
  | [] => ([], [])
  | c :: rest =>
    if c.isDigit then ((c :: (takeDigits rest).1), (takeDigits rest).2)
    else ([], c :: rest)

/-- An integer literal without its sign: digits, no leading zero, and no
fraction or exponent after them (those are no values of the store). -/
def lexDigits (cs : List Char) : Option (Nat × List Char) :=
  let ds := (takeDigits cs).1
  let rest := (takeDigits cs).2
  if ds = [] then none
  else if ds.head? = some '0' ∧ 1 < ds.length then none
  else if rest.head? = some '.' ∨ rest.head? = some 'e' ∨ rest.head? = some 'E' then none
  else some (valFrom 0 ds, rest)

/-- The tokens of a text; `fuel` bounds the number of steps. -/
def lexJson : Nat → List Char → Option (List Token)
  | 0, _ => none
  | _ + 1, [] => some []
  | fuel + 1, c :: rest =>
    if c = ' ' ∨ c = Char.ofNat 10 ∨ c = Char.ofNat 13 ∨ c = Char.ofNat 9 then
      lexJson fuel rest
    else if c = openBrace then (lexJson fuel rest).map (Token.lbrace :: ·)
    else if c = closeBrace then (lexJson fuel rest).map (Token.rbrace :: ·)
    else if c = ':' then (lexJson fuel rest).map (Token.colon :: ·)
    else if c = ',' then (lexJson fuel rest).map (Token.comma :: ·)
    else if c = quoteChar then
      match lexString rest [] with
      | some (s, rest2) => (lexJson fuel rest2).map (Token.str s :: ·)
      | none => none
    else if c = '-' then
      match lexDigits rest with
      | some (n, rest2) => (lexJson fuel rest2).map (Token.num (-(n : Int)) :: ·)
      | none => none
    else if c.isDigit then
      match lexDigits (c :: rest) with
      | some (n, rest2) => (lexJson fuel rest2).map (Token.num (n : Int) :: ·)
      | none => none
    else if c = 'n' then
      match rest with
      | u :: l1 :: l2 :: rest2 =>
        if u = 'u' ∧ l1 = 'l' ∧ l2 = 'l' then (lexJson fuel rest2).map (Token.null :: ·)
        else none
      | _ => none
    else none

/-- The scalar of a token, if it is one. -/
def scalarOf : Token → Option Scalar
  | .str s => some (.str s)
  | .num n => some (.num n)
  | .null => some .null
  | _ => none

/-- The members of a record after the first key: `key : scalar` pairs separated
by commas, up to the closing brace. -/
def parseMembers : List Token → Option (List (String × Scalar) × List Token)
  | .str k :: .colon :: v :: .comma :: rest =>
    match scalarOf v, parseMembers rest with
    | some s, some (members, rest2) => some ((k, s) :: members, rest2)
    | _, _ => none
  | .str k :: .colon :: v :: .rbrace :: rest =>
    match scalarOf v with
    | some s => some ([(k, s)], rest)
    | none => none
  | _ => none

/-- A record after its opening brace. -/
def parseRecord : List Token → Option (List (String × Scalar) × List Token)
  | .rbrace :: rest => some ([], rest)
  | toks => parseMembers toks

/-- A string property from a scalar; a number is no value of such a property. -/
def jstringOf : Scalar → Option JString
  | .str s => some (.str s)
  | .null => some .null
  | .num _ => none

/-- A numeric property from a scalar. -/
def numberOf : Scalar → Option Int
  | .num n => some n
  | _ => none

/-- The record with one more property read; properties the program does not
know are passed over. -/
def setField (r : AccountRecord) (k : String) (v : Scalar) : Option AccountRecord :=
  if k = "avatarUrl" then (jstringOf v).map (fun x => { r with avatarUrl := x })
  else if k = "steamNickname" then (jstringOf v).map (fun x => { r with steamNickname := x })
  else if k = "steamID" then (jstringOf v).map (fun x => { r with steamID := x })
  else if k = "cooldownUntil" then (numberOf v).map (fun x => { r with cooldownUntil := some x })
  else if k = "completedToday" then
    (numberOf v).map (fun x => { r with completedToday := some x })
  else if k = "completedThisWeek" then
    (numberOf v).map (fun x => { r with completedThisWeek := some x })
  else if k = "totalCompleted" then
    (numberOf v).map (fun x => { r with totalCompleted := some x })
  else if k = "lastSuccess" then (numberOf v).map (fun x => { r with lastSuccess := some x })
  else if k = "lastError" then (jstringOf v).map (fun x => { r with lastError := x })
  else if k = "lastErrorType" then (jstringOf v).map (fun x => { r with lastErrorType := x })
  else some r

/-- The record of a list of members, later members overwriting earlier ones. -/
def recordOf : List (String × Scalar) → AccountRecord → Option AccountRecord
  | [], r => some r
  | (k, v) :: rest, r =>
    match setField r k v with
    | some r2 => recordOf rest r2
    | none => none

/-- The top-level members after the opening brace and the first key: values
are strings, numbers or records. The result is in the order of the text. -/
def parseEntries : Nat → List Token → Option (List (String × Entry) × List Token)
  | 0, _ => none
  | fuel + 1, .str k :: .colon :: .lbrace :: rest =>
    match parseRecord rest with
    | some (members, rest2) =>
      match recordOf members AccountRecord.empty, rest2 with
      | some r, .comma :: rest3 =>
        match parseEntries fuel rest3 with
        | some (entries, rest4) => some ((k, .obj r) :: entries, rest4)
        | none => none
      | some r, .rbrace :: rest3 => some ([(k, .obj r)], rest3)
      | _, _ => none
    | none => none
  | fuel + 1, .str k :: .colon :: .str s :: .comma :: rest =>
    match parseEntries fuel rest with
    | some (entries, rest2) => some ((k, .str s) :: entries, rest2)
    | none => none
  | fuel + 1, .str k :: .colon :: .num n :: .comma :: rest =>
    match parseEntries fuel rest with
    | some (entries, rest2) => some ((k, .num n) :: entries, rest2)
    | none => none
  | _ + 1, .str k :: .colon :: .str s :: .rbrace :: rest => some ([(k, .str s)], rest)
  | _ + 1, .str k :: .colon :: .num n :: .rbrace :: rest => some ([(k, .num n)], rest)
  | _, _ => none

/-- The store of a list of top-level members: a repeated key keeps its first
place and takes its last value. -/
def stateOf (entries : List (String × Entry)) : State :=
  entries.foldl (fun st kv => st.set kv.1 kv.2) []

/-- `JSON.parse` on a text of the store's shape: an object whose values are
strings, numbers or records of strings, numbers and `null`. -/
def parseState (text : String) : Option State :=
  match lexJson (text.data.length + 1) text.data with
  | some (.lbrace :: .rbrace :: []) => some []
  | some (.lbrace :: toks) =>
    match parseEntries (toks.length + 1) toks with
    | some (entries, []) => some (stateOf entries)
    | _ => none
  | _ => none

/-- The JSON built-ins of the platform on the values of the store. -/
def ecmaJson : JsonCodec :=
  { stringify := stringifyState, parse := parseState }

/-- An error text with a quote, a backslash, a tab and a line feed in it. -/
def awkwardText : String :=
  String.mk ['a', quoteChar, 'b', backslashChar, 'c', Char.ofNat 9, 'd', newlineChar, 'e',
    Char.ofNat 1]

/-- The record of "bob" after three tasks and a rate-limit error. -/
def sampleRecord : AccountRecord :=
  { bobAfterThree with
    cooldownUntil := some 1793966400000,
    lastError := .str awkwardText,
    lastErrorType := .str "429" }

/-- A store with a record in cooldown after an error, a record with nothing in
it, and a negative number. -/
def sampleStore : State :=
  [("lastResetDate", .str "Thu Nov 05 2026"), ("lastWeeklyReset", .num 45),
   ("bob", .obj sampleRecord),
   ("carol", .obj AccountRecord.empty),
   ("offset", .num (-7))]

/-- The text `cs` has the tokens `toks`, whatever the fuel beyond its length. -/
def Lexes (cs : List Char) (toks : List Token) : Prop :=
  ∀ fuel, cs.length < fuel → lexJson fuel cs = some toks

/-- The token of a scalar. -/
def tokenOf : Scalar → Token
  | .str s => .str s
  | .num n => .num n
  | .null => .null

/-- The tokens of the members of a record. -/
def memberTokens : List (String × Scalar) → List Token
  | [] => []
  | kv :: rest =>
    match rest with
    | [] => [.str kv.1, .colon, tokenOf kv.2]
    | _ :: _ => .str kv.1 :: .colon :: tokenOf kv.2 :: .comma :: memberTokens rest

/-- The tokens of a top-level value. -/
def entryTokens : Entry → List Token
  | .str s => [.str s]
  | .num n => [.num n]
  | .obj r => .lbrace :: (memberTokens (recordScalars r) ++ [.rbrace])

/-- The tokens of the members of a store. -/
def stateTokens : State → List Token
  | [] => []
  | kv :: rest =>
    match rest with
    | [] => .str kv.1 :: .colon :: entryTokens kv.2
    | _ :: _ => .str kv.1 :: .colon :: (entryTokens kv.2 ++ (.comma :: stateTokens rest))

/-- A character that ends a value in the text of a store: a comma or a line
feed. -/
def EndsValue (c : Char) : Prop := c = ',' ∨ c = newlineChar

/-! ## Lemmas on the store -/

theorem State.get_set_self (st : State) (k : String) (v : Entry) :
    (st.set k v).get k = some v := by
  induction st with
  | nil => simp [State.set, State.get]
  | cons kv rest ih =>
    obtain ⟨k', v'⟩ := kv
    by_cases h : k' = k
    · simp [State.set, State.get, h]
    · simp [State.set, State.get, h, ih]

theorem State.get_set_ne (st : State) (k k' : String) (v : Entry) (h : k' ≠ k) :
    (st.set k v).get k' = st.get k' := by
  induction st with
  | nil => simp [State.set, State.get, Ne.symm h]
  | cons kv rest ih =>
    obtain ⟨k0, v0⟩ := kv
    by_cases h0 : k0 = k
    · subst h0
      simp [State.set, State.get, Ne.symm h]
    · by_cases h1 : k0 = k'
      · subst h1
        simp [State.set, State.get, h0]
      · simp [State.set, State.get, h0, h1, ih]

theorem resetDaily_get (st : State) (k : String) :
    (resetDaily st).get k = (st.get k).map (resetEntry true false) := by
  induction st with
  | nil => rfl
  | cons kv rest ih =>
    obtain ⟨k', v'⟩ := kv
    have ih' : State.get (List.map (fun kv : String × Entry =>
        match kv.2 with
        | .obj r => (kv.1, Entry.obj { r with completedToday := some 0 })
        | _ => kv) rest) k = (State.get rest k).map (resetEntry true false) := ih
    by_cases h : k' = k
    · cases v' <;> simp [resetDaily, State.get, h, resetEntry]
    · cases v' <;> simp [resetDaily, State.get, h, ih']

theorem resetWeekly_get (st : State) (k : String) :
    (resetWeekly st).get k = (st.get k).map (resetEntry false true) := by
  induction st with
  | nil => rfl
  | cons kv rest ih =>
    obtain ⟨k', v'⟩ := kv
    have ih' : State.get (List.map (fun kv : String × Entry =>
        match kv.2 with
        | .obj r => (kv.1, Entry.obj { r with completedThisWeek := some 0 })
        | _ => kv) rest) k = (State.get rest k).map (resetEntry false true) := ih
    by_cases h : k' = k
    · cases v' <;> simp [resetWeekly, State.get, h, resetEntry]
    · cases v' <;> simp [resetWeekly, State.get, h, ih']

theorem resetEntry_false_false (e : Entry) : resetEntry false false e = e := by
  cases e <;> simp [resetEntry]

theorem resetEntry_comp (e : Entry) :
    resetEntry false true (resetEntry true false e) = resetEntry true true e := by
  cases e <;> simp [resetEntry]

theorem resetEntry_ne_num (d wk : Bool) (e : Entry) (n : Int) :
    resetEntry d wk e = Entry.num n ↔ e = Entry.num n := by
  cases e <;> simp [resetEntry]

theorem resetEntry_ne_str (d wk : Bool) (e : Entry) (s : String) :
    resetEntry d wk e = Entry.str s ↔ e = Entry.str s := by
  cases e <;> simp [resetEntry]

/-- Whether the weekly check fires does not depend on the daily reset. -/
theorem weekly_marker_after_daily (st : State) (today : String) (week : Int) :
    ((resetDaily st).set "lastResetDate" (.str today)).get "lastWeeklyReset" =
        some (.num week) ↔
      st.get "lastWeeklyReset" = some (.num week) := by
  rw [State.get_set_ne _ _ _ _ (by decide), resetDaily_get]
  cases h : st.get "lastWeeklyReset" with
  | none => simp
  | some e => simp [resetEntry_ne_num]

/-- What `applyResets` leaves under a key that is not a marker. -/
theorem applyResets_get (st : State) (today : String) (week : Int) (k : String)
    (h1 : k ≠ "lastResetDate") (h2 : k ≠ "lastWeeklyReset") :
    (applyResets st today week).1.get k =
      (st.get k).map
        (resetEntry (decide (st.get "lastResetDate" ≠ some (.str today)))
          (decide (st.get "lastWeeklyReset" ≠ some (.num week)))) := by
  unfold applyResets
  by_cases hd : st.get "lastResetDate" = some (.str today)
  · by_cases hw : st.get "lastWeeklyReset" = some (.num week)
    · simp only [hd, hw, ne_eq, not_true_eq_false, if_false, decide_False]
      cases st.get k <;> simp [resetEntry_false_false]
    · simp [hd, hw, State.get_set_ne _ _ _ _ h2, resetWeekly_get]
  · by_cases hw : st.get "lastWeeklyReset" = some (.num week)
    · have hw' := (weekly_marker_after_daily st today week).mpr hw
      simp [hd, hw, hw', State.get_set_ne _ _ _ _ h1, resetDaily_get]
    · have hw' : ¬ ((resetDaily st).set "lastResetDate" (.str today)).get "lastWeeklyReset" =
          some (.num week) := fun h => hw ((weekly_marker_after_daily st today week).mp h)
      simp only [hd, hw, hw', ne_eq, not_false_eq_true, if_true, decide_True,
        State.get_set_ne _ _ _ _ h1, State.get_set_ne _ _ _ _ h2,
        resetDaily_get, resetWeekly_get]
      cases st.get k <;> simp [resetEntry_comp]

/-! ## Lemmas on `checkDateResets` and on the shared cooldown tail -/

theorem saveState_ok (env : Env) (w : World) (st : State) (h : env.writeOk w.writes = true) :
    saveState env w st =
      (.ok (), { w with disk := some st, writes := w.writes + 1,
                        trace := w.trace ++ [Event.save st] }) := by
  simp [saveState, h]

theorem checkDateResets_some (env : Env) (w : World) (st : State) (h : w.disk = some st) :
    checkDateResets env w =
      if (applyResets st (toDateString (env.clock w.clockReads))
            (getWeekNumber (env.clock (w.clockReads + 1)))).2 = true then
        saveState env { w with clockReads := w.clockReads + 2 }
          (applyResets st (toDateString (env.clock w.clockReads))
            (getWeekNumber (env.clock (w.clockReads + 1)))).1
      else (.ok (), { w with clockReads := w.clockReads + 2 }) := by
  simp [checkDateResets, loadState, h]

theorem checkDateResets_storeOnly (env : Env) (w : World) :
    StoreOnly w (checkDateResets env w).2 := by
  unfold checkDateResets loadState saveState StoreOnly
  cases hd : w.disk <;> simp only [] <;> split_ifs <;> simp [OnlySaves]

theorem checkDateResets_disk (env : Env) (w : World) (st : State) (h : w.disk = some st) :
    (checkDateResets env w).2.disk = some st ∨
    (checkDateResets env w).2.disk =
      some (applyResets st (toDateString (env.clock w.clockReads))
        (getWeekNumber (env.clock (w.clockReads + 1)))).1 := by
  rw [checkDateResets_some env w st h]
  unfold saveState
  split_ifs <;> simp [h]

theorem applyResets_changed (st : State) (today : String) (week : Int) :
    (applyResets st today week).2 = true ↔
      (st.get "lastResetDate" ≠ some (.str today) ∨
        st.get "lastWeeklyReset" ≠ some (.num week)) := by
  unfold applyResets
  by_cases hd : st.get "lastResetDate" = some (.str today)
  · by_cases hw : st.get "lastWeeklyReset" = some (.num week)
    · simp [hd, hw]
    · simp [hd, hw]
  · simp only [hd, ne_eq, not_false_eq_true, if_true, true_or, iff_true]
    split_ifs <;> rfl

/-- With both markers current, `applyResets` is the identity and reports no
change. -/
theorem applyResets_current (st : State) (today : String) (week : Int)
    (hd : st.get "lastResetDate" = some (.str today))
    (hw : st.get "lastWeeklyReset" = some (.num week)) :
    applyResets st today week = (st, false) := by
  simp [applyResets, hd, hw]

/-- A run of `checkDateResets` on a store whose markers are current reads the
clock twice and does nothing else. -/
theorem checkDateResets_current (env : Env) (w : World) (st : State)
    (hdisk : w.disk = some st)
    (hd : st.get "lastResetDate" = some (.str (toDateString (env.clock w.clockReads))))
    (hw : st.get "lastWeeklyReset" =
      some (.num (getWeekNumber (env.clock (w.clockReads + 1))))) :
    checkDateResets env w = (.ok (), { w with clockReads := w.clockReads + 2 }) := by
  rw [checkDateResets_some env w st hdisk, applyResets_current st _ _ hd hw]
  simp

/-- A run of `checkDateResets` that finds a marker out of date and whose write
succeeds saves the reset state once. -/
theorem checkDateResets_rollover (env : Env) (w : World) (st : State)
    (hdisk : w.disk = some st)
    (hch : st.get "lastResetDate" ≠ some (.str (toDateString (env.clock w.clockReads))) ∨
      st.get "lastWeeklyReset" ≠ some (.num (getWeekNumber (env.clock (w.clockReads + 1)))))
    (hwrite : env.writeOk w.writes = true) :
    checkDateResets env w =
      (.ok (), { w with
        clockReads := w.clockReads + 2, writes := w.writes + 1,
        disk := some (applyResets st (toDateString (env.clock w.clockReads))
          (getWeekNumber (env.clock (w.clockReads + 1)))).1,
        trace := w.trace ++ [Event.save (applyResets st (toDateString (env.clock w.clockReads))
          (getWeekNumber (env.clock (w.clockReads + 1)))).1] }) := by
  rw [checkDateResets_some env w st hdisk, if_pos ((applyResets_changed st _ _).mpr hch)]
  simp [saveState, hwrite]

/-- A record under a key that is not a marker is still a record after
`checkDateResets`, with every property but the two counters as before. -/
theorem checkDateResets_record (env : Env) (w : World) (st : State) (h : w.disk = some st)
    (k : String) (r : AccountRecord) (hk : st.get k = some (.obj r))
    (h1 : k ≠ "lastResetDate") (h2 : k ≠ "lastWeeklyReset") :
    ∃ st2 d wk, (checkDateResets env w).2.disk = some st2 ∧
      st2.get k = some (resetEntry d wk (.obj r)) := by
  rcases checkDateResets_disk env w st h with h' | h'
  · exact ⟨st, false, false, h', by rw [hk, resetEntry_false_false]⟩
  · exact ⟨_, _, _, h', by rw [applyResets_get _ _ _ _ h1 h2, hk]; rfl⟩

theorem persistAndStop_world (env : Env) (w : World) (st1 : State)
    (h : env.writeOk w.writes = true) :
    (persistAndStop env w (some st1)).2 =
      (syncDashboardAccounts env { w with disk := some st1, writes := w.writes + 1,
                                          trace := w.trace ++ [Event.save st1] }).2 := by
  simp only [persistAndStop, saveState_ok env w st1 h]
  split <;> simp_all

theorem persistAndStop_stops (env : Env) (w : World) (st : Option State) (n : Int) :
    (persistAndStop env w st).1 ≠ .ok (some n) := by
  unfold persistAndStop
  cases st with
  | none => simp
  | some st1 =>
    simp only
    split
    · simp
    · split <;> simp

/-- The cooldown tail posts no comment, sends no request and reads no flag,
whether or not its writes succeed. -/
theorem persistAndStop_frame (env : Env) (w : World) (st : Option State) :
    (persistAndStop env w st).2.posts = w.posts ∧
    (persistAndStop env w st).2.requests = w.requests ∧
    (persistAndStop env w st).2.flagReads = w.flagReads := by
  unfold persistAndStop
  cases st with
  | none => exact ⟨rfl, rfl, rfl⟩
  | some st1 =>
    simp only
    have h1 : (saveState env w st1).2.posts = w.posts ∧
        (saveState env w st1).2.requests = w.requests ∧
        (saveState env w st1).2.flagReads = w.flagReads := by
      unfold saveState; split_ifs <;> exact ⟨rfl, rfl, rfl⟩
    cases hs : saveState env w st1 with
    | mk res w1 =>
      rw [hs] at h1
      cases res with
      | error e => exact h1
      | ok u =>
        simp only
        obtain ⟨hp, hq, -, hf, -⟩ := checkDateResets_storeOnly env w1
        unfold syncDashboardAccounts
        cases hy : checkDateResets env w1 with
        | mk res2 w2 =>
          rw [hy] at hp hq hf
          simp only at hp hq hf
          cases res2 <;> exact ⟨hp.trans h1.1, hq.trans h1.2.1, hf.trans h1.2.2⟩

/-- The cooldown tail when the write succeeds: the state is saved, only saves of
the dashboard sync follow, and a record of the saved state is afterwards on disk
with at most its two counters reset. -/
theorem persistAndStop_effect (env : Env) (w : World) (st1 : State)
    (h : env.writeOk w.writes = true) :
    (persistAndStop env w (some st1)).2.posts = w.posts ∧
    (persistAndStop env w (some st1)).2.requests = w.requests ∧
    (persistAndStop env w (some st1)).2.flagReads = w.flagReads ∧
    (∃ more, (persistAndStop env w (some st1)).2.trace =
        w.trace ++ Event.save st1 :: more ∧ OnlySaves more) ∧
    (∀ k r, st1.get k = some (.obj r) → k ≠ "lastResetDate" → k ≠ "lastWeeklyReset" →
      ∃ st2 d wk, (persistAndStop env w (some st1)).2.disk = some st2 ∧
        st2.get k = some (resetEntry d wk (.obj r))) := by
  rw [persistAndStop_world env w st1 h]
  unfold syncDashboardAccounts
  obtain ⟨hp, hq, -, hf, -, more, ht, hs⟩ := checkDateResets_storeOnly env
    { w with disk := some st1, writes := w.writes + 1, trace := w.trace ++ [Event.save st1] }
  refine ⟨hp, hq, hf, ⟨more, ?_, hs⟩, ?_⟩
  · rw [ht]; simp
  · intro k r hk h1 h2
    exact checkDateResets_record env
      { w with disk := some st1, writes := w.writes + 1,
               trace := w.trace ++ [Event.save st1] } st1 rfl k r hk h1 h2

theorem taskLoop_stop (env : Env) (cfg : Config) (username profileId : String)
    (task : Task) (rest : List Task) (f : Int) (w : World)
    (h : ∀ n, (taskStep env cfg username profileId task f w).1 ≠ .ok (some n)) :
    (taskLoop env cfg username profileId (task :: rest) f w).2 =
      (taskStep env cfg username profileId task f w).2 := by
  rw [taskLoop]
  split
  · rename_i n w1 heq
    exact absurd (congrArg Prod.fst heq) (h n)
  · rename_i w1 heq
    rw [heq]
  · rename_i e w1 heq
    rw [heq]

theorem taskLoop_continue (env : Env) (cfg : Config) (username profileId : String)
    (task : Task) (rest : List Task) (f n : Int) (w w1 : World)
    (h : taskStep env cfg username profileId task f w = (.ok (some n), w1)) :
    taskLoop env cfg username profileId (task :: rest) f w =
      taskLoop env cfg username profileId rest n w1 := by
  rw [taskLoop, h]

/-! ## The per-task loop of `processAccount` -/

theorem taskStep_limit (env : Env) (cfg : Config) (username profileId : String)
    (task : Task) (f : Int) (w : World) (st : State)
    (hrun : env.running w.flagReads = true) (hdisk : w.disk = some st)
    (hlimit : cfg.dailyLimit ≤ completedTodayOf st username) :
    taskStep env cfg username profileId task f w =
      persistAndStop env
        { w with flagReads := w.flagReads + 1, clockReads := w.clockReads + 1 }
        (limitCooldown st username (env.clock w.clockReads).ms cfg.cooldownHours) := by
  simp [taskStep, hrun, loadState, hdisk, hlimit]

/-- C1. In the per-task loop, when the account's record has `completedToday`
(absent counted as 0) at or above `dailyLimit` as a task is about to start: the
loop performs no further iteration (the flag is read once), no comment is posted
and no request is sent; and, the state-file write succeeding, the store is saved
with `cooldownUntil = now + cooldownHours*3600000` and `lastError = null` in that
record, whatever follows in the trace are saves of the dashboard sync, and the
file afterwards still holds that cooldown and the cleared error. -/
theorem daily_limit_sets_cooldown_and_stops
    (env : Env) (cfg : Config) (username profileId : String)
    (task : Task) (rest : List Task) (sessionFailures : Int) (w : World)
    (st : State) (r : AccountRecord)
    (hrun : env.running w.flagReads = true)
    (hdisk : w.disk = some st)
    (hrec : st.get username = some (.obj r))
    (hlimit : cfg.dailyLimit ≤ orZero r.completedToday) :
    (taskLoop env cfg username profileId (task :: rest) sessionFailures w).2.posts = w.posts ∧
    (taskLoop env cfg username profileId (task :: rest) sessionFailures w).2.requests =
      w.requests ∧
    (taskLoop env cfg username profileId (task :: rest) sessionFailures w).2.flagReads =
      w.flagReads + 1 ∧
    (env.writeOk w.writes = true →
      (∃ more,
        (taskLoop env cfg username profileId (task :: rest) sessionFailures w).2.trace =
          w.trace ++ Event.save (st.set username (.obj { r with
            cooldownUntil := some ((env.clock w.clockReads).ms + cfg.cooldownHours * 3600000),
            lastError := .null })) :: more ∧ OnlySaves more) ∧
      (username ≠ "lastResetDate" → username ≠ "lastWeeklyReset" →
        ∃ st2 r2,
          (taskLoop env cfg username profileId (task :: rest) sessionFailures w).2.disk =
            some st2 ∧
          st2.get username = some (.obj r2) ∧
          r2.cooldownUntil =
            some ((env.clock w.clockReads).ms + cfg.cooldownHours * 3600000) ∧
          r2.lastError = .null)) := by
  have hc : cfg.dailyLimit ≤ completedTodayOf st username := by
    simpa [completedTodayOf, hrec] using hlimit
  have hl : limitCooldown st username (env.clock w.clockReads).ms cfg.cooldownHours =
      some (st.set username (.obj { r with
          cooldownUntil := some ((env.clock w.clockReads).ms + cfg.cooldownHours * 3600000),
          lastError := .null })) := by
    simp only [limitCooldown, hrec]
    have : cfg.cooldownHours * 60 * 60 * 1000 = cfg.cooldownHours * 3600000 := by ring
    rw [this]
  have hstep := taskStep_limit env cfg username profileId task sessionFailures w st hrun hdisk hc
  have hstop : ∀ n, (taskStep env cfg username profileId task sessionFailures w).1 ≠
      .ok (some n) := by
    intro n; rw [hstep]; exact persistAndStop_stops _ _ _ n
  rw [taskLoop_stop _ _ _ _ _ _ _ _ hstop, hstep, hl]
  obtain ⟨hp, hq, hf⟩ := persistAndStop_frame env
    { w with flagReads := w.flagReads + 1, clockReads := w.clockReads + 1 }
    (some (st.set username (.obj { r with
      cooldownUntil := some ((env.clock w.clockReads).ms + cfg.cooldownHours * 3600000),
      lastError := .null })))
  refine ⟨hp, hq, hf, ?_⟩
  intro hwrite
  obtain ⟨-, -, -, ht, hd⟩ := persistAndStop_effect env
    { w with flagReads := w.flagReads + 1, clockReads := w.clockReads + 1 }
    (st.set username (.obj { r with
      cooldownUntil := some ((env.clock w.clockReads).ms + cfg.cooldownHours * 3600000),
      lastError := .null })) hwrite
  refine ⟨ht, ?_⟩
  intro h1 h2
  obtain ⟨st2, d, wk, hd2, hg⟩ := hd username _ (State.get_set_self st username _) h1 h2
  exact ⟨st2, _, hd2, hg, rfl, rfl⟩

theorem taskStep_post (env : Env) (cfg : Config) (username profileId : String)
    (task : Task) (f : Int) (w : World) (st : State)
    (hrun : env.running w.flagReads = true) (hdisk : w.disk = some st)
    (hbelow : completedTodayOf st username < cfg.dailyLimit) :
    taskStep env cfg username profileId task f w =
      match env.postUserComment w.posts with
      | none => onSuccess env cfg username profileId task
          { w with flagReads := w.flagReads + 1, posts := w.posts + 1,
                   trace := w.trace ++
                     [Event.post task.targetSteamProfileId task.requiredCommentText] }
      | some error => onFailure env cfg username error f
          { w with flagReads := w.flagReads + 1, posts := w.posts + 1,
                   trace := w.trace ++
                     [Event.post task.targetSteamProfileId task.requiredCommentText] } := by
  simp [taskStep, hrun, loadState, hdisk, not_le.mpr hbelow]

/-- The world in which the dashboard sync of the success branch starts. -/
theorem onSuccess_world (env : Env) (cfg : Config) (username profileId : String)
    (task : Task) (w : World) (st : State)
    (hdisk : w.disk = some st) (hcomplete : env.completeTask w.requests = none)
    (hwrite : env.writeOk w.writes = true) :
    onSuccess env cfg username profileId task w =
      match syncDashboardAccounts env
        { w with requests := w.requests + 1, clockReads := w.clockReads + 1,
                 disk := some (successUpdate st username (env.clock w.clockReads).ms),
                 writes := w.writes + 1,
                 trace := w.trace ++
                   [Event.complete task.taskId task.requiredCommentId profileId,
                    Event.save (successUpdate st username (env.clock w.clockReads).ms)] } with
      | (.error e, w5) => (.error e, w5)
      | (.ok _, w5) =>
        (.ok (some 0), { w5 with randoms := w5.randoms + 1,
                                 trace := w5.trace ++ [Event.sleep
                                   (getRandomDelay (env.random w5.randoms)
                                     cfg.delayMin cfg.delayMax)] }) := by
  simp [onSuccess, hcomplete, loadState, hdisk, saveState, hwrite]

theorem onSuccess_trace (env : Env) (cfg : Config) (username profileId : String)
    (task : Task) (w : World) (st : State)
    (hdisk : w.disk = some st) (hcomplete : env.completeTask w.requests = none)
    (hwrite : env.writeOk w.writes = true) :
    ∃ more, (onSuccess env cfg username profileId task w).2.trace =
      w.trace ++ [Event.complete task.taskId task.requiredCommentId profileId,
                  Event.save (successUpdate st username (env.clock w.clockReads).ms)] ++
        more := by
  rw [onSuccess_world env cfg username profileId task w st hdisk hcomplete hwrite]
  unfold syncDashboardAccounts
  split
  · rename_i e w5 heq
    obtain ⟨-, -, -, -, -, more, ht, -⟩ := checkDateResets_storeOnly env
      { w with requests := w.requests + 1, clockReads := w.clockReads + 1,
               disk := some (successUpdate st username (env.clock w.clockReads).ms),
               writes := w.writes + 1,
               trace := w.trace ++
                 [Event.complete task.taskId task.requiredCommentId profileId,
                  Event.save (successUpdate st username (env.clock w.clockReads).ms)] }
    rw [heq] at ht
    exact ⟨more, ht⟩
  · rename_i u w5 heq
    obtain ⟨-, -, -, -, -, more, ht, -⟩ := checkDateResets_storeOnly env
      { w with requests := w.requests + 1, clockReads := w.clockReads + 1,
               disk := some (successUpdate st username (env.clock w.clockReads).ms),
               writes := w.writes + 1,
               trace := w.trace ++
                 [Event.complete task.taskId task.requiredCommentId profileId,
                  Event.save (successUpdate st username (env.clock w.clockReads).ms)] }
    rw [heq] at ht
    simp only [] at ht
    exact ⟨more ++ [Event.sleep (getRandomDelay (env.random w5.randoms)
      cfg.delayMin cfg.delayMax)], by simp [ht]⟩

/-- The success branch when no rollover is due at its dashboard sync: the file
at the end is the state the branch saved. -/
theorem onSuccess_disk (env : Env) (cfg : Config) (username profileId : String)
    (task : Task) (w : World) (st : State)
    (hdisk : w.disk = some st) (hcomplete : env.completeTask w.requests = none)
    (hwrite : env.writeOk w.writes = true)
    (hd : (successUpdate st username (env.clock w.clockReads).ms).get "lastResetDate" =
      some (.str (toDateString (env.clock (w.clockReads + 1)))))
    (hw : (successUpdate st username (env.clock w.clockReads).ms).get "lastWeeklyReset" =
      some (.num (getWeekNumber (env.clock (w.clockReads + 1 + 1))))) :
    (onSuccess env cfg username profileId task w).2.disk =
      some (successUpdate st username (env.clock w.clockReads).ms) := by
  rw [onSuccess_world env cfg username profileId task w st hdisk hcomplete hwrite]
  unfold syncDashboardAccounts
  have h := checkDateResets_current env
    { w with requests := w.requests + 1, clockReads := w.clockReads + 1,
             disk := some (successUpdate st username (env.clock w.clockReads).ms),
             writes := w.writes + 1,
             trace := w.trace ++
               [Event.complete task.taskId task.requiredCommentId profileId,
                Event.save (successUpdate st username (env.clock w.clockReads).ms)] }
    (successUpdate st username (env.clock w.clockReads).ms) rfl hd hw
  rw [h]

/-- C2. When a task's comment and its completion report both succeed (and the
state-file write succeeds), the state saved has, in the account's record,
`completedToday`, `completedThisWeek` and `totalCompleted` one above their
previous values (absent counted as 0), `lastSuccess = now`, `lastError = null`,
`lastErrorType = null` and every other property as before; every other key of
the store, the two reset markers among them, keeps its value. When no rollover
is due at the dashboard sync that follows, this saved state is the content of
the file at the end of the iteration. -/
theorem success_updates_record
    (env : Env) (cfg : Config) (username profileId : String)
    (task : Task) (sessionFailures : Int) (w : World)
    (st : State) (r : AccountRecord)
    (hrun : env.running w.flagReads = true)
    (hdisk : w.disk = some st)
    (hrec : st.get username = some (.obj r))
    (hbelow : orZero r.completedToday < cfg.dailyLimit)
    (hpost : env.postUserComment w.posts = none)
    (hcomplete : env.completeTask w.requests = none)
    (hwrite : env.writeOk w.writes = true) :
    ∃ st1 r1 more,
      (taskStep env cfg username profileId task sessionFailures w).2.trace =
        w.trace ++ [Event.post task.targetSteamProfileId task.requiredCommentText,
                    Event.complete task.taskId task.requiredCommentId profileId,
                    Event.save st1] ++ more ∧
      st1.get username = some (.obj r1) ∧
      r1.completedToday = some (orZero r.completedToday + 1) ∧
      r1.completedThisWeek = some (orZero r.completedThisWeek + 1) ∧
      r1.totalCompleted = some (orZero r.totalCompleted + 1) ∧
      r1.lastSuccess = some (env.clock w.clockReads).ms ∧
      r1.lastError = .null ∧ r1.lastErrorType = .null ∧
      r1.cooldownUntil = r.cooldownUntil ∧ r1.steamID = r.steamID ∧
      r1.avatarUrl = r.avatarUrl ∧ r1.steamNickname = r.steamNickname ∧
      (∀ k, k ≠ username → st1.get k = st.get k) ∧
      (∀ s, st.get "lastResetDate" = some (.str s) → st1.get "lastResetDate" = some (.str s)) ∧
      (∀ n, st.get "lastWeeklyReset" = some (.num n) →
        st1.get "lastWeeklyReset" = some (.num n)) ∧
      (st.get "lastResetDate" =
          some (.str (toDateString (env.clock (w.clockReads + 1)))) →
        st.get "lastWeeklyReset" =
          some (.num (getWeekNumber (env.clock (w.clockReads + 2)))) →
        (taskStep env cfg username profileId task sessionFailures w).2.disk = some st1) := by
  have hc : completedTodayOf st username < cfg.dailyLimit := by
    simpa [completedTodayOf, hrec] using hbelow
  have hs : successUpdate st username (env.clock w.clockReads).ms =
      st.set username (.obj { r with
        completedToday := some (orZero r.completedToday + 1),
        completedThisWeek := some (orZero r.completedThisWeek + 1),
        totalCompleted := some (orZero r.totalCompleted + 1),
        lastSuccess := some (env.clock w.clockReads).ms,
        lastError := .null, lastErrorType := .null }) := by
    simp [successUpdate, hrec]
  have hday : ∀ s, st.get "lastResetDate" = some (.str s) →
      (successUpdate st username (env.clock w.clockReads).ms).get "lastResetDate" =
        some (.str s) := by
    intro s hm
    have hne : "lastResetDate" ≠ username := by
      intro h; rw [h, hrec] at hm; simp at hm
    rw [hs, State.get_set_ne _ _ _ _ hne]; exact hm
  have hweek : ∀ n, st.get "lastWeeklyReset" = some (.num n) →
      (successUpdate st username (env.clock w.clockReads).ms).get "lastWeeklyReset" =
        some (.num n) := by
    intro n hm
    have hne : "lastWeeklyReset" ≠ username := by
      intro h; rw [h, hrec] at hm; simp at hm
    rw [hs, State.get_set_ne _ _ _ _ hne]; exact hm
  rw [taskStep_post env cfg username profileId task sessionFailures w st hrun hdisk hc, hpost]
  obtain ⟨more, ht⟩ := onSuccess_trace env cfg username profileId task
    { w with flagReads := w.flagReads + 1, posts := w.posts + 1,
             trace := w.trace ++
               [Event.post task.targetSteamProfileId task.requiredCommentText] }
    st hdisk hcomplete hwrite
  refine ⟨successUpdate st username (env.clock w.clockReads).ms,
    { r with
        completedToday := some (orZero r.completedToday + 1),
        completedThisWeek := some (orZero r.completedThisWeek + 1),
        totalCompleted := some (orZero r.totalCompleted + 1),
        lastSuccess := some (env.clock w.clockReads).ms,
        lastError := .null, lastErrorType := .null }, more, ?_,
    by rw [hs]; exact State.get_set_self _ _ _, rfl, rfl, rfl, rfl, rfl, rfl, rfl, rfl, rfl,
    rfl, ?_, hday, hweek, ?_⟩
  · simp only [] at ht ⊢
    rw [ht]; simp
  · intro k hk
    rw [hs]; exact State.get_set_ne _ _ _ _ hk
  · intro hd hw
    exact onSuccess_disk env cfg username profileId task
      { w with flagReads := w.flagReads + 1, posts := w.posts + 1,
               trace := w.trace ++
                 [Event.post task.targetSteamProfileId task.requiredCommentText] }
      st hdisk hcomplete hwrite (hday _ hd) (hweek _ hw)

/-! ## Restricted-target failures -/

/-- A restricted-target failure below the limit: the comment was attempted, the
counter goes up by one, nothing is saved and nothing is slept. -/
theorem taskStep_restricted_below (env : Env) (cfg : Config) (username profileId : String)
    (task : Task) (f : Int) (w : World) (st : State)
    (hrun : env.running w.flagReads = true) (hdisk : w.disk = some st)
    (hbelow : completedTodayOf st username < cfg.dailyLimit)
    (hfail : RestrictedAt env w.posts)
    (hf : f + 1 < cfg.consecutiveFailuresLimit) :
    taskStep env cfg username profileId task f w =
      (.ok (some (f + 1)),
        { w with flagReads := w.flagReads + 1, posts := w.posts + 1,
                 trace := w.trace ++ [postEvent task] }) := by
  obtain ⟨m, hm, hinc⟩ := hfail
  rw [taskStep_post env cfg username profileId task f w st hrun hdisk hbelow, hm]
  simp [onFailure, hinc, not_le.mpr hf, postEvent]

/-- A restricted-target failure that reaches the limit: the cooldown tail runs on
the state with the two-hour cooldown. -/
theorem taskStep_restricted_limit (env : Env) (cfg : Config) (username profileId : String)
    (task : Task) (f : Int) (w : World) (st : State)
    (hrun : env.running w.flagReads = true) (hdisk : w.disk = some st)
    (hbelow : completedTodayOf st username < cfg.dailyLimit)
    (hfail : RestrictedAt env w.posts)
    (hf : cfg.consecutiveFailuresLimit ≤ f + 1) :
    taskStep env cfg username profileId task f w =
      persistAndStop env
        { w with flagReads := w.flagReads + 1, posts := w.posts + 1,
                 trace := w.trace ++ [postEvent task],
                 clockReads := w.clockReads + 1 }
        (restrictedCooldown st username (env.clock w.clockReads).ms) := by
  obtain ⟨m, hm, hinc⟩ := hfail
  rw [taskStep_post env cfg username profileId task f w st hrun hdisk hbelow, hm]
  simp [onFailure, hinc, hf, postEvent, loadState, hdisk]

/-- A run of restricted-target failures that stays below the limit: every task
of `pre` is attempted, the store is untouched, nothing is slept, and the loop
goes on with the counter raised by the length of `pre`. -/
theorem taskLoop_restricted_run (env : Env) (cfg : Config) (username profileId : String)
    (st : State) (hbelow : completedTodayOf st username < cfg.dailyLimit)
    (pre tail : List Task) :
    ∀ (f : Int) (w : World), w.disk = some st →
      (∀ i, i < pre.length → env.running (w.flagReads + i) = true) →
      (∀ i, i < pre.length → RestrictedAt env (w.posts + i)) →
      f + pre.length < cfg.consecutiveFailuresLimit →
      taskLoop env cfg username profileId (pre ++ tail) f w =
        taskLoop env cfg username profileId tail (f + pre.length)
          { w with flagReads := w.flagReads + pre.length, posts := w.posts + pre.length,
                   trace := w.trace ++ pre.map postEvent } := by
  induction pre with
  | nil =>
    intro f w _ _ _ _
    simp
  | cons t pre ih =>
    intro f w hdisk hrun hfail hf
    have hlen : ((t :: pre).length : Int) = (pre.length : Int) + 1 := by simp
    have h0 := taskStep_restricted_below env cfg username profileId t f w st
      (by simpa using hrun 0 (by simp)) hdisk hbelow (by simpa using hfail 0 (by simp))
      (by omega)
    rw [List.cons_append, taskLoop_continue _ _ _ _ _ _ _ _ _ _ h0]
    have h1 := ih (f + 1)
      { w with flagReads := w.flagReads + 1, posts := w.posts + 1,
               trace := w.trace ++ [postEvent t] } hdisk
      (fun i hi => by
        have := hrun (i + 1) (by simpa using hi)
        simpa [Nat.add_assoc, Nat.add_comm 1 i] using this)
      (fun i hi => by
        have := hfail (i + 1) (by simpa using hi)
        simpa [Nat.add_assoc, Nat.add_comm 1 i] using this)
      (by omega)
    rw [h1]
    congr 1
    · omega
    · simp [Nat.add_assoc, Nat.add_comm 1]

/-- C3. With `consecutiveFailuresLimit = L ≥ 1` (here `L` is one more than the
length of `pre`), in a session whose first `L` comments all fail on a restricted
target: the first `L-1` tasks are attempted one after the other with the store
untouched and no sleep, and the `L`-th ends the loop: exactly `L` comments were
attempted and `L` loop heads passed. The state-file write succeeding, the `L`-th
saves `cooldownUntil = now + 7200000` and `lastError = "Consecutive failures"`
in the account's record, the trace holds nothing after the save but saves of the
dashboard sync, and the file afterwards holds the cooldown. -/
theorem consecutive_restricted_failures_cooldown
    (env : Env) (cfg : Config) (username profileId : String)
    (pre : List Task) (task : Task) (rest : List Task)
    (w : World) (st : State) (r : AccountRecord)
    (hL : cfg.consecutiveFailuresLimit = pre.length + 1)
    (hdisk : w.disk = some st)
    (hrec : st.get username = some (.obj r))
    (hbelow : orZero r.completedToday < cfg.dailyLimit)
    (hrun : ∀ i, i ≤ pre.length → env.running (w.flagReads + i) = true)
    (hfail : ∀ i, i ≤ pre.length → RestrictedAt env (w.posts + i)) :
    taskLoop env cfg username profileId pre 0 w =
      (.ok (), { w with flagReads := w.flagReads + pre.length,
                        posts := w.posts + pre.length,
                        trace := w.trace ++ pre.map postEvent }) ∧
    (taskLoop env cfg username profileId (pre ++ task :: rest) 0 w).2.posts =
      w.posts + pre.length + 1 ∧
    (taskLoop env cfg username profileId (pre ++ task :: rest) 0 w).2.flagReads =
      w.flagReads + pre.length + 1 ∧
    (env.writeOk w.writes = true →
      (∃ more,
        (taskLoop env cfg username profileId (pre ++ task :: rest) 0 w).2.trace =
          w.trace ++ pre.map postEvent ++
            [postEvent task,
             Event.save (st.set username (.obj { r with
               cooldownUntil := some ((env.clock w.clockReads).ms + 7200000),
               lastError := .str "Consecutive failures" }))] ++ more ∧
        OnlySaves more) ∧
      (username ≠ "lastResetDate" → username ≠ "lastWeeklyReset" →
        ∃ st2 r2,
          (taskLoop env cfg username profileId (pre ++ task :: rest) 0 w).2.disk =
            some st2 ∧
          st2.get username = some (.obj r2) ∧
          r2.cooldownUntil = some ((env.clock w.clockReads).ms + 7200000) ∧
          r2.lastError = .str "Consecutive failures")) := by
  have hc : completedTodayOf st username < cfg.dailyLimit := by
    simpa [completedTodayOf, hrec] using hbelow
  have hrun' : ∀ i, i < pre.length → env.running (w.flagReads + i) = true :=
    fun i hi => hrun i (Nat.le_of_lt hi)
  have hfail' : ∀ i, i < pre.length → RestrictedAt env (w.posts + i) :=
    fun i hi => hfail i (Nat.le_of_lt hi)
  have hlt : (0 : Int) + pre.length < cfg.consecutiveFailuresLimit := by omega
  constructor
  · have h := taskLoop_restricted_run env cfg username profileId st hc pre [] 0 w hdisk
      hrun' hfail' hlt
    rw [List.append_nil] at h
    rw [h, taskLoop]
  · rw [taskLoop_restricted_run env cfg username profileId st hc pre (task :: rest) 0 w hdisk
      hrun' hfail' hlt]
    have hstep := taskStep_restricted_limit env cfg username profileId task (0 + pre.length)
      { w with flagReads := w.flagReads + pre.length, posts := w.posts + pre.length,
               trace := w.trace ++ pre.map postEvent } st
      (hrun pre.length (Nat.le_refl _)) hdisk hc (hfail pre.length (Nat.le_refl _))
      (by omega)
    have hstop : ∀ n, (taskStep env cfg username profileId task (0 + pre.length)
        { w with flagReads := w.flagReads + pre.length, posts := w.posts + pre.length,
                 trace := w.trace ++ pre.map postEvent }).1 ≠ .ok (some n) := by
      intro n; rw [hstep]; exact persistAndStop_stops _ _ _ n
    have hr : restrictedCooldown st username (env.clock w.clockReads).ms =
        some (st.set username (.obj { r with
          cooldownUntil := some ((env.clock w.clockReads).ms + 7200000),
          lastError := .str "Consecutive failures" })) := by
      simp only [restrictedCooldown, hrec]
      norm_num
    rw [taskLoop_stop _ _ _ _ _ _ _ _ hstop, hstep]
    simp only [hr]
    obtain ⟨hp, -, hf⟩ := persistAndStop_frame env
      { w with flagReads := w.flagReads + pre.length + 1, posts := w.posts + pre.length + 1,
               trace := w.trace ++ pre.map postEvent ++ [postEvent task],
               clockReads := w.clockReads + 1 }
      (some (st.set username (.obj { r with
        cooldownUntil := some ((env.clock w.clockReads).ms + 7200000),
        lastError := .str "Consecutive failures" })))
    refine ⟨hp, hf, ?_⟩
    intro hwrite
    obtain ⟨-, -, -, ⟨more, ht, hs⟩, hd⟩ := persistAndStop_effect env
      { w with flagReads := w.flagReads + pre.length + 1, posts := w.posts + pre.length + 1,
               trace := w.trace ++ pre.map postEvent ++ [postEvent task],
               clockReads := w.clockReads + 1 }
      (st.set username (.obj { r with
        cooldownUntil := some ((env.clock w.clockReads).ms + 7200000),
        lastError := .str "Consecutive failures" })) hwrite
    refine ⟨⟨more, ?_, hs⟩, ?_⟩
    · rw [ht]; simp
    · intro h1 h2
      obtain ⟨st2, d, wk, hd2, hg⟩ := hd username _ (State.get_set_self st username _) h1 h2
      exact ⟨st2, _, hd2, hg, rfl, rfl⟩

/-! ## More on the resets: markers, and the success branch -/

/-- After `applyResets` both markers hold the current day string and week. -/
theorem applyResets_markers (st : State) (today : String) (week : Int) :
    (applyResets st today week).1.get "lastResetDate" = some (.str today) ∧
    (applyResets st today week).1.get "lastWeeklyReset" = some (.num week) := by
  have hne : ("lastResetDate" : String) ≠ "lastWeeklyReset" := by decide
  unfold applyResets
  by_cases hd : st.get "lastResetDate" = some (.str today)
  · by_cases hw : st.get "lastWeeklyReset" = some (.num week)
    · simp [hd, hw]
    · simp [hd, hw, State.get_set_ne _ _ _ _ hne, State.get_set_self, resetWeekly_get,
        resetEntry]
  · by_cases hw : st.get "lastWeeklyReset" = some (.num week)
    · have hw' := (weekly_marker_after_daily st today week).mpr hw
      simp [hd, hw', State.get_set_self]
    · have hw' : ¬ ((resetDaily st).set "lastResetDate" (.str today)).get "lastWeeklyReset" =
          some (.num week) := fun h => hw ((weekly_marker_after_daily st today week).mp h)
      simp [hd, hw', State.get_set_ne _ _ _ _ hne, State.get_set_self, resetWeekly_get,
        resetEntry]

/-- The daily count read from the store after `applyResets` is the count before
or zero. -/
theorem completedTodayOf_applyResets (st : State) (today : String) (week : Int)
    (k : String) :
    completedTodayOf (applyResets st today week).1 k = completedTodayOf st k ∨
    completedTodayOf (applyResets st today week).1 k = 0 := by
  by_cases h1 : k = "lastResetDate"
  · right
    simp [completedTodayOf, h1, (applyResets_markers st today week).1]
  · by_cases h2 : k = "lastWeeklyReset"
    · right
      simp [completedTodayOf, h2, (applyResets_markers st today week).2]
    · unfold completedTodayOf
      rw [applyResets_get st today week k h1 h2]
      cases hk : st.get k with
      | none => simp
      | some e =>
        cases e with
        | str s => simp [resetEntry]
        | num n => simp [resetEntry]
        | obj r =>
          by_cases hd : st.get "lastResetDate" = some (.str today)
          · simp [resetEntry, hd]
          · simp [resetEntry, hd, orZero]

/-- A record found after `applyResets` has the `cooldownUntil`, `lastError` and
`lastErrorType` of the record found before under the same key. -/
theorem applyResets_record_frame (st : State) (today : String) (week : Int)
    (k : String) (r2 : AccountRecord)
    (h : (applyResets st today week).1.get k = some (.obj r2)) :
    ∃ r, st.get k = some (.obj r) ∧ r2.cooldownUntil = r.cooldownUntil ∧
      r2.lastError = r.lastError ∧ r2.lastErrorType = r.lastErrorType := by
  by_cases h1 : k = "lastResetDate"
  · rw [h1, (applyResets_markers st today week).1] at h
    simp at h
  · by_cases h2 : k = "lastWeeklyReset"
    · rw [h2, (applyResets_markers st today week).2] at h
      simp at h
    · rw [applyResets_get st today week k h1 h2] at h
      cases hk : st.get k with
      | none => rw [hk] at h; simp at h
      | some e =>
        rw [hk] at h
        cases e with
        | str s => simp [resetEntry] at h
        | num n => simp [resetEntry] at h
        | obj r =>
          simp only [Option.map_some', resetEntry, Option.some.injEq, Entry.obj.injEq] at h
          exact ⟨r, rfl, by rw [← h], by rw [← h], by rw [← h]⟩

theorem checkDateResets_ok (env : Env) (hw : ∀ n, env.writeOk n = true) (w : World) :
    (checkDateResets env w).1 = .ok () := by
  unfold checkDateResets loadState saveState
  cases hd : w.disk <;> simp only [] <;> split_ifs <;> simp_all

theorem postsOf_append (a b : List Event) : postsOf (a ++ b) = postsOf a ++ postsOf b := by
  induction a with
  | nil => rfl
  | cons e rest ih =>
    cases e <;> simp [postsOf, ih]

theorem postsOf_onlySaves (es : List Event) (h : OnlySaves es) : postsOf es = [] := by
  induction es with
  | nil => rfl
  | cons e rest ih =>
    obtain ⟨s, hs⟩ := h e (List.mem_cons_self _ _)
    subst hs
    simp only [postsOf]
    exact ih (fun e he => h e (List.mem_cons_of_mem _ he))

theorem postsOf_map_postEvent (ts : List Task) :
    postsOf (ts.map postEvent) = ts.map (fun t => t.targetSteamProfileId) := by
  induction ts with
  | nil => rfl
  | cons t rest ih => simp [postEvent, postsOf, ih]

/-- The success branch after the comment was posted, when no write fails. -/
theorem onSuccess_ok (env : Env) (cfg : Config) (username profileId : String)
    (task : Task) (w : World) (st : State) (r : AccountRecord)
    (hdisk : w.disk = some st)
    (hrec : st.get username = some (.obj r))
    (hcomplete : env.completeTask w.requests = none)
    (hwrite : ∀ n, env.writeOk n = true) :
    ∃ w1 st1, onSuccess env cfg username profileId task w = (.ok (some 0), w1) ∧
      w1.posts = w.posts ∧ w1.flagReads = w.flagReads ∧
      postsOf w1.trace = postsOf w.trace ∧
      w1.disk = some st1 ∧
      (completedTodayOf st1 username = orZero r.completedToday + 1 ∨
        completedTodayOf st1 username = 0) ∧
      (∀ r1, st1.get username = some (.obj r1) → r1.cooldownUntil = r.cooldownUntil) := by
  have hs : successUpdate st username (env.clock w.clockReads).ms =
      st.set username (.obj { r with
        completedToday := some (orZero r.completedToday + 1),
        completedThisWeek := some (orZero r.completedThisWeek + 1),
        totalCompleted := some (orZero r.totalCompleted + 1),
        lastSuccess := some (env.clock w.clockReads).ms,
        lastError := .null, lastErrorType := .null }) := by
    simp [successUpdate, hrec]
  have hget := State.get_set_self st username (.obj { r with
        completedToday := some (orZero r.completedToday + 1),
        completedThisWeek := some (orZero r.completedThisWeek + 1),
        totalCompleted := some (orZero r.totalCompleted + 1),
        lastSuccess := some (env.clock w.clockReads).ms,
        lastError := .null, lastErrorType := .null })
  rw [← hs] at hget
  rw [onSuccess_world env cfg username profileId task w st hdisk hcomplete (hwrite _)]
  unfold syncDashboardAccounts
  generalize hW : ({
      disk := some (successUpdate st username (env.clock w.clockReads).ms),
      clockReads := w.clockReads + 1, flagReads := w.flagReads,
      writes := w.writes + 1, logins := w.logins, requests := w.requests + 1,
      posts := w.posts, randoms := w.randoms,
      trace := w.trace ++
        [Event.complete task.taskId task.requiredCommentId profileId,
         Event.save (successUpdate st username (env.clock w.clockReads).ms)] } : World) = W
  have hWd : W.disk = some (successUpdate st username (env.clock w.clockReads).ms) := by
    rw [← hW]
  have hok := checkDateResets_ok env hwrite W
  obtain ⟨hp, -, -, hf, -, more, ht, hsv⟩ := checkDateResets_storeOnly env W
  have hdk := checkDateResets_disk env W _ hWd
  cases hres : checkDateResets env W with
  | mk res w5 =>
    rw [hres] at hok hp hf ht hdk
    simp only [] at hok hp hf ht hdk
    subst hok
    simp only []
    have hposts : postsOf (w5.trace ++ [Event.sleep (getRandomDelay (env.random w5.randoms)
        cfg.delayMin cfg.delayMax)]) = postsOf w.trace := by
      rw [ht, ← hW]
      simp [postsOf_append, postsOf, postsOf_onlySaves more hsv]
    rcases hdk with hdk | hdk
    · refine ⟨_, _, rfl, by simp [hp, ← hW], by simp [hf, ← hW], hposts, hdk, ?_, ?_⟩
      · left; simp [completedTodayOf, hget]; rfl
      · intro r1 hr1
        rw [hget] at hr1
        simp only [Option.some.injEq, Entry.obj.injEq] at hr1
        rw [← hr1]
    · refine ⟨_, _, rfl, by simp [hp, ← hW], by simp [hf, ← hW], hposts, hdk, ?_, ?_⟩
      · rcases completedTodayOf_applyResets
          (successUpdate st username (env.clock w.clockReads).ms)
          (toDateString (env.clock W.clockReads))
          (getWeekNumber (env.clock (W.clockReads + 1))) username with h | h
        · left; rw [h]; simp [completedTodayOf, hget]; rfl
        · right; exact h
      · intro r1 hr1
        obtain ⟨r0, hr0, hcd, -, -⟩ := applyResets_record_frame _ _ _ _ _ hr1
        rw [hget] at hr0
        simp only [Option.some.injEq, Entry.obj.injEq] at hr0
        rw [hcd, ← hr0]


/-- The success branch when no write fails: the loop goes on with the counter at
0; one comment was posted; the file holds a state in which the daily count is
one more than before, or zero after a rollover, and the account's
`cooldownUntil` is as before. -/
theorem taskStep_success (env : Env) (cfg : Config) (username profileId : String)
    (task : Task) (f : Int) (w : World) (st : State) (r : AccountRecord)
    (hrun : env.running w.flagReads = true) (hdisk : w.disk = some st)
    (hrec : st.get username = some (.obj r))
    (hbelow : orZero r.completedToday < cfg.dailyLimit)
    (hpost : env.postUserComment w.posts = none)
    (hcomplete : env.completeTask w.requests = none)
    (hwrite : ∀ n, env.writeOk n = true) :
    ∃ w1 st1, taskStep env cfg username profileId task f w = (.ok (some 0), w1) ∧
      w1.posts = w.posts + 1 ∧ w1.flagReads = w.flagReads + 1 ∧
      postsOf w1.trace = postsOf w.trace ++ [task.targetSteamProfileId] ∧
      w1.disk = some st1 ∧
      (completedTodayOf st1 username = orZero r.completedToday + 1 ∨
        completedTodayOf st1 username = 0) ∧
      (∀ r1, st1.get username = some (.obj r1) → r1.cooldownUntil = r.cooldownUntil) := by
  have hc : completedTodayOf st username < cfg.dailyLimit := by
    simpa [completedTodayOf, hrec] using hbelow
  obtain ⟨w1, st1, h1, h2, h3, h4, h5, h6, h7⟩ := onSuccess_ok env cfg username profileId task
    { w with flagReads := w.flagReads + 1, posts := w.posts + 1,
             trace := w.trace ++
               [Event.post task.targetSteamProfileId task.requiredCommentText] }
    st r hdisk hrec hcomplete hwrite
  rw [taskStep_post env cfg username profileId task f w st hrun hdisk hc, hpost]
  refine ⟨w1, st1, h1, h2, h3, ?_, h5, h6, h7⟩
  rw [h4]
  simp [postsOf_append, postsOf]

/-- C4. A success resets the in-session counter of restricted-target failures.
With `consecutiveFailuresLimit = L` (one more than the length of `pre`), a
session whose outcomes are `L-1` restricted-target failures (`pre`), one success
(`task`, completion reported) and `L-1` more restricted-target failures (`suf`),
the daily limit not being reached and no write failing, attempts all `2L-1`
tasks in order and goes on to whatever tasks remain with the counter at `L-1`;
the account's `cooldownUntil` on file is the one from before the session. -/
theorem success_resets_failure_counter
    (env : Env) (cfg : Config) (username profileId : String)
    (pre : List Task) (task : Task) (suf rest : List Task)
    (w : World) (st : State) (r : AccountRecord)
    (hL : cfg.consecutiveFailuresLimit = pre.length + 1)
    (hsuf : suf.length = pre.length)
    (hdisk : w.disk = some st)
    (hrec : st.get username = some (.obj r))
    (hbelow : orZero r.completedToday + 1 < cfg.dailyLimit)
    (hpos : 0 < cfg.dailyLimit)
    (hrun : ∀ n, env.running n = true)
    (hwrite : ∀ n, env.writeOk n = true)
    (hfail1 : ∀ i, i < pre.length → RestrictedAt env (w.posts + i))
    (hsucc : env.postUserComment (w.posts + pre.length) = none)
    (hcomplete : env.completeTask w.requests = none)
    (hfail2 : ∀ i, i < suf.length → RestrictedAt env (w.posts + pre.length + 1 + i)) :
    ∃ w1 st1,
      taskLoop env cfg username profileId (pre ++ task :: (suf ++ rest)) 0 w =
        taskLoop env cfg username profileId rest (suf.length) w1 ∧
      w1.posts = w.posts + (pre.length + 1 + suf.length) ∧
      postsOf w1.trace = postsOf w.trace ++
        (pre ++ task :: suf).map (fun t => t.targetSteamProfileId) ∧
      w1.disk = some st1 ∧
      (∀ r1, st1.get username = some (.obj r1) → r1.cooldownUntil = r.cooldownUntil) := by
  have hc : completedTodayOf st username < cfg.dailyLimit := by
    have : orZero r.completedToday < cfg.dailyLimit := by omega
    simpa [completedTodayOf, hrec] using this
  -- the first run of failures
  rw [taskLoop_restricted_run env cfg username profileId st hc pre (task :: (suf ++ rest)) 0 w
    hdisk (fun i _ => hrun _) hfail1 (by omega)]
  -- the success
  obtain ⟨w1, st1, h1, h2, h3, h4, h5, h6, h7⟩ := taskStep_success env cfg username profileId
    task (0 + pre.length)
    { w with flagReads := w.flagReads + pre.length, posts := w.posts + pre.length,
             trace := w.trace ++ pre.map postEvent }
    st r (hrun _) hdisk hrec (by omega) hsucc hcomplete hwrite
  rw [taskLoop_continue _ _ _ _ _ _ _ _ _ _ h1]
  -- the second run of failures
  have hc1 : completedTodayOf st1 username < cfg.dailyLimit := by
    rcases h6 with h | h <;> omega
  have hrun2 := taskLoop_restricted_run env cfg username profileId st1 hc1 suf rest 0 w1 h5
    (fun i _ => hrun _)
    (fun i hi => by
      have := hfail2 i hi
      rw [h2]
      exact this)
    (by omega)
  rw [hrun2]
  refine ⟨{ w1 with flagReads := w1.flagReads + suf.length, posts := w1.posts + suf.length,
                     trace := w1.trace ++ suf.map postEvent }, st1, by simp, ?_, ?_, h5, h7⟩
  · simp only [h2]; omega
  · simp only [postsOf_append, postsOf_map_postEvent, h4]
    simp [postsOf_append, postsOf_map_postEvent]

/-! ## Rate-limit failures -/

theorem taskStep_rate_limit (env : Env) (cfg : Config) (username profileId : String)
    (task : Task) (f : Int) (w : World) (st : State) (error : String)
    (hrun : env.running w.flagReads = true) (hdisk : w.disk = some st)
    (hbelow : completedTodayOf st username < cfg.dailyLimit)
    (hpost : env.postUserComment w.posts = some error)
    (hnr : includes error "allow you to add comments" = false)
    (hrl : (includes error "frequently" || includes error "429") = true) :
    taskStep env cfg username profileId task f w =
      persistAndStop env
        { w with flagReads := w.flagReads + 1, posts := w.posts + 1,
                 trace := w.trace ++ [postEvent task],
                 clockReads := w.clockReads + 1 }
        (rateLimitCooldown st username (env.clock w.clockReads).ms error) := by
  rw [taskStep_post env cfg username profileId task f w st hrun hdisk hbelow, hpost]
  simp only [onFailure, hnr, hrl]
  simp [postEvent, loadState, hdisk]

theorem rateLimitCooldown_of_record (st : State) (k : String) (r : AccountRecord)
    (now : Int) (error : String) (h : st.get k = some (.obj r)) :
    rateLimitCooldown st k now error =
      some (st.set k (.obj { r with
        cooldownUntil := some (now +
          (if r.lastErrorType = .str "429" then 1200000 else 43200000)),
        lastError := .str error,
        lastErrorType := .str "429" })) := by
  simp only [rateLimitCooldown, isTiered, h]
  by_cases h1 : r.lastErrorType = .str "429" <;> simp [h1]

/-- C5. On a rate-limit failure (the error text contains "frequently" or "429"
and is not a restricted-target failure) the loop ends after this one comment.
The state-file write succeeding, the account's record is saved with
`cooldownUntil = now + 1200000` when the `lastErrorType` on file was already
"429" and `now + 43200000` otherwise, with `lastError` the error text and
`lastErrorType = "429"`, and the file afterwards holds these values. Hence a
second hit on the saved state gives 20 minutes, and a hit on a state just
written by a success gives 12 hours. -/
theorem rate_limit_tiered_cooldown
    (env : Env) (cfg : Config) (username profileId : String)
    (task : Task) (rest : List Task) (sessionFailures : Int) (w : World)
    (st : State) (r : AccountRecord) (error : String)
    (hrun : env.running w.flagReads = true)
    (hdisk : w.disk = some st)
    (hrec : st.get username = some (.obj r))
    (hbelow : orZero r.completedToday < cfg.dailyLimit)
    (hpost : env.postUserComment w.posts = some error)
    (hnr : includes error "allow you to add comments" = false)
    (hrl : (includes error "frequently" || includes error "429") = true) :
    (taskLoop env cfg username profileId (task :: rest) sessionFailures w).2.posts =
      w.posts + 1 ∧
    (taskLoop env cfg username profileId (task :: rest) sessionFailures w).2.flagReads =
      w.flagReads + 1 ∧
    (env.writeOk w.writes = true →
      (∃ more,
        (taskLoop env cfg username profileId (task :: rest) sessionFailures w).2.trace =
          w.trace ++ [postEvent task,
            Event.save (st.set username (.obj { r with
              cooldownUntil := some ((env.clock w.clockReads).ms +
                (if r.lastErrorType = .str "429" then 1200000 else 43200000)),
              lastError := .str error,
              lastErrorType := .str "429" }))] ++ more ∧
        OnlySaves more) ∧
      (username ≠ "lastResetDate" → username ≠ "lastWeeklyReset" →
        ∃ st2 r2,
          (taskLoop env cfg username profileId (task :: rest) sessionFailures w).2.disk =
            some st2 ∧
          st2.get username = some (.obj r2) ∧
          r2.cooldownUntil = some ((env.clock w.clockReads).ms +
            (if r.lastErrorType = .str "429" then 1200000 else 43200000)) ∧
          r2.lastError = .str error ∧ r2.lastErrorType = .str "429")) ∧
    (∀ (now2 : Int) (error2 : String), ∃ st2 r2,
      rateLimitCooldown (st.set username (.obj { r with
            cooldownUntil := some ((env.clock w.clockReads).ms +
              (if r.lastErrorType = .str "429" then 1200000 else 43200000)),
            lastError := .str error,
            lastErrorType := .str "429" })) username now2 error2 = some st2 ∧
      st2.get username = some (.obj r2) ∧ r2.cooldownUntil = some (now2 + 1200000)) ∧
    (∀ (st0 : State) (now0 now2 : Int) (error2 : String), ∃ st2 r2,
      rateLimitCooldown (successUpdate st0 username now0) username now2 error2 = some st2 ∧
      st2.get username = some (.obj r2) ∧ r2.cooldownUntil = some (now2 + 43200000)) := by
  have hc : completedTodayOf st username < cfg.dailyLimit := by
    simpa [completedTodayOf, hrec] using hbelow
  have hstep := taskStep_rate_limit env cfg username profileId task sessionFailures w st error
    hrun hdisk hc hpost hnr hrl
  have hstop : ∀ n, (taskStep env cfg username profileId task sessionFailures w).1 ≠
      .ok (some n) := by
    intro n; rw [hstep]; exact persistAndStop_stops _ _ _ n
  have hr := rateLimitCooldown_of_record st username r (env.clock w.clockReads).ms error hrec
  refine ⟨?_, ?_, ?_, ?_, ?_⟩
  · rw [taskLoop_stop _ _ _ _ _ _ _ _ hstop, hstep]
    exact (persistAndStop_frame env
      { w with flagReads := w.flagReads + 1, posts := w.posts + 1,
               trace := w.trace ++ [postEvent task],
               clockReads := w.clockReads + 1 } _).1
  · rw [taskLoop_stop _ _ _ _ _ _ _ _ hstop, hstep]
    exact (persistAndStop_frame env
      { w with flagReads := w.flagReads + 1, posts := w.posts + 1,
               trace := w.trace ++ [postEvent task],
               clockReads := w.clockReads + 1 } _).2.2
  · intro hwrite
    rw [taskLoop_stop _ _ _ _ _ _ _ _ hstop, hstep, hr]
    obtain ⟨-, -, -, ⟨more, ht, hs⟩, hd⟩ := persistAndStop_effect env
      { w with flagReads := w.flagReads + 1, posts := w.posts + 1,
               trace := w.trace ++ [postEvent task],
               clockReads := w.clockReads + 1 }
      (st.set username (.obj { r with
        cooldownUntil := some ((env.clock w.clockReads).ms +
          (if r.lastErrorType = .str "429" then 1200000 else 43200000)),
        lastError := .str error,
        lastErrorType := .str "429" })) hwrite
    refine ⟨⟨more, by rw [ht]; simp, hs⟩, ?_⟩
    intro h1 h2
    obtain ⟨st2, d, wk, hd2, hg⟩ := hd username _ (State.get_set_self st username _) h1 h2
    exact ⟨st2, _, hd2, hg, rfl, rfl, rfl⟩
  · intro now2 error2
    have h2 := rateLimitCooldown_of_record _ username _ now2 error2
      (State.get_set_self st username (.obj { r with
        cooldownUntil := some ((env.clock w.clockReads).ms +
          (if r.lastErrorType = .str "429" then 1200000 else 43200000)),
        lastError := .str error,
        lastErrorType := .str "429" }))
    exact ⟨_, _, h2, State.get_set_self _ username _, by simp⟩
  · intro st0 now0 now2 error2
    have h0 : ∃ r0 : AccountRecord, (successUpdate st0 username now0).get username =
        some (.obj r0) ∧ r0.lastErrorType = .null :=
      ⟨_, State.get_set_self _ username _, rfl⟩
    obtain ⟨r0, hg0, ht0⟩ := h0
    have h2 := rateLimitCooldown_of_record _ username r0 now2 error2 hg0
    exact ⟨_, _, h2, State.get_set_self _ username _, by simp [ht0]⟩

/-! ## The reset policy (`checkDateResets`) -/

/-- C6. Daily rollover. When the stored `lastResetDate` differs from today's day
string (and the write succeeds), `checkDateResets` performs exactly one save, of
a state in which `lastResetDate` is today's string and every record has
`completedToday = 0`; every record of the old state is still a record there. -/
theorem daily_rollover_resets_completedToday
    (env : Env) (w : World) (st : State)
    (hdisk : w.disk = some st)
    (hday : st.get "lastResetDate" ≠ some (.str (toDateString (env.clock w.clockReads))))
    (hwrite : env.writeOk w.writes = true) :
    ∃ st1,
      checkDateResets env w =
        (.ok (), { w with clockReads := w.clockReads + 2, writes := w.writes + 1,
                          disk := some st1, trace := w.trace ++ [Event.save st1] }) ∧
      st1.get "lastResetDate" = some (.str (toDateString (env.clock w.clockReads))) ∧
      (∀ k r1, st1.get k = some (.obj r1) → r1.completedToday = some 0) ∧
      (∀ k r, st.get k = some (.obj r) → k ≠ "lastResetDate" → k ≠ "lastWeeklyReset" →
        ∃ r1, st1.get k = some (.obj r1) ∧ r1.completedToday = some 0) := by
  refine ⟨_, checkDateResets_rollover env w st hdisk (Or.inl hday) hwrite,
    (applyResets_markers st _ _).1, ?_, ?_⟩
  · intro k r1 hk
    by_cases h1 : k = "lastResetDate"
    · rw [h1, (applyResets_markers st _ _).1] at hk; simp at hk
    · by_cases h2 : k = "lastWeeklyReset"
      · rw [h2, (applyResets_markers st _ _).2] at hk; simp at hk
      · rw [applyResets_get st _ _ k h1 h2] at hk
        cases hg : st.get k with
        | none => rw [hg] at hk; simp at hk
        | some e =>
          rw [hg] at hk
          cases e with
          | str s => simp [resetEntry] at hk
          | num n => simp [resetEntry] at hk
          | obj r =>
            simp only [Option.map_some', resetEntry, Option.some.injEq, Entry.obj.injEq,
              hday, ne_eq, not_false_eq_true, decide_True, if_true] at hk
            rw [← hk]
  · intro k r hk h1 h2
    have hg := applyResets_get st (toDateString (env.clock w.clockReads))
      (getWeekNumber (env.clock (w.clockReads + 1))) k h1 h2
    rw [hk] at hg
    simp only [Option.map_some', resetEntry, hday, ne_eq, not_false_eq_true, decide_True,
      if_true] at hg
    exact ⟨_, hg, rfl⟩

/-- A record under a key that is not a marker, after `applyResets`: each counter
is zeroed exactly when its own marker is out of date. -/
theorem applyResets_get_record (st : State) (today : String) (week : Int) (k : String)
    (r : AccountRecord) (hk : st.get k = some (.obj r))
    (h1 : k ≠ "lastResetDate") (h2 : k ≠ "lastWeeklyReset") :
    (applyResets st today week).1.get k =
      some (.obj { r with
        completedToday :=
          if st.get "lastResetDate" ≠ some (.str today) then some 0 else r.completedToday,
        completedThisWeek :=
          if st.get "lastWeeklyReset" ≠ some (.num week) then some 0
          else r.completedThisWeek }) := by
  rw [applyResets_get st today week k h1 h2, hk]
  simp only [Option.map_some', resetEntry, decide_eq_true_eq]

/-- C7. Weekly rollover, and independence of the two checks. When the stored
`lastWeeklyReset` differs from the current week number (and the write succeeds),
`checkDateResets` saves once a state in which `lastWeeklyReset` is the current
week and every record has `completedThisWeek = 0`. For a record of the old
state: when only the week marker is out of date the record changes in
`completedThisWeek` alone (so `completedToday` stays), and when only the day
marker is out of date it changes in `completedToday` alone. -/
theorem weekly_rollover_resets_completedThisWeek
    (env : Env) (w : World) (st : State)
    (hdisk : w.disk = some st)
    (hwrite : env.writeOk w.writes = true) :
    (st.get "lastWeeklyReset" ≠ some (.num (getWeekNumber (env.clock (w.clockReads + 1)))) →
      ∃ st1,
        checkDateResets env w =
          (.ok (), { w with clockReads := w.clockReads + 2, writes := w.writes + 1,
                            disk := some st1, trace := w.trace ++ [Event.save st1] }) ∧
        st1.get "lastWeeklyReset" =
          some (.num (getWeekNumber (env.clock (w.clockReads + 1)))) ∧
        (∀ k r1, st1.get k = some (.obj r1) → r1.completedThisWeek = some 0) ∧
        (∀ k r, st.get k = some (.obj r) → k ≠ "lastResetDate" → k ≠ "lastWeeklyReset" →
          ∃ r1, st1.get k = some (.obj r1) ∧ r1.completedThisWeek = some 0) ∧
        (st.get "lastResetDate" = some (.str (toDateString (env.clock w.clockReads))) →
          ∀ k r, st.get k = some (.obj r) → k ≠ "lastResetDate" → k ≠ "lastWeeklyReset" →
            st1.get k = some (.obj { r with completedThisWeek := some 0 }))) ∧
    (st.get "lastResetDate" ≠ some (.str (toDateString (env.clock w.clockReads))) →
      st.get "lastWeeklyReset" = some (.num (getWeekNumber (env.clock (w.clockReads + 1)))) →
      ∃ st1,
        checkDateResets env w =
          (.ok (), { w with clockReads := w.clockReads + 2, writes := w.writes + 1,
                            disk := some st1, trace := w.trace ++ [Event.save st1] }) ∧
        ∀ k r, st.get k = some (.obj r) → k ≠ "lastResetDate" → k ≠ "lastWeeklyReset" →
          st1.get k = some (.obj { r with completedToday := some 0 })) := by
  constructor
  · intro hweek
    refine ⟨_, checkDateResets_rollover env w st hdisk (Or.inr hweek) hwrite,
      (applyResets_markers st _ _).2, ?_, ?_, ?_⟩
    · intro k r1 hk
      by_cases h1 : k = "lastResetDate"
      · rw [h1, (applyResets_markers st _ _).1] at hk; simp at hk
      · by_cases h2 : k = "lastWeeklyReset"
        · rw [h2, (applyResets_markers st _ _).2] at hk; simp at hk
        · cases hg : st.get k with
          | none => rw [applyResets_get st _ _ k h1 h2, hg] at hk; simp at hk
          | some e =>
            cases e with
            | str s => rw [applyResets_get st _ _ k h1 h2, hg] at hk; simp [resetEntry] at hk
            | num n => rw [applyResets_get st _ _ k h1 h2, hg] at hk; simp [resetEntry] at hk
            | obj r =>
              rw [applyResets_get_record st _ _ k r hg h1 h2] at hk
              simp only [Option.some.injEq, Entry.obj.injEq] at hk
              rw [← hk]
              simp [hweek]
    · intro k r hk h1 h2
      refine ⟨_, applyResets_get_record st _ _ k r hk h1 h2, ?_⟩
      simp [hweek]
    · intro hday k r hk h1 h2
      rw [applyResets_get_record st _ _ k r hk h1 h2]
      simp [hweek, hday]
  · intro hday hweek
    refine ⟨_, checkDateResets_rollover env w st hdisk (Or.inl hday) hwrite, ?_⟩
    intro k r hk h1 h2
    rw [applyResets_get_record st _ _ k r hk h1 h2]
    simp [hweek, hday]

/-- C8. Idempotence. After a run of `checkDateResets` that returned normally
(its write, if any, succeeded), a second run at clock readings with the same day string and the
same week number reads the clock and does nothing else: same file, no write, no
save. The same holds for any later store that still carries the two markers of
the first run, such as the store after a success raised the counters: the
raised counters stay. -/
theorem checkDateResets_idempotent
    (env : Env) (w : World) (st : State)
    (hdisk : w.disk = some st)
    (hok : (checkDateResets env w).1 = .ok ())
    (hday : toDateString (env.clock (w.clockReads + 2)) = toDateString (env.clock w.clockReads))
    (hweek : getWeekNumber (env.clock (w.clockReads + 3)) =
      getWeekNumber (env.clock (w.clockReads + 1))) :
    checkDateResets env (checkDateResets env w).2 =
      (.ok (), { (checkDateResets env w).2 with
                   clockReads := (checkDateResets env w).2.clockReads + 2 }) ∧
    (∀ (w2 : World) (st2 : State), w2.disk = some st2 →
      st2.get "lastResetDate" = some (.str (toDateString (env.clock w.clockReads))) →
      st2.get "lastWeeklyReset" = some (.num (getWeekNumber (env.clock (w.clockReads + 1)))) →
      toDateString (env.clock w2.clockReads) = toDateString (env.clock w.clockReads) →
      getWeekNumber (env.clock (w2.clockReads + 1)) =
        getWeekNumber (env.clock (w.clockReads + 1)) →
      checkDateResets env w2 = (.ok (), { w2 with clockReads := w2.clockReads + 2 })) ∧
    (∀ (w2 : World) (st1 : State) (username : String) (now : Int),
      (checkDateResets env w).2.disk = some st1 →
      username ≠ "lastResetDate" → username ≠ "lastWeeklyReset" →
      w2.disk = some (successUpdate st1 username now) →
      toDateString (env.clock w2.clockReads) = toDateString (env.clock w.clockReads) →
      getWeekNumber (env.clock (w2.clockReads + 1)) =
        getWeekNumber (env.clock (w.clockReads + 1)) →
      checkDateResets env w2 = (.ok (), { w2 with clockReads := w2.clockReads + 2 })) := by
  -- the store after the first run carries both current markers
  have hfirst : ∃ st1, (checkDateResets env w).2.disk = some st1 ∧
      (checkDateResets env w).2.clockReads = w.clockReads + 2 ∧
      st1.get "lastResetDate" = some (.str (toDateString (env.clock w.clockReads))) ∧
      st1.get "lastWeeklyReset" =
        some (.num (getWeekNumber (env.clock (w.clockReads + 1)))) := by
    by_cases hch : st.get "lastResetDate" ≠ some (.str (toDateString (env.clock w.clockReads))) ∨
      st.get "lastWeeklyReset" ≠ some (.num (getWeekNumber (env.clock (w.clockReads + 1))))
    · have hwrite : env.writeOk w.writes = true := by
        by_contra hwr
        rw [checkDateResets_some env w st hdisk,
          if_pos ((applyResets_changed st _ _).mpr hch)] at hok
        simp [saveState, hwr] at hok
      rw [checkDateResets_rollover env w st hdisk hch hwrite]
      exact ⟨_, rfl, rfl, applyResets_markers st _ _⟩
    · have hd : st.get "lastResetDate" =
          some (.str (toDateString (env.clock w.clockReads))) := by
        by_contra h; exact hch (Or.inl h)
      have hw : st.get "lastWeeklyReset" =
          some (.num (getWeekNumber (env.clock (w.clockReads + 1)))) := by
        by_contra h; exact hch (Or.inr h)
      rw [checkDateResets_current env w st hdisk hd hw]
      exact ⟨st, hdisk, rfl, hd, hw⟩
  have hgen : ∀ (w2 : World) (st2 : State), w2.disk = some st2 →
      st2.get "lastResetDate" = some (.str (toDateString (env.clock w.clockReads))) →
      st2.get "lastWeeklyReset" = some (.num (getWeekNumber (env.clock (w.clockReads + 1)))) →
      toDateString (env.clock w2.clockReads) = toDateString (env.clock w.clockReads) →
      getWeekNumber (env.clock (w2.clockReads + 1)) =
        getWeekNumber (env.clock (w.clockReads + 1)) →
      checkDateResets env w2 = (.ok (), { w2 with clockReads := w2.clockReads + 2 }) := by
    intro w2 st2 hd2 hm1 hm2 hs1 hs2
    exact checkDateResets_current env w2 st2 hd2 (by rw [hs1]; exact hm1)
      (by rw [hs2]; exact hm2)
  obtain ⟨st1, hd1, hc1, hm1, hm2⟩ := hfirst
  refine ⟨?_, hgen, ?_⟩
  · exact hgen _ st1 hd1 hm1 hm2 (by rw [hc1]; exact hday) (by rw [hc1]; exact hweek)
  · intro w2 st1' username now hd1' h1 h2 hd2 hs1 hs2
    rw [hd1] at hd1'
    have hst : st1 = st1' := by simpa using hd1'
    subst hst
    refine hgen w2 _ hd2 ?_ ?_ hs1 hs2
    · simp only [successUpdate]
      rw [State.get_set_ne _ _ _ _ (Ne.symm h1)]; exact hm1
    · simp only [successUpdate]
      rw [State.get_set_ne _ _ _ _ (Ne.symm h2)]; exact hm2

/-! ## Calendar lemmas and `getWeekNumber` -/

/-- `yearFromDay` meets the defining property of `YearFromTime`: the year's first
day is at or before day `n`, the next year's first day is after it. -/
theorem yearFromDay_spec (n : Int) :
    dayFromYear (yearFromDay n) ≤ n ∧ n < dayFromYear (yearFromDay n + 1) := by
  unfold yearFromDay
  simp only
  split_ifs with h1 h2
  · rw [Int.sub_add_cancel]
    refine ⟨?_, h1⟩
    unfold dayFromYear at *
    omega
  · refine ⟨h2, ?_⟩
    unfold dayFromYear at *
    omega
  · exact ⟨by omega, by omega⟩

/-- A year has `daysInYear` days. -/
theorem dayFromYear_succ (y : Int) : dayFromYear (y + 1) = dayFromYear y + daysInYear y := by
  unfold dayFromYear daysInYear
  split_ifs <;> omega

theorem daysInYear_le (y : Int) : daysInYear y ≤ 366 := by
  unfold daysInYear
  split_ifs <;> omega

theorem day_makeDate (n : Int) : day (makeDate n 0) = n := by
  unfold day makeDate msPerDay
  omega

theorem timeWithinDay_makeDate (n : Int) : timeWithinDay (makeDate n 0) = 0 := by
  unfold timeWithinDay makeDate msPerDay
  omega

theorem ite_between (c : Prop) [Decidable c] (a b lo hi : Int)
    (ha : lo ≤ a ∧ a ≤ hi) (hb : lo ≤ b ∧ b ≤ hi) :
    lo ≤ (if c then a else b) ∧ (if c then a else b) ≤ hi := by
  split <;> assumption

theorem monthFromTime_range (t : Int) : 0 ≤ monthFromTime t ∧ monthFromTime t ≤ 11 := by
  unfold monthFromTime
  repeat' apply ite_between
  all_goals omega

/-- `d.setUTCDate(d.getUTCDate() + k)` moves a midnight time value by `k` days. -/
theorem setUTCDate_shift (n k : Int) :
    setUTCDate (makeDate n 0) (dateFromTime (makeDate n 0) + k) = makeDate (n + k) 0 := by
  have hm := monthFromTime_range (makeDate n 0)
  have hdiv : monthFromTime (makeDate n 0) / 12 = 0 := by omega
  have hmod : monthFromTime (makeDate n 0) % 12 = monthFromTime (makeDate n 0) := by omega
  unfold setUTCDate makeDay dateFromTime
  simp only [hdiv, hmod, timeWithinDay_makeDate, add_zero, inLeapYear, dayWithinYear,
    day_makeDate, yearFromTime]
  congr 1
  omega

theorem makeDay_first (y : Int) : makeDay y 0 1 = dayFromYear y := by
  unfold makeDay daysBeforeMonth
  simp

theorem makeFullYear_of_outside (y : Int) (h : y < 0 ∨ 99 < y) : makeFullYear y = y := by
  unfold makeFullYear
  split_ifs <;> omega

/-- The day `getWeekNumber` moves to is the Thursday of the date's week. -/
theorem thursday_shift (n : Int) :
    n + (4 - (if (n + 4) % 7 = 0 then 7 else (n + 4) % 7)) = thursdayOfWeek n := by
  unfold thursdayOfWeek
  split_ifs <;> omega

/-- On dates whose year and whose week's Thursday's year are not written with
one or two digits, `getWeekNumber` is the ISO week of the date's day number. -/
theorem getWeekNumber_eq (d : Instant)
    (hy : d.year < 0 ∨ 99 < d.year)
    (ht : yearFromDay (thursdayOfWeek (dayNumber d.year d.month d.date)) < 0 ∨
      99 < yearFromDay (thursdayOfWeek (dayNumber d.year d.month d.date))) :
    getWeekNumber d = isoWeekOfDay (dayNumber d.year d.month d.date) := by
  unfold dayNumber at ht ⊢
  generalize hn : makeDay d.year d.month d.date = n at ht
  have hd1 : dateUTC d.year d.month d.date = makeDate n 0 := by
    unfold dateUTC
    rw [makeFullYear_of_outside d.year hy, hn]
  have hd2 : setUTCDate (makeDate n 0)
      (dateFromTime (makeDate n 0) + 4 -
        (if weekDay (makeDate n 0) = 0 then 7 else weekDay (makeDate n 0))) =
      makeDate (thursdayOfWeek n) 0 := by
    have h := setUTCDate_shift n (4 - (if (n + 4) % 7 = 0 then 7 else (n + 4) % 7))
    rw [thursday_shift] at h
    rw [← h]
    simp only [weekDay, day_makeDate]
    congr 1
    omega
  have hys : dateUTC (yearFromTime (makeDate (thursdayOfWeek n) 0)) 0 1 =
      makeDate (dayFromYear (yearFromDay (thursdayOfWeek n))) 0 := by
    unfold dateUTC yearFromTime
    rw [day_makeDate, makeFullYear_of_outside _ ht, makeDay_first]
  unfold getWeekNumber
  simp only [hd1, hd2, hys]
  unfold isoWeekOfDay ceilDiv makeDate msPerDay
  simp only []
  omega

/-- The Thursday of a week lies in its year: its ordinal day is 1 to 366. -/
theorem thursday_ordinal_range (t : Int) :
    0 ≤ t - dayFromYear (yearFromDay t) ∧ t - dayFromYear (yearFromDay t) ≤ 365 := by
  have h := yearFromDay_spec t
  have hs := dayFromYear_succ (yearFromDay t)
  have hl := daysInYear_le (yearFromDay t)
  omega

theorem isoWeekOfDay_range (n : Int) : 1 ≤ isoWeekOfDay n ∧ isoWeekOfDay n ≤ 53 := by
  have h := thursday_ordinal_range (thursdayOfWeek n)
  unfold isoWeekOfDay
  simp only []
  omega

/-- All seven days of a Monday..Sunday week share their Thursday. -/
theorem thursdayOfWeek_of_monday (m i : Int) (hm : (m + 3) % 7 = 0) (h0 : 0 ≤ i) (h6 : i ≤ 6) :
    thursdayOfWeek (m + i) = m + 3 := by
  unfold thursdayOfWeek
  omega

/-- `dayNumber` counts calendar days: 1 January 1970 is day 0, the day after the
last of a month is the first of the next month, and the day after 31 December is
1 January of the next year. -/
theorem dayNumber_consecutive :
    dayNumber 1970 0 1 = 0 ∧
    (∀ y m d : Int, dayNumber y m (d + 1) = dayNumber y m d + 1) ∧
    (∀ y m : Int, 0 ≤ m → m ≤ 10 →
      dayNumber y (m + 1) 1 =
        dayNumber y m (daysInMonth m (if daysInYear y = 366 then 1 else 0)) + 1) ∧
    (∀ y : Int, dayNumber (y + 1) 0 1 = dayNumber y 11 31 + 1) := by
  refine ⟨by decide, ?_, ?_, ?_⟩
  · intro y m d
    unfold dayNumber makeDay
    simp only []
    omega
  · intro y m h0 h10
    have hd : m / 12 = 0 := by omega
    have hd1 : (m + 1) / 12 = 0 := by omega
    have hm : m % 12 = m := by omega
    have hm1 : (m + 1) % 12 = m + 1 := by omega
    unfold dayNumber makeDay
    simp only [hd, hd1, hm, hm1, add_zero]
    generalize (if daysInYear y = 366 then (1 : Int) else 0) = l
    interval_cases m <;> simp [daysBeforeMonth, daysInMonth] <;> omega
  · intro y
    have hs := dayFromYear_succ y
    unfold dayNumber makeDay
    simp only [daysBeforeMonth]
    unfold daysInYear at *
    simp
    split_ifs at * <;> omega

theorem daysInYear_ge (y : Int) : 365 ≤ daysInYear y := by
  unfold daysInYear
  split_ifs <;> omega

theorem dayFromYear_add (a : Int) (k : Nat) :
    dayFromYear a + 365 * (k : Int) ≤ dayFromYear (a + (k : Int)) := by
  induction k with
  | zero => simp
  | succ k ih =>
    have hs := dayFromYear_succ (a + (k : Int))
    have hg := daysInYear_ge (a + (k : Int))
    have he : a + ((k + 1 : Nat) : Int) = a + (k : Int) + 1 := by push_cast; ring
    rw [he, hs]
    push_cast
    omega

theorem dayFromYear_mono (a b : Int) (h : a ≤ b) : dayFromYear a ≤ dayFromYear b := by
  obtain ⟨k, hk⟩ := Int.le.dest h
  have := dayFromYear_add a k
  rw [hk] at this
  have hk0 : (0 : Int) ≤ (k : Int) := Int.ofNat_nonneg k
  omega

theorem yearFromDay_unique (y n : Int)
    (hlo : dayFromYear y ≤ n) (hhi : n < dayFromYear (y + 1)) : yearFromDay n = y := by
  have h := yearFromDay_spec n
  generalize yearFromDay n = z at h
  rcases lt_trichotomy z y with hlt | heq | hgt
  · have := dayFromYear_mono (z + 1) y (by omega)
    omega
  · exact heq
  · have := dayFromYear_mono (y + 1) z (by omega)
    omega

theorem ite_eq_of (c : Prop) [Decidable c] (a b m : Int)
    (ha : c → a = m) (hb : ¬ c → b = m) : (if c then a else b) = m := by
  split
  · exact ha (by assumption)
  · exact hb (by assumption)

theorem monthFromTime_of_bounds (t m : Int) (h0 : 0 ≤ m) (h11 : m ≤ 11)
    (hlo : daysBeforeMonth m (inLeapYear t) ≤ dayWithinYear t)
    (hhi : dayWithinYear t < daysBeforeMonth m (inLeapYear t) + daysInMonth m (inLeapYear t)) :
    monthFromTime t = m := by
  have hl : inLeapYear t = 0 ∨ inLeapYear t = 1 := by
    unfold inLeapYear
    split_ifs <;> simp
  unfold monthFromTime
  simp only
  generalize dayWithinYear t = d at hlo hhi
  generalize inLeapYear t = l at hlo hhi hl
  interval_cases m
  all_goals simp [daysBeforeMonth, daysInMonth] at hlo hhi
  all_goals repeat' (first | apply ite_eq_of | intro)
  all_goals omega

/-- A calendar date that exists is read back from its time value. -/
theorem valid_date_fields (y m d : Int) (hv : ValidDate y m d) :
    yearFromTime (makeDate (makeDay y m d) 0) = y ∧
    monthFromTime (makeDate (makeDay y m d) 0) = m ∧
    dateFromTime (makeDate (makeDay y m d) 0) = d := by
  obtain ⟨h0, h11, h1, hd⟩ := hv
  have hdiv : m / 12 = 0 := by omega
  have hmod : m % 12 = m := by omega
  have hn : makeDay y m d =
      dayFromYear y + daysBeforeMonth m (if daysInYear y = 366 then 1 else 0) + d - 1 := by
    unfold makeDay
    simp only [hdiv, hmod, add_zero]
  have hs := dayFromYear_succ y
  have hin : 0 ≤ daysBeforeMonth m (if daysInYear y = 366 then 1 else 0) + d - 1 ∧
      daysBeforeMonth m (if daysInYear y = 366 then 1 else 0) + d - 1 < daysInYear y := by
    by_cases hleap : daysInYear y = 366
    · simp only [hleap, if_true] at hd ⊢
      interval_cases m <;> simp [daysBeforeMonth, daysInMonth] at hd ⊢ <;> omega
    · have h365 : daysInYear y = 365 := by
        unfold daysInYear at hleap ⊢
        split_ifs at hleap ⊢ <;> simp_all
      simp only [hleap, if_false] at hd ⊢
      rw [h365]
      interval_cases m <;> simp [daysBeforeMonth, daysInMonth] at hd ⊢ <;> omega
  have hy : yearFromTime (makeDate (makeDay y m d) 0) = y := by
    unfold yearFromTime
    rw [day_makeDate]
    apply yearFromDay_unique
    · rw [hn]; omega
    · rw [hn, hs]; omega
  have hleap : inLeapYear (makeDate (makeDay y m d) 0) =
      (if daysInYear y = 366 then 1 else 0) := by
    unfold inLeapYear
    rw [hy]
  have hdw : dayWithinYear (makeDate (makeDay y m d) 0) =
      daysBeforeMonth m (if daysInYear y = 366 then 1 else 0) + d - 1 := by
    unfold dayWithinYear
    rw [hy, day_makeDate, hn]
    omega
  have hm : monthFromTime (makeDate (makeDay y m d) 0) = m := by
    apply monthFromTime_of_bounds _ _ h0 h11
    · rw [hleap, hdw]; omega
    · rw [hleap, hdw]; omega
  refine ⟨hy, hm, ?_⟩
  unfold dateFromTime
  rw [hm, hleap, hdw]
  omega

/-- An existing date lies within its year. -/
theorem dayNumber_in_year (y m d : Int) (hv : ValidDate y m d) :
    dayFromYear y ≤ dayNumber y m d ∧ dayNumber y m d < dayFromYear (y + 1) := by
  obtain ⟨hy, -, -⟩ := valid_date_fields y m d hv
  unfold yearFromTime at hy
  rw [day_makeDate] at hy
  have h := yearFromDay_spec (makeDay y m d)
  rw [hy] at h
  exact h

/-- The Thursday of the week of an existing date lies in the year of the date,
the year before or the year after. -/
theorem thursday_year_bounds (y m d : Int) (hv : ValidDate y m d) :
    y - 1 ≤ yearFromDay (thursdayOfWeek (dayNumber y m d)) ∧
    yearFromDay (thursdayOfWeek (dayNumber y m d)) ≤ y + 1 := by
  obtain ⟨hlo, hhi⟩ := dayNumber_in_year y m d hv
  have ht : dayNumber y m d - 3 ≤ thursdayOfWeek (dayNumber y m d) ∧
      thursdayOfWeek (dayNumber y m d) ≤ dayNumber y m d + 3 := by
    unfold thursdayOfWeek
    omega
  have hs := yearFromDay_spec (thursdayOfWeek (dayNumber y m d))
  generalize yearFromDay (thursdayOfWeek (dayNumber y m d)) = z at hs ⊢
  generalize thursdayOfWeek (dayNumber y m d) = t at hs ht
  have h1 := dayFromYear_succ (y - 1)
  have h2 := daysInYear_ge (y - 1)
  have h3 := dayFromYear_succ (y + 1)
  have h4 := daysInYear_ge (y + 1)
  rw [Int.sub_add_cancel] at h1
  constructor
  · by_contra hcon
    have := dayFromYear_mono (z + 1) (y - 1) (by omega)
    omega
  · by_contra hcon
    have := dayFromYear_mono (y + 1 + 1) z (by omega)
    omega

/-- C9. For every calendar date that a clock reading can give (an existing date
of a year after 100; years before -1 are covered as well), `getWeekNumber`
returns the ISO-8601 week number of the date, `1 + floor((ordinal - 1) / 7)` for
the ordinal day of the Thursday of the date's Monday..Sunday week; the result
lies in 1..53; and it is the same for every such date `e` of the same
Monday..Sunday week. -/
theorem getWeekNumber_is_iso_week (d : Instant)
    (hv : ValidDate d.year d.month d.date)
    (hy : d.year < -1 ∨ 100 < d.year) :
    getWeekNumber d = isoWeekOfDay (dayNumber d.year d.month d.date) ∧
    1 ≤ getWeekNumber d ∧ getWeekNumber d ≤ 53 ∧
    (∀ (e : Instant) (monday i j : Int),
      ValidDate e.year e.month e.date → (e.year < -1 ∨ 100 < e.year) →
      (monday + 3) % 7 = 0 → 0 ≤ i → i ≤ 6 → 0 ≤ j → j ≤ 6 →
      dayNumber d.year d.month d.date = monday + i →
      dayNumber e.year e.month e.date = monday + j →
      getWeekNumber e = getWeekNumber d) := by
  have key : ∀ x : Instant, ValidDate x.year x.month x.date →
      (x.year < -1 ∨ 100 < x.year) →
      getWeekNumber x = isoWeekOfDay (dayNumber x.year x.month x.date) := by
    intro x hx hxy
    have hb := thursday_year_bounds x.year x.month x.date hx
    exact getWeekNumber_eq x (by omega) (by omega)
  have heq := key d hv hy
  have hr := isoWeekOfDay_range (dayNumber d.year d.month d.date)
  refine ⟨heq, by rw [heq]; exact hr.1, by rw [heq]; exact hr.2, ?_⟩
  intro e monday i j hev hey hm hi0 hi6 hj0 hj6 hdn hen
  have htd := thursdayOfWeek_of_monday monday i hm hi0 hi6
  have hte := thursdayOfWeek_of_monday monday j hm hj0 hj6
  rw [heq, key e hev hey]
  unfold isoWeekOfDay
  rw [hen, hte, hdn, htd]

/-- Instance of C9: Thursday 5 November 2026 is in ISO week 45. -/
theorem getWeekNumber_is_iso_week_witness :
    getWeekNumber { ms := 1793880000000, year := 2026, month := 10, date := 5 } = 45 :=
  ((getWeekNumber_is_iso_week
      { ms := 1793880000000, year := 2026, month := 10, date := 5 }
      (by decide) (by decide)).1).trans (by decide)

/-- The bound on the year is there for `Date.UTC`, which reads a year from 0 to
99 as 1900 + year: for 1 January of the year 5, a Saturday of ISO week 53, the
function gives 52, and for 1 January 100 it gives no week number. No clock
reading has such a year. -/
theorem getWeekNumber_two_digit_year :
    ValidDate 5 0 1 ∧
    getWeekNumber { ms := 0, year := 5, month := 0, date := 1 } = 52 ∧
    isoWeekOfDay (dayNumber 5 0 1) = 53 ∧
    ValidDate 100 0 1 ∧
    getWeekNumber { ms := 0, year := 100, month := 0, date := 1 } = -99085 := by
  decide

/-! ## The account loop of one cycle -/

theorem loginsOf_append (a b : List Event) : loginsOf (a ++ b) = loginsOf a ++ loginsOf b := by
  induction a with
  | nil => rfl
  | cons e rest ih =>
    cases e <;> simp [loginsOf, ih]

theorem loginsOf_onlySaves (es : List Event) (h : OnlySaves es) : loginsOf es = [] := by
  induction es with
  | nil => rfl
  | cons e rest ih =>
    obtain ⟨s, hs⟩ := h e (List.mem_cons_self _ _)
    subst hs
    simp only [loginsOf]
    exact ih (fun e he => h e (List.mem_cons_of_mem _ he))

theorem saveState_logins (env : Env) (w : World) (st : State) :
    loginsOf (saveState env w st).2.trace = loginsOf w.trace := by
  unfold saveState
  split_ifs <;> simp [loginsOf_append, loginsOf]

theorem sync_logins (env : Env) (w : World) :
    loginsOf (syncDashboardAccounts env w).2.trace = loginsOf w.trace := by
  obtain ⟨-, -, -, -, -, more, ht, hs⟩ := checkDateResets_storeOnly env w
  unfold syncDashboardAccounts
  rw [ht, loginsOf_append, loginsOf_onlySaves more hs, List.append_nil]

theorem persistAndStop_logins (env : Env) (w : World) (st : Option State) :
    loginsOf (persistAndStop env w st).2.trace = loginsOf w.trace := by
  unfold persistAndStop
  cases st with
  | none => rfl
  | some st1 =>
    simp only
    have h1 := saveState_logins env w st1
    cases hs : saveState env w st1 with
    | mk res w1 =>
      rw [hs] at h1
      cases res with
      | error e => simpa using h1
      | ok u =>
        simp only
        have h2 := sync_logins env w1
        cases hy : syncDashboardAccounts env w1 with
        | mk res2 w2 =>
          rw [hy] at h2
          cases res2 <;> simp only [] <;> rw [h2] <;> exact h1

theorem onSuccess_logins (env : Env) (cfg : Config) (username profileId : String)
    (task : Task) (w : World) :
    loginsOf (onSuccess env cfg username profileId task w).2.trace = loginsOf w.trace := by
  unfold onSuccess
  simp only
  cases env.completeTask w.requests with
  | some e => simp [loginsOf_append, loginsOf]
  | none =>
    simp only
    generalize hW : ({ (loadState env { w with
        requests := w.requests + 1,
        trace := w.trace ++
          [Event.complete task.taskId task.requiredCommentId profileId] }).2 with
      clockReads := (loadState env { w with
        requests := w.requests + 1,
        trace := w.trace ++
          [Event.complete task.taskId task.requiredCommentId profileId] }).2.clockReads + 1 }
      : World) = W
    have hWt : loginsOf W.trace = loginsOf w.trace := by
      rw [← hW]
      unfold loadState
      cases w.disk <;> simp [loginsOf_append, loginsOf]
    generalize successUpdate _ _ _ = st1
    have h1 := saveState_logins env W st1
    cases hs : saveState env W st1 with
    | mk res w1 =>
      rw [hs] at h1
      cases res with
      | error e => simp only []; rw [h1, hWt]
      | ok u =>
        simp only
        have h2 := sync_logins env w1
        cases hy : syncDashboardAccounts env w1 with
        | mk res2 w2 =>
          rw [hy] at h2
          cases res2 with
          | error e => simp only []; rw [h2, h1, hWt]
          | ok u2 =>
            simp only [loginsOf_append, loginsOf, List.append_nil]
            rw [h2, h1, hWt]

theorem loadState_logins (env : Env) (w : World) :
    loginsOf (loadState env w).2.trace = loginsOf w.trace := by
  unfold loadState
  cases w.disk <;> rfl

theorem onFailure_logins (env : Env) (cfg : Config) (username : String) (error : String)
    (f : Int) (w : World) :
    loginsOf (onFailure env cfg username error f w).2.trace = loginsOf w.trace := by
  unfold onFailure
  simp only
  split_ifs
  · rw [persistAndStop_logins]
    exact loadState_logins env w
  · rfl
  · rw [persistAndStop_logins]
    exact loadState_logins env w
  · simp [loginsOf_append, loginsOf]

theorem taskStep_logins (env : Env) (cfg : Config) (username profileId : String)
    (task : Task) (f : Int) (w : World) :
    loginsOf (taskStep env cfg username profileId task f w).2.trace = loginsOf w.trace := by
  unfold taskStep
  simp only
  split_ifs
  · rfl
  · rw [persistAndStop_logins]
    exact loadState_logins env _
  · split
    · rw [onSuccess_logins]
      simp only [loginsOf_append, loginsOf, List.append_nil]
      exact loadState_logins env _
    · rw [onFailure_logins]
      simp only [loginsOf_append, loginsOf, List.append_nil]
      exact loadState_logins env _

theorem taskLoop_logins (env : Env) (cfg : Config) (username profileId : String)
    (tasks : List Task) :
    ∀ (f : Int) (w : World),
      loginsOf (taskLoop env cfg username profileId tasks f w).2.trace = loginsOf w.trace := by
  induction tasks with
  | nil => intro f w; rfl
  | cons t rest ih =>
    intro f w
    have h := taskStep_logins env cfg username profileId t f w
    rw [taskLoop]
    cases hs : taskStep env cfg username profileId t f w with
    | mk res w1 =>
      rw [hs] at h
      cases res with
      | error e => exact h
      | ok o =>
        cases o with
        | none => exact h
        | some n => simp only []; rw [ih n w1]; exact h

theorem fetchAndRun_logins (env : Env) (cfg : Config) (session : Session) (profile : Profile)
    (w : World) :
    loginsOf (fetchAndRun env cfg session profile w).2.trace = loginsOf w.trace := by
  unfold fetchAndRun
  simp only
  cases env.getTasks w.requests with
  | error e => rfl
  | ok tasks =>
    simp only
    split_ifs
    · rfl
    · rw [taskLoop_logins]

theorem sessionBody_logins (env : Env) (cfg : Config) (session : Session) (w : World) :
    loginsOf (sessionBody env cfg session w).2.trace = loginsOf w.trace := by
  unfold sessionBody
  simp only
  cases env.getSteamProfiles w.requests with
  | error e => rfl
  | ok profiles =>
    simp only
    cases profiles.find? (fun p => p.steamId = session.steamID) with
    | some p => simp only []; rw [fetchAndRun_logins]
    | none =>
      simp only
      cases env.addSteamProfile (w.requests + 1) with
      | some e => rfl
      | none =>
        simp only
        cases env.getSteamProfiles (w.requests + 1 + 1) with
        | error e => rfl
        | ok updated =>
          simp only
          cases updated.find? (fun p => p.steamId = session.steamID) with
          | some p => simp only []; rw [fetchAndRun_logins]
          | none => rfl

theorem processAccount_logins (env : Env) (cfg : Config) (session : Session) (w : World) :
    loginsOf (processAccount env cfg session w).2.trace = loginsOf w.trace := by
  unfold processAccount
  have h0 := loadState_logins env w
  cases hl : loadState env w with
  | mk s w1 =>
    rw [hl] at h0
    simp only
    cases identityWrite s session with
    | none => exact h0
    | some s1 =>
      simp only
      have h1 := saveState_logins env w1 s1
      cases hs : saveState env w1 s1 with
      | mk res w2 =>
        rw [hs] at h1
        cases res with
        | error e => simp only []; rw [h1, h0]
        | ok u =>
          simp only
          have h2 := sync_logins env w2
          cases hy : syncDashboardAccounts env w2 with
          | mk res2 w3 =>
            rw [hy] at h2
            cases res2 with
            | error e => simp only []; rw [h2, h1, h0]
            | ok u2 =>
              simp only [loginsOf_append, loginsOf, List.append_nil]
              rw [sessionBody_logins, h2, h1, h0]

/-- An attempt records exactly one login, that of the account, whatever its
outcome. -/
theorem attemptAccount_logins (env : Env) (cfg : Config) (account : Account) (w : World) :
    loginsOf (attemptAccount env cfg account w).2.trace =
      loginsOf w.trace ++ [account.username] := by
  unfold attemptAccount
  simp only
  cases env.login w.logins with
  | error e => simp [loginsOf_append, loginsOf]
  | ok id =>
    obtain ⟨steamID, avatarUrl, steamNickname⟩ := id
    simp only
    generalize hW : ({ w with logins := w.logins + 1,
                              trace := w.trace ++ [Event.login account.username] } : World) = W
    have hWt : loginsOf W.trace = loginsOf w.trace ++ [account.username] := by
      rw [← hW]; simp [loginsOf_append, loginsOf]
    generalize hS : ({
        steamID := steamID, username := account.username,
        avatarUrl := avatarUrl, steamNickname := steamNickname } : Session) = session
    have h1 := processAccount_logins env cfg session W
    cases hp : processAccount env cfg session W with
    | mk res w2 =>
      rw [hp] at h1
      cases res with
      | error e => simp only []; rw [h1, hWt]
      | ok u =>
        simp only
        have h2 := sync_logins env w2
        cases hy : syncDashboardAccounts env w2 with
        | mk res2 w3 =>
          rw [hy] at h2
          cases res2 with
          | error e => simp only []; rw [h2, h1, hWt]
          | ok u2 =>
            simp only [loginsOf_append, loginsOf, List.append_nil]
            rw [h2, h1, hWt]

/-- When no state-file write fails, one pass over accounts that are not in
cooldown, with the shutdown flag unset, attempts every entry once, in list
order, whatever the logins and sessions do. -/
theorem accountsPass_attempts_all (env : Env) (cfg : Config) (state : State)
    (hrun : ∀ n, env.running n = true) (hwrite : ∀ n, env.writeOk n = true)
    (accounts : List Account) :
    ∀ (attempted : Nat) (next : Option Int) (w : World),
      (∀ a ∈ accounts, ∀ n, cooldownOf state a.username ≤ (env.clock n).ms) →
      ∃ w1, accountsPass env cfg state accounts attempted next w =
          (.ok (attempted + accounts.length, next), w1) ∧
        loginsOf w1.trace = loginsOf w.trace ++ accounts.map (fun a => a.username) := by
  induction accounts with
  | nil =>
    intro attempted next w _
    exact ⟨w, by simp [accountsPass], by simp⟩
  | cons a rest ih =>
    intro attempted next w hcool
    have hrest : ∀ b ∈ rest, ∀ n, cooldownOf state b.username ≤ (env.clock n).ms :=
      fun b hb n => hcool b (List.mem_cons_of_mem _ hb) n
    have hnow : ¬ (env.clock w.clockReads).ms < cooldownOf state a.username :=
      not_lt.mpr (hcool a (List.mem_cons_self _ _) _)
    rw [accountsPass]
    simp only [hrun, Bool.true_eq_false, if_false, hnow]
    generalize hW : ({ w with flagReads := w.flagReads + 1,
                              clockReads := w.clockReads + 1 } : World) = W
    have hWt : W.trace = w.trace := by rw [← hW]
    have h1 := attemptAccount_logins env cfg a W
    cases ha : attemptAccount env cfg a W with
    | mk res w3 =>
      rw [ha] at h1
      cases res with
      | ok u =>
        simp only
        obtain ⟨w1, he, hl⟩ := ih (attempted + 1) next w3 hrest
        refine ⟨w1, ?_, ?_⟩
        · rw [he]; simp [Nat.add_assoc, Nat.add_comm 1]
        · rw [hl, h1, hWt]; simp
      | error e =>
        simp only
        have h2 := sync_logins env w3
        have hok : (syncDashboardAccounts env w3).1 = .ok () := checkDateResets_ok env hwrite w3
        cases hy : syncDashboardAccounts env w3 with
        | mk res2 w4 =>
          rw [hy] at h2 hok
          simp only at hok
          subst hok
          simp only
          obtain ⟨w1, he, hl⟩ := ih (attempted + 1) next w4 hrest
          refine ⟨w1, ?_, ?_⟩
          · rw [he]; simp [Nat.add_assoc, Nat.add_comm 1]
          · rw [hl, h2, h1, hWt]; simp

/-- When no state-file write fails, the account loop of one cycle, on a list in
which no account is in cooldown and with the shutdown flag unset, attempts every
entry once, in list order, whatever the logins and sessions do. -/
theorem cyclePass_attempts_all (env : Env) (cfg : Config) (accounts : List Account)
    (w : World)
    (hrun : ∀ n, env.running n = true) (hwrite : ∀ n, env.writeOk n = true)
    (hcool : ∀ a ∈ accounts, ∀ n,
      cooldownOf (loadState env w).1 a.username ≤ (env.clock n).ms) :
    ∃ next w1, cyclePass env cfg accounts w = (.ok (accounts.length, next), w1) ∧
      loginsOf w1.trace = loginsOf w.trace ++ accounts.map (fun a => a.username) := by
  unfold cyclePass
  obtain ⟨w1, h1, h2⟩ := accountsPass_attempts_all env cfg (loadState env w).1 hrun hwrite
    accounts 0 none (loadState env w).2 hcool
  refine ⟨none, w1, ?_, ?_⟩
  · show accountsPass env cfg (loadState env w).1 accounts 0 none (loadState env w).2 = _
    rw [h1]; simp
  · rw [h2, loadState_logins]

/-- C10 at the failing input. The state file cannot be written, the stored day
marker is yesterday's, neither of the two accounts is in cooldown, the shutdown
flag is unset, and the login of the first account is rejected: the dashboard
sync in the `catch` block throws out of the account loop, so the pass ends with
that error and the second account is never attempted. -/
theorem cycle_aborts_when_sync_write_fails :
    (cyclePass fullDiskEnv defaultConfig twoAccounts (worldWith staleStore)).1 =
      .error "write failed" ∧
    loginsOf (cyclePass fullDiskEnv defaultConfig twoAccounts
      (worldWith staleStore)).2.trace = ["alice"] ∧
    (∀ a ∈ twoAccounts, ∀ n, cooldownOf staleStore a.username ≤ (fullDiskEnv.clock n).ms) ∧
    (∀ n, fullDiskEnv.running n = true) := by
  refine ⟨rfl, rfl, ?_, fun _ => rfl⟩
  intro a ha n
  simp only [twoAccounts, List.mem_cons, List.mem_singleton, List.not_mem_nil, or_false] at ha
  have hclock : (fullDiskEnv.clock n).ms = 1793880000000 := rfl
  rw [hclock]
  rcases ha with h | h <;> subst h <;> decide

/-! ## Worked instances -/

/-- Instance of C1 with the defaults: `completedToday = dailyLimit = 10` at the
start of the loop, two tasks pending; none is executed and "bob" is in cooldown
for 24 hours from the clock reading. -/
theorem daily_limit_sets_cooldown_and_stops_witness :
    (taskLoop calmEnv defaultConfig "bob" "p1" [taskFor "a", taskFor "b"] 0
      (worldWith (storeWithCount 10))).2.posts = 0 ∧
    ∃ st2 r2,
      (taskLoop calmEnv defaultConfig "bob" "p1" [taskFor "a", taskFor "b"] 0
        (worldWith (storeWithCount 10))).2.disk = some st2 ∧
      st2.get "bob" = some (.obj r2) ∧
      r2.cooldownUntil = some (1793880000000 + 24 * 3600000) ∧ r2.lastError = .null := by
  have h := daily_limit_sets_cooldown_and_stops calmEnv defaultConfig "bob" "p1"
    (taskFor "a") [taskFor "b"] 0 (worldWith (storeWithCount 10)) (storeWithCount 10)
    (recordWithCount 10) rfl rfl (by decide) (by decide)
  exact ⟨h.1, (h.2.2.2 rfl).2 (by decide) (by decide)⟩

/-- Instance of C2: "bob" at count 3 posts one comment with success; the saved
record has the three counters at 4 and no error recorded, and the saved state is
the content of the file at the end of the iteration. -/
theorem success_updates_record_witness :
    ∃ st1 r1,
      Event.save st1 ∈ (taskStep calmEnv defaultConfig "bob" "p1" (taskFor "a") 0
        (worldWith (storeWithCount 3))).2.trace ∧
      (taskStep calmEnv defaultConfig "bob" "p1" (taskFor "a") 0
        (worldWith (storeWithCount 3))).2.disk = some st1 ∧
      st1.get "bob" = some (.obj r1) ∧
      r1.completedToday = some 4 ∧ r1.completedThisWeek = some 4 ∧
      r1.totalCompleted = some 4 ∧ r1.lastError = .null ∧ r1.lastErrorType = .null := by
  obtain ⟨st1, r1, more, ht, hg, h1, h2, h3, -, h5, h6, -, -, -, -, -, -, -, hd⟩ :=
    success_updates_record calmEnv defaultConfig "bob" "p1" (taskFor "a") 0
      (worldWith (storeWithCount 3)) (storeWithCount 3) (recordWithCount 3)
      rfl rfl (by decide) (by decide) rfl rfl rfl
  exact ⟨st1, r1, by rw [ht]; simp, hd (by decide) (by decide), hg, h1, h2, h3, h5, h6⟩

/-- Instance of C3 with the default limit 7: seven restricted-target failures in
a row, an eighth task pending; seven comments are attempted and no more, and
"bob" is in cooldown for two hours from the clock reading. -/
theorem consecutive_restricted_failures_cooldown_witness :
    (taskLoop restrictedEnv defaultConfig "bob" "p1"
      (sixTasks ++ taskFor "a7" :: [taskFor "a8"]) 0
      (worldWith (storeWithCount 3))).2.posts = 7 ∧
    ∃ st2 r2,
      (taskLoop restrictedEnv defaultConfig "bob" "p1"
        (sixTasks ++ taskFor "a7" :: [taskFor "a8"]) 0
        (worldWith (storeWithCount 3))).2.disk = some st2 ∧
      st2.get "bob" = some (.obj r2) ∧
      r2.cooldownUntil = some (1793880000000 + 7200000) ∧
      r2.lastError = .str "Consecutive failures" := by
  have h := consecutive_restricted_failures_cooldown restrictedEnv defaultConfig "bob" "p1"
    sixTasks (taskFor "a7") [taskFor "a8"] (worldWith (storeWithCount 3))
    (storeWithCount 3) (recordWithCount 3) (by decide) rfl (by decide) (by decide)
    (fun _ _ => rfl) (fun _ _ => ⟨restrictedText, rfl, by decide⟩)
  exact ⟨h.2.1, (h.2.2.2 rfl).2 (by decide) (by decide)⟩

/-- Instance of C4 with the default limit 7: six restricted-target failures, a
success, six more failures; all thirteen comments are attempted and the loop
ends normally. -/
theorem success_resets_failure_counter_witness :
    ∃ w1, taskLoop mixedEnv defaultConfig "bob" "p1"
        (sixTasks ++ taskFor "ok" :: (sixTasks ++ [])) 0 (worldWith (storeWithCount 3)) =
          (.ok (), w1) ∧
      w1.posts = 13 := by
  obtain ⟨w1, st1, h1, h2, -⟩ :=
    success_resets_failure_counter mixedEnv defaultConfig "bob" "p1"
      sixTasks (taskFor "ok") sixTasks [] (worldWith (storeWithCount 3))
      (storeWithCount 3) (recordWithCount 3) (by decide) rfl rfl (by decide) (by decide)
      (by decide) (fun _ => rfl) (fun _ => rfl)
      (fun i hi => ⟨restrictedText, by
        have : i ≠ 6 := by
          have : i < 6 := hi
          omega
        simp [mixedEnv, worldWith, this], by decide⟩)
      rfl rfl
      (fun i _ => ⟨restrictedText, by
        have : (worldWith (storeWithCount 3)).posts + sixTasks.length + 1 + i ≠ 6 := by
          simp only [worldWith, sixTasks, List.length_cons, List.length_nil]
          omega
        simp only [mixedEnv, this, if_false], by decide⟩)
  exact ⟨w1, by rw [h1]; rfl, h2⟩

/-- Instance of C5: a first throttling of "bob" puts the account in cooldown for
twelve hours. -/
theorem rate_limit_tiered_cooldown_witness :
    ∃ st2 r2,
      (taskLoop throttledEnv defaultConfig "bob" "p1" [taskFor "a", taskFor "b"] 0
        (worldWith (storeWithCount 3))).2.disk = some st2 ∧
      st2.get "bob" = some (.obj r2) ∧
      r2.cooldownUntil = some (1793880000000 + 43200000) ∧
      r2.lastErrorType = .str "429" := by
  obtain ⟨st2, r2, h1, h2, h3, -, h5⟩ :=
    ((rate_limit_tiered_cooldown throttledEnv defaultConfig "bob" "p1" (taskFor "a")
      [taskFor "b"] 0 (worldWith (storeWithCount 3)) (storeWithCount 3) (recordWithCount 3)
      throttledText rfl rfl (by decide) (by decide) rfl (by decide) (by decide)).2.2.1 rfl).2
      (by decide) (by decide)
  exact ⟨st2, r2, h1, h2, h3, h5⟩

/-- Instance of C6: a store marked Wednesday 4 November is reset on Thursday
5 November. -/
theorem daily_rollover_resets_completedToday_witness :
    ∃ st1,
      (checkDateResets calmEnv (worldWith staleStore)).2.disk = some st1 ∧
      st1.get "lastResetDate" = some (.str "Thu Nov 05 2026") ∧
      (∀ k r1, st1.get k = some (.obj r1) → r1.completedToday = some 0) := by
  obtain ⟨st1, h1, h2, h3, -⟩ :=
    daily_rollover_resets_completedToday calmEnv (worldWith staleStore) staleStore rfl
      (by decide) rfl
  exact ⟨st1, by rw [h1], by rw [h2]; decide, h3⟩

/-- Instance of C7: with the day marker current and the week marker at 44, in
week 45 the record of "bob" loses its weekly count and keeps its daily one. -/
theorem weekly_rollover_resets_completedThisWeek_witness :
    ∃ st1,
      (checkDateResets calmEnv (worldWith lastWeekStore)).2.disk = some st1 ∧
      st1.get "bob" =
        some (.obj { recordWithCount 3 with completedThisWeek := some 0 }) := by
  obtain ⟨st1, h1, -, -, -, h5⟩ :=
    (weekly_rollover_resets_completedThisWeek calmEnv (worldWith lastWeekStore)
      lastWeekStore rfl rfl).1 (by decide)
  exact ⟨st1, by rw [h1], h5 (by decide) "bob" (recordWithCount 3) (by decide) (by decide)
    (by decide)⟩

/-- Instance of C8: on the stale store, a second run on the same day leaves the
world of the first run as it is, two clock readings apart. -/
theorem checkDateResets_idempotent_witness :
    checkDateResets calmEnv (checkDateResets calmEnv (worldWith staleStore)).2 =
      (.ok (), { (checkDateResets calmEnv (worldWith staleStore)).2 with
        clockReads := (checkDateResets calmEnv (worldWith staleStore)).2.clockReads + 2 }) :=
  (checkDateResets_idempotent calmEnv (worldWith staleStore) staleStore rfl rfl rfl rfl).1

/-! ## The skip decision of the account loop -/

theorem accountsPass_skip (env : Env) (cfg : Config) (state : State) (account : Account)
    (rest : List Account) (attempted : Nat) (next : Option Int) (w : World)
    (hrun : env.running w.flagReads = true)
    (hcool : (env.clock w.clockReads).ms < cooldownOf state account.username) :
    accountsPass env cfg state (account :: rest) attempted next w =
      accountsPass env cfg state rest attempted
        (minTime next (cooldownOf state account.username))
        { w with flagReads := w.flagReads + 1, clockReads := w.clockReads + 1 } := by
  rw [accountsPass]
  simp [hrun, hcool]

/-- The logins of a pass extend the logins before it. -/
theorem accountsPass_logins_extend (env : Env) (cfg : Config) (state : State)
    (accounts : List Account) :
    ∀ (attempted : Nat) (next : Option Int) (w : World),
      ∃ more, loginsOf (accountsPass env cfg state accounts attempted next w).2.trace =
        loginsOf w.trace ++ more := by
  induction accounts with
  | nil => intro attempted next w; exact ⟨[], by simp [accountsPass]⟩
  | cons a rest ih =>
    intro attempted next w
    rw [accountsPass]
    simp only
    split_ifs with h1 h2
    · exact ⟨[], by simp⟩
    · obtain ⟨more, hm⟩ := ih attempted (minTime next (cooldownOf state a.username))
        { w with flagReads := w.flagReads + 1, clockReads := w.clockReads + 1 }
      exact ⟨more, hm⟩
    · have hl := attemptAccount_logins env cfg a
        { w with flagReads := w.flagReads + 1, clockReads := w.clockReads + 1 }
      cases ha : attemptAccount env cfg a
          { w with flagReads := w.flagReads + 1, clockReads := w.clockReads + 1 } with
      | mk res w3 =>
        rw [ha] at hl
        simp only at hl
        cases res with
        | ok u =>
          simp only
          obtain ⟨more, hm⟩ := ih (attempted + 1) next w3
          exact ⟨a.username :: more, by rw [hm, hl]; simp⟩
        | error e =>
          simp only
          have h2 := sync_logins env w3
          cases hy : syncDashboardAccounts env w3 with
          | mk res2 w4 =>
            rw [hy] at h2
            cases res2 with
            | error e2 => exact ⟨[a.username], by simp only []; rw [h2, hl]⟩
            | ok u2 =>
              simp only
              obtain ⟨more, hm⟩ := ih (attempted + 1) next w4
              exact ⟨a.username :: more, by rw [hm, h2, hl]; simp⟩

theorem accountsPass_attempt_logins (env : Env) (cfg : Config) (state : State)
    (account : Account) (rest : List Account) (attempted : Nat) (next : Option Int)
    (w : World)
    (hrun : env.running w.flagReads = true)
    (hcool : ¬ (env.clock w.clockReads).ms < cooldownOf state account.username) :
    ∃ more, loginsOf (accountsPass env cfg state (account :: rest) attempted next w).2.trace =
      loginsOf w.trace ++ account.username :: more := by
  rw [accountsPass]
  simp only [hrun, Bool.true_eq_false, if_false, hcool]
  have hl := attemptAccount_logins env cfg account
    { w with flagReads := w.flagReads + 1, clockReads := w.clockReads + 1 }
  cases ha : attemptAccount env cfg account
      { w with flagReads := w.flagReads + 1, clockReads := w.clockReads + 1 } with
  | mk res w3 =>
    rw [ha] at hl
    simp only at hl
    cases res with
    | ok u =>
      simp only
      obtain ⟨more, hm⟩ := accountsPass_logins_extend env cfg state rest (attempted + 1) next w3
      exact ⟨more, by rw [hm, hl]; simp⟩
    | error e =>
      simp only
      have h2 := sync_logins env w3
      cases hy : syncDashboardAccounts env w3 with
      | mk res2 w4 =>
        rw [hy] at h2
        cases res2 with
        | error e2 => exact ⟨[], by simp only []; rw [h2, hl]⟩
        | ok u2 =>
          simp only
          obtain ⟨more, hm⟩ := accountsPass_logins_extend env cfg state rest (attempted + 1)
            next w4
          exact ⟨more, by rw [hm, h2, hl]; simp⟩

/-- The skip is decided on the state loaded at the start of the cycle. With the
shutdown flag unset, an account is skipped exactly when its `cooldownUntil` in
that state is strictly greater than the current time: then the loop goes to the
next entry with nothing done but the flag and clock readings (no login, no
task), and otherwise a login for the account is the next login of the cycle. -/
theorem skip_decided_on_cycle_start_state
    (env : Env) (cfg : Config) (state : State) (account : Account)
    (rest : List Account) (attempted : Nat) (next : Option Int) (w : World)
    (hrun : env.running w.flagReads = true) :
    ((env.clock w.clockReads).ms < cooldownOf state account.username →
      accountsPass env cfg state (account :: rest) attempted next w =
        accountsPass env cfg state rest attempted
          (minTime next (cooldownOf state account.username))
          { w with flagReads := w.flagReads + 1, clockReads := w.clockReads + 1 }) ∧
    (¬ (env.clock w.clockReads).ms < cooldownOf state account.username →
      ∃ more, loginsOf (accountsPass env cfg state (account :: rest) attempted next w).2.trace =
        loginsOf w.trace ++ account.username :: more) :=
  ⟨accountsPass_skip env cfg state account rest attempted next w hrun,
   accountsPass_attempt_logins env cfg state account rest attempted next w hrun⟩

/-- With "bob" in cooldown in the state of the cycle start, the pass over "bob"
alone records no login. -/
theorem skip_decided_on_cycle_start_state_witness :
    loginsOf (accountsPass calmEnv defaultConfig
      [("bob", .obj { recordWithCount 3 with cooldownUntil := some 1793966400000 })]
      [{ username := "bob", password := "pw" }] 0 none (worldWith [])).2.trace = [] := by
  rw [(skip_decided_on_cycle_start_state calmEnv defaultConfig
    [("bob", .obj { recordWithCount 3 with cooldownUntil := some 1793966400000 })]
    { username := "bob", password := "pw" } [] 0 none (worldWith []) rfl).1 (by decide)]
  rfl

/-- C11 (as the code has it). The skip reads the copy of the store loaded at the
start of the cycle, not the file. "bob" is listed twice and stands at the daily
limit with no cooldown as the cycle starts; the first visit puts him in
cooldown on file until the next day; at the second visit the file holds a
`cooldownUntil` in the future, yet the copy of the cycle start is consulted and
"bob" is logged in again. -/
theorem account_in_cooldown_logged_in_again :
    cooldownOnDisk (cyclePass busyEnv defaultConfig [{ username := "bob", password := "pw" }]
      (worldWith (storeWithCount 10))).2 "bob" = 1793880000000 + 86400000 ∧
    (∀ n, (busyEnv.clock n).ms = 1793880000000) ∧
    loginsOf (cyclePass busyEnv defaultConfig bobTwice
      (worldWith (storeWithCount 10))).2.trace = ["bob", "bob"] :=
  ⟨rfl, fun _ => rfl, rfl⟩

/-! ## The wait after the account loop -/

theorem earlier_minTime (next : Option Int) (c : Int) (m : Option Int) :
    earlier (minTime next c) m = earlier next (earlier (some c) m) := by
  cases next <;> cases m <;> simp [earlier, minTime, min_assoc]

theorem minimumTime_cons (c : Int) (cs : List Int) :
    minimumTime (c :: cs) = earlier (some c) (minimumTime cs) := by
  cases h : minimumTime cs <;> simp [minimumTime, earlier, h]

/-- A pass in which every account is in cooldown attempts none and hands on the
earliest of their `cooldownUntil`. -/
theorem accountsPass_all_skipped (env : Env) (cfg : Config) (state : State)
    (hrun : ∀ n, env.running n = true) (accounts : List Account) :
    ∀ (attempted : Nat) (next : Option Int) (w : World),
      (∀ a ∈ accounts, ∀ n, (env.clock n).ms < cooldownOf state a.username) →
      accountsPass env cfg state accounts attempted next w =
        (.ok (attempted,
          earlier next (minimumTime (accounts.map (fun a => cooldownOf state a.username)))),
         { w with flagReads := w.flagReads + accounts.length,
                  clockReads := w.clockReads + accounts.length }) := by
  induction accounts with
  | nil =>
    intro attempted next w _
    cases next <;> simp [accountsPass, minimumTime, earlier]
  | cons a rest ih =>
    intro attempted next w hcool
    rw [accountsPass_skip env cfg state a rest attempted next w (hrun _)
      (hcool a (List.mem_cons_self _ _) _)]
    rw [ih attempted _ _ (fun b hb n => hcool b (List.mem_cons_of_mem _ hb) n)]
    simp only [List.map_cons, minimumTime_cons, earlier_minTime, List.length_cons]
    congr 2
    · omega
    · omega

theorem computeWait_nonneg (next : Option Int) (now : Int) : 0 ≤ computeWait next now := by
  cases next with
  | none => simp [computeWait]
  | some t => simp [computeWait]

/-- C12. When every account of the list is in cooldown (so the cycle attempts
none), with the shutdown flag unset, the account loop hands on the minimum `m`
of the `cooldownUntil` of the skipped accounts and the idle wait runs with
`waitMs = max(0, m - now)`; with an empty list nothing is skipped and the wait
is 600000 ms; the computed wait is never negative. When at least one account
was attempted the rest is one sleep of 60000 ms. -/
theorem wait_after_account_loop
    (env : Env) (cfg : Config) (state : State) (accounts : List Account)
    (accountsAt : Nat → List Account) (w : World)
    (hrun : ∀ n, env.running n = true)
    (hcool : ∀ a ∈ accounts, ∀ n, (env.clock n).ms < cooldownOf state a.username) :
    (∃ w1, accountsPass env cfg state accounts 0 none w =
        (.ok (0, minimumTime (accounts.map (fun a => cooldownOf state a.username))), w1) ∧
      afterPass env accountsAt 0
          (minimumTime (accounts.map (fun a => cooldownOf state a.username))) w1 =
        (true, idleWait env (fun i => accountsAt (i + 1))
          (computeWait (minimumTime (accounts.map (fun a => cooldownOf state a.username)))
            (env.clock w1.clockReads).ms)
          (accountsAt 0).length 0 0
          { w1 with flagReads := w1.flagReads + 1, clockReads := w1.clockReads + 1 })) ∧
    (∀ m now, minimumTime (accounts.map (fun a => cooldownOf state a.username)) = some m →
      computeWait (minimumTime (accounts.map (fun a => cooldownOf state a.username))) now =
        max 0 (m - now)) ∧
    (accounts = [] → ∀ now,
      computeWait (minimumTime (accounts.map (fun a => cooldownOf state a.username))) now =
        600000) ∧
    (∀ next now, 0 ≤ computeWait next now) ∧
    (∀ attempted next w2, 0 < attempted →
      afterPass env accountsAt attempted next w2 =
        (true, { w2 with flagReads := w2.flagReads + 1,
                         trace := w2.trace ++ [Event.sleep 60000] })) := by
  refine ⟨⟨{ w with flagReads := w.flagReads + accounts.length,
                      clockReads := w.clockReads + accounts.length }, ?_, ?_⟩,
    ?_, ?_, computeWait_nonneg, ?_⟩
  · rw [accountsPass_all_skipped env cfg state hrun accounts 0 none w hcool]
    simp [earlier]
  · simp [afterPass, hrun]
  · intro m now hm
    rw [hm]; rfl
  · intro he now
    subst he
    rfl
  · intro attempted next w2 hpos
    have : attempted ≠ 0 := by omega
    simp [afterPass, hrun, this]

/-- Instance of C12: "alice" and "bob" in cooldown until 15 and 10 minutes after
the clock reading; the wait is the 600000 ms to the earlier expiry. -/
theorem wait_after_account_loop_witness :
    computeWait (minimumTime (twoAccounts.map (fun a => cooldownOf coolingStore a.username)))
      1793880000000 = 600000 := by
  have h := (wait_after_account_loop calmEnv defaultConfig coolingStore twoAccounts
    (fun _ => twoAccounts) (worldWith coolingStore) (fun _ => rfl)
    (by
      intro a ha n
      have hc : (calmEnv.clock n).ms = 1793880000000 := rfl
      rw [hc]
      simp only [twoAccounts, List.mem_cons, List.mem_singleton, List.not_mem_nil,
        or_false] at ha
      rcases ha with h | h <;> subst h <;> decide)).2.1 1793880600000 1793880000000
    (by decide)
  rw [h]
  decide

/-! ## The chunked idle wait -/

theorem idleWait_done (env : Env) (accountsAt : Nat → List Account) (waitMs : Int)
    (lastCount : Nat) (waited : Int) (poll : Nat) (w : World) (h : ¬ waited < waitMs) :
    idleWait env accountsAt waitMs lastCount waited poll w = w := by
  rw [idleWait]
  simp [h]

theorem idleWait_break (env : Env) (accountsAt : Nat → List Account) (waitMs : Int)
    (lastCount : Nat) (waited : Int) (poll : Nat) (w : World)
    (h : waited < waitMs) (hrun : env.running w.flagReads = true)
    (hlen : (accountsAt poll).length ≠ lastCount) :
    idleWait env accountsAt waitMs lastCount waited poll w =
      { w with flagReads := w.flagReads + 1 } := by
  rw [idleWait]
  simp [h, hrun, hlen]

theorem idleWait_step (env : Env) (accountsAt : Nat → List Account) (waitMs : Int)
    (lastCount : Nat) (waited : Int) (poll : Nat) (w : World)
    (h : waited < waitMs) (hrun : env.running w.flagReads = true)
    (hlen : (accountsAt poll).length = lastCount) :
    idleWait env accountsAt waitMs lastCount waited poll w =
      idleWait env accountsAt waitMs lastCount (waited + 5000) (poll + 1)
        { w with flagReads := w.flagReads + 1,
                 trace := w.trace ++ [Event.sleep (min 5000 (waitMs - waited))] } := by
  rw [idleWait]
  simp [h, hrun, hlen]

/-- With the flag set and the list length as noted, the wait that has `n` chunks
left sleeps `n` times, each time at most 5000 ms and more than 0, in total what
is left of `waitMs`. -/
theorem idleWait_runs (env : Env) (accountsAt : Nat → List Account) (waitMs : Int)
    (lastCount : Nat)
    (hrun : ∀ k, env.running k = true)
    (hlen : ∀ i, (accountsAt i).length = lastCount) (n : Nat) :
    ∀ (waited : Int) (poll : Nat) (w : World),
      (ceilDiv (waitMs - waited) 5000).toNat = n →
      ∃ ds : List Int,
        idleWait env accountsAt waitMs lastCount waited poll w =
          { w with flagReads := w.flagReads + n,
                   trace := w.trace ++ ds.map Event.sleep } ∧
        ds.length = n ∧ (∀ d ∈ ds, 0 < d ∧ d ≤ 5000) ∧
        ds.sum = max 0 (waitMs - waited) := by
  induction n with
  | zero =>
    intro waited poll w hn
    have hle : ¬ waited < waitMs := by
      unfold ceilDiv at hn
      omega
    refine ⟨[], ?_, rfl, by simp, ?_⟩
    · rw [idleWait_done env accountsAt waitMs lastCount waited poll w hle]
      simp
    · simp only [List.sum_nil]
      omega
  | succ n ih =>
    intro waited poll w hn
    have hlt : waited < waitMs := by
      unfold ceilDiv at hn
      omega
    have hn' : (ceilDiv (waitMs - (waited + 5000)) 5000).toNat = n := by
      unfold ceilDiv at hn ⊢
      omega
    obtain ⟨ds, he, hl, hb, hs⟩ := ih (waited + 5000) (poll + 1)
      { w with flagReads := w.flagReads + 1,
               trace := w.trace ++ [Event.sleep (min 5000 (waitMs - waited))] } hn'
    refine ⟨min 5000 (waitMs - waited) :: ds, ?_, by simp [hl], ?_, ?_⟩
    · rw [idleWait_step env accountsAt waitMs lastCount waited poll w hlt (hrun _) (hlen _), he]
      simp [Nat.add_assoc, Nat.add_comm 1]
    · intro d hd
      simp only [List.mem_cons] at hd
      rcases hd with hd | hd
      · subst hd
        constructor
        · simp only [lt_min_iff]; omega
        · exact min_le_left _ _
      · exact hb d hd
    · simp only [List.sum_cons, hs]
      omega

/-- C23. For `waitMs ≥ 0`, with the number of accounts unchanged and the
shutdown flag unset, the polling loop ends after exactly `ceil(waitMs / 5000)`
sleeps and nothing else but flag reads; each sleep lasts more than 0 and at
most 5000 ms, and the sleeps add up to `waitMs`. -/
theorem idle_wait_sleeps_exactly
    (env : Env) (accountsAt : Nat → List Account) (waitMs : Int) (lastCount : Nat)
    (w : World)
    (hwait : 0 ≤ waitMs)
    (hrun : ∀ k, env.running k = true)
    (hlen : ∀ i, (accountsAt i).length = lastCount) :
    ∃ ds : List Int,
      idleWait env accountsAt waitMs lastCount 0 0 w =
        { w with flagReads := w.flagReads + (ceilDiv waitMs 5000).toNat,
                 trace := w.trace ++ ds.map Event.sleep } ∧
      (ds.length : Int) = ceilDiv waitMs 5000 ∧
      (∀ d ∈ ds, 0 < d ∧ d ≤ 5000) ∧
      ds.sum = waitMs := by
  obtain ⟨ds, he, hl, hb, hs⟩ := idleWait_runs env accountsAt waitMs lastCount hrun hlen
    (ceilDiv waitMs 5000).toNat 0 0 w (by simp)
  refine ⟨ds, he, ?_, hb, ?_⟩
  · rw [hl]
    unfold ceilDiv
    omega
  · rw [hs]; omega

/-- Instance of C23: a wait of 12000 ms is slept in three chunks that add up to
12000 ms. -/
theorem idle_wait_sleeps_exactly_witness :
    ∃ ds : List Int,
      (idleWait calmEnv (fun _ => twoAccounts) 12000 2 0 0 (worldWith [])).trace =
        ds.map Event.sleep ∧
      (ds.length : Int) = 3 ∧ ds.sum = 12000 := by
  obtain ⟨ds, he, hl, -, hs⟩ := idle_wait_sleeps_exactly calmEnv (fun _ => twoAccounts) 12000 2
    (worldWith []) (by decide) (fun _ => rfl) (fun _ => rfl)
  exact ⟨ds, by rw [he]; rfl, by rw [hl]; decide, hs⟩

/-- C13, as amended. During the idle wait, when at a poll the number of accounts
differs from the number noted before the wait (an account was added or removed),
the wait ends at that poll with no further sleep. -/
theorem count_change_ends_wait
    (env : Env) (accountsAt : Nat → List Account) (waitMs : Int) (lastCount : Nat)
    (waited : Int) (poll : Nat) (w : World)
    (hleft : waited < waitMs)
    (hrun : env.running w.flagReads = true)
    (hlen : (accountsAt poll).length ≠ lastCount) :
    idleWait env accountsAt waitMs lastCount waited poll w =
        { w with flagReads := w.flagReads + 1 } ∧
    sleepsOf (idleWait env accountsAt waitMs lastCount waited poll w).trace =
      sleepsOf w.trace := by
  rw [idleWait_break env accountsAt waitMs lastCount waited poll w hleft hrun hlen]
  exact ⟨rfl, rfl⟩

/-- Instance of C13: a second account appears before the first poll of a
ten-minute wait; nothing is slept. -/
theorem count_change_ends_wait_witness :
    sleepsOf (idleWait calmEnv (fun _ => twoAccounts) 600000 onlyAlice.length 0 0
      (worldWith [])).trace = [] :=
  (count_change_ends_wait calmEnv (fun _ => twoAccounts) 600000 onlyAlice.length 0 0
    (worldWith []) (by decide) rfl (by decide)).2

/-- C13 as stated fails for a replacement. Before the wait the list is "alice";
at every poll it is "carol" instead, a list of the same length: the change goes
unnoticed and the wait of 10000 ms is slept to its end. -/
theorem replaced_account_counterexample :
    onlyCarol ≠ onlyAlice ∧
    (idleWait calmEnv (fun _ => onlyCarol) 10000 onlyAlice.length 0 0 (worldWith [])).trace =
      [Event.sleep 5000, Event.sleep 5000] := by
  refine ⟨by decide, ?_⟩
  rw [idleWait_step calmEnv (fun _ => onlyCarol) 10000 onlyAlice.length 0 0 (worldWith [])
      (by decide) rfl rfl,
    idleWait_step calmEnv (fun _ => onlyCarol) 10000 onlyAlice.length (0 + 5000) (0 + 1) _
      (by decide) rfl rfl,
    idleWait_done calmEnv (fun _ => onlyCarol) 10000 onlyAlice.length (0 + 5000 + 5000) _ _
      (by decide)]
  rfl

/-! ## The random delay -/

/-- C14. For integers `min ≤ max` and a draw `0 ≤ r < 1`,
`getRandomDelay = floor(r * (max - min + 1)) + min` is an integer between `min`
and `max`, and every integer of that range is the delay of some draw. -/
theorem getRandomDelay_range_onto (min max : Int) (r : Rat)
    (hmm : min ≤ max) (h0 : 0 ≤ r) (h1 : r < 1) :
    min ≤ getRandomDelay r min max ∧ getRandomDelay r min max ≤ max ∧
    (∀ k : Int, min ≤ k → k ≤ max →
      ∃ r' : Rat, 0 ≤ r' ∧ r' < 1 ∧ getRandomDelay r' min max = k) := by
  have hpos : (0 : Rat) < ((max - min + 1 : Int) : Rat) := by
    have : (0 : Int) < max - min + 1 := by omega
    exact_mod_cast this
  refine ⟨?_, ?_, ?_⟩
  · unfold getRandomDelay
    have : 0 ≤ Int.floor (r * ((max - min + 1 : Int) : Rat)) :=
      Int.floor_nonneg.mpr (mul_nonneg h0 hpos.le)
    omega
  · unfold getRandomDelay
    have hlt : r * ((max - min + 1 : Int) : Rat) < ((max - min + 1 : Int) : Rat) := by
      calc r * ((max - min + 1 : Int) : Rat) < 1 * ((max - min + 1 : Int) : Rat) :=
            mul_lt_mul_of_pos_right h1 hpos
        _ = ((max - min + 1 : Int) : Rat) := one_mul _
    have : Int.floor (r * ((max - min + 1 : Int) : Rat)) < max - min + 1 :=
      Int.floor_lt.mpr hlt
    omega
  · intro k hk1 hk2
    refine ⟨((k - min : Int) : Rat) / ((max - min + 1 : Int) : Rat), ?_, ?_, ?_⟩
    · apply div_nonneg
      · have : (0 : Int) ≤ k - min := by omega
        exact_mod_cast this
      · exact hpos.le
    · rw [div_lt_one hpos]
      have : k - min < max - min + 1 := by omega
      exact_mod_cast this
    · unfold getRandomDelay
      rw [div_mul_cancel₀ _ (ne_of_gt hpos), Int.floor_intCast]
      omega

/-- Instance of C14 with the default delays: the middle draw gives 180000 ms,
within 60000..300000. -/
theorem getRandomDelay_range_onto_witness :
    (60000 : Int) ≤ getRandomDelay (1 / 2) 60000 300000 ∧
    getRandomDelay (1 / 2) 60000 300000 ≤ 300000 :=
  ⟨(getRandomDelay_range_onto 60000 300000 (1 / 2) (by decide) (by norm_num)
      (by norm_num)).1,
   (getRandomDelay_range_onto 60000 300000 (1 / 2) (by decide) (by norm_num)
      (by norm_num)).2.1⟩

/-! ## Other outcomes of a task -/

/-- C15. A failure that is neither a restricted-target nor a rate-limit failure
leaves the state file as it is (no write, no save), is followed by one sleep of
5000 ms, and the loop goes on with the next task and the same counter. -/
theorem other_failure_sleeps_and_continues
    (env : Env) (cfg : Config) (username profileId : String)
    (task : Task) (rest : List Task) (sessionFailures : Int) (w : World)
    (st : State) (error : String)
    (hrun : env.running w.flagReads = true)
    (hdisk : w.disk = some st)
    (hbelow : completedTodayOf st username < cfg.dailyLimit)
    (hpost : env.postUserComment w.posts = some error)
    (hnr : includes error "allow you to add comments" = false)
    (hnf : includes error "frequently" = false)
    (hn4 : includes error "429" = false) :
    taskStep env cfg username profileId task sessionFailures w =
      (.ok (some sessionFailures),
        { w with flagReads := w.flagReads + 1, posts := w.posts + 1,
                 trace := w.trace ++ [postEvent task, Event.sleep 5000] }) ∧
    taskLoop env cfg username profileId (task :: rest) sessionFailures w =
      taskLoop env cfg username profileId rest sessionFailures
        { w with flagReads := w.flagReads + 1, posts := w.posts + 1,
                 trace := w.trace ++ [postEvent task, Event.sleep 5000] } := by
  have hstep : taskStep env cfg username profileId task sessionFailures w =
      (.ok (some sessionFailures),
        { w with flagReads := w.flagReads + 1, posts := w.posts + 1,
                 trace := w.trace ++ [postEvent task, Event.sleep 5000] }) := by
    rw [taskStep_post env cfg username profileId task sessionFailures w st hrun hdisk hbelow,
      hpost]
    simp [onFailure, hnr, hnf, hn4, postEvent]
  exact ⟨hstep, taskLoop_continue _ _ _ _ _ _ _ _ _ _ hstep⟩

/-- Instance of C15: a network error on the first of two tasks; the file still
holds the store of the start, and the second task is attempted after 5000 ms. -/
theorem other_failure_sleeps_and_continues_witness :
    (taskStep flakyEnv defaultConfig "bob" "p1" (taskFor "a") 0
      (worldWith (storeWithCount 3))).2.disk = some (storeWithCount 3) ∧
    (taskStep flakyEnv defaultConfig "bob" "p1" (taskFor "a") 0
      (worldWith (storeWithCount 3))).2.trace = [postEvent (taskFor "a"), Event.sleep 5000] := by
  have h := (other_failure_sleeps_and_continues flakyEnv defaultConfig "bob" "p1"
    (taskFor "a") [taskFor "b"] 0 (worldWith (storeWithCount 3)) (storeWithCount 3)
    otherText rfl rfl (by decide) rfl (by decide) (by decide) (by decide)).1
  rw [h]
  exact ⟨rfl, rfl⟩

/-- C16. When the task source returns an empty list the session ends as no work:
from the fetch on nothing happens but the request itself: no comment, no
completion report, no write; the state file, whatever `completedToday` it holds,
is as before the fetch. -/
theorem empty_task_list_is_no_work
    (env : Env) (cfg : Config) (session : Session) (profile : Profile) (w : World)
    (hempty : env.getTasks w.requests = .ok []) :
    fetchAndRun env cfg session profile w =
      (.ok (), { w with requests := w.requests + 1 }) ∧
    (fetchAndRun env cfg session profile w).2.disk = w.disk ∧
    (fetchAndRun env cfg session profile w).2.trace = w.trace ∧
    (fetchAndRun env cfg session profile w).2.posts = w.posts ∧
    (fetchAndRun env cfg session profile w).2.writes = w.writes := by
  have h : fetchAndRun env cfg session profile w =
      (.ok (), { w with requests := w.requests + 1 }) := by
    simp [fetchAndRun, hempty]
  rw [h]
  exact ⟨rfl, rfl, rfl, rfl, rfl⟩

/-- Instance of C16: "bob" stands at the daily limit and no task is pending; the
store is left as it was. -/
theorem empty_task_list_is_no_work_witness :
    (fetchAndRun calmEnv defaultConfig
      { steamID := "7656", username := "bob", avatarUrl := .null, steamNickname := .null }
      { id := "p1", steamId := "7656" } (worldWith (storeWithCount 10))).2.disk =
      some (storeWithCount 10) :=
  (empty_task_list_is_no_work calmEnv defaultConfig
    { steamID := "7656", username := "bob", avatarUrl := .null, steamNickname := .null }
    { id := "p1", steamId := "7656" } (worldWith (storeWithCount 10)) rfl).2.1

/-- C25. When the completion report fails after the comment succeeded, the
iteration throws the service's error: the state file is as before (no write, no
save, so no counter, `lastSuccess`, `lastError` or `lastErrorType` changes), the
line that resets the failure counter is not reached, and the loop ends there, so
no later task is executed. -/
theorem failed_completion_report_ends_session
    (env : Env) (cfg : Config) (username profileId : String)
    (task : Task) (rest : List Task) (sessionFailures : Int) (w : World)
    (st : State) (error : String)
    (hrun : env.running w.flagReads = true)
    (hdisk : w.disk = some st)
    (hbelow : completedTodayOf st username < cfg.dailyLimit)
    (hpost : env.postUserComment w.posts = none)
    (hcomplete : env.completeTask w.requests = some error) :
    taskStep env cfg username profileId task sessionFailures w =
      (.error error,
        { w with flagReads := w.flagReads + 1, posts := w.posts + 1,
                 requests := w.requests + 1,
                 trace := w.trace ++ [postEvent task,
                   Event.complete task.taskId task.requiredCommentId profileId] }) ∧
    taskLoop env cfg username profileId (task :: rest) sessionFailures w =
      (.error error,
        { w with flagReads := w.flagReads + 1, posts := w.posts + 1,
                 requests := w.requests + 1,
                 trace := w.trace ++ [postEvent task,
                   Event.complete task.taskId task.requiredCommentId profileId] }) := by
  have hstep : taskStep env cfg username profileId task sessionFailures w =
      (.error error,
        { w with flagReads := w.flagReads + 1, posts := w.posts + 1,
                 requests := w.requests + 1,
                 trace := w.trace ++ [postEvent task,
                   Event.complete task.taskId task.requiredCommentId profileId] }) := by
    rw [taskStep_post env cfg username profileId task sessionFailures w st hrun hdisk hbelow,
      hpost]
    simp [onSuccess, hcomplete, postEvent]
  refine ⟨hstep, ?_⟩
  rw [taskLoop, hstep]

/-- Instance of C25: the report for the first of two tasks is refused; one
comment was posted, and the file still holds the store of the start. -/
theorem failed_completion_report_ends_session_witness :
    (taskLoop refusingEnv defaultConfig "bob" "p1" [taskFor "a", taskFor "b"] 0
      (worldWith (storeWithCount 3))).2.posts = 1 ∧
    (taskLoop refusingEnv defaultConfig "bob" "p1" [taskFor "a", taskFor "b"] 0
      (worldWith (storeWithCount 3))).2.disk = some (storeWithCount 3) := by
  have h := (failed_completion_report_ends_session refusingEnv defaultConfig "bob" "p1"
    (taskFor "a") [taskFor "b"] 0 (worldWith (storeWithCount 3)) (storeWithCount 3)
    "API Error (/tasks/complete): task expired" rfl rfl (by decide) rfl rfl).2
  rw [h]
  exact ⟨rfl, rfl⟩

/-- C26. Failures are classified in order, restricted target first. A text that
contains "allow you to add comments" is handled as a restricted-target failure
whatever else it contains: below the limit the loop goes on with the counter
raised and the world untouched (nothing is written), at the limit the cooldown
is the restricted-target one. The rate-limit branch runs exactly for the other
texts that contain "frequently" or "429"; the remaining texts only sleep. -/
theorem restricted_target_takes_precedence
    (env : Env) (cfg : Config) (username : String) (error : String)
    (sessionFailures : Int) (w : World) :
    (includes error "allow you to add comments" = true →
      (sessionFailures + 1 < cfg.consecutiveFailuresLimit →
        onFailure env cfg username error sessionFailures w =
          (.ok (some (sessionFailures + 1)), w)) ∧
      (cfg.consecutiveFailuresLimit ≤ sessionFailures + 1 →
        onFailure env cfg username error sessionFailures w =
          persistAndStop env
            { (loadState env w).2 with clockReads := (loadState env w).2.clockReads + 1 }
            (restrictedCooldown (loadState env w).1 username
              (env.clock (loadState env w).2.clockReads).ms))) ∧
    (includes error "allow you to add comments" = false →
      (includes error "frequently" || includes error "429") = true →
      onFailure env cfg username error sessionFailures w =
        persistAndStop env
          { (loadState env w).2 with clockReads := (loadState env w).2.clockReads + 1 }
          (rateLimitCooldown (loadState env w).1 username
            (env.clock (loadState env w).2.clockReads).ms error)) ∧
    (includes error "allow you to add comments" = false →
      (includes error "frequently" || includes error "429") = false →
      onFailure env cfg username error sessionFailures w =
        (.ok (some sessionFailures), { w with trace := w.trace ++ [Event.sleep 5000] })) := by
  refine ⟨fun hs => ⟨fun hlt => ?_, fun hle => ?_⟩, fun hs hr => ?_, fun hs hr => ?_⟩
  · simp [onFailure, hs, not_le.mpr hlt]
  · simp [onFailure, hs, hle]
  · simp only [onFailure, hs, hr]
    simp
  · simp only [onFailure, hs, hr]
    simp

/-- Instance of C26: a text with both "429" and the restricted-target phrase,
with the counter below the limit: the counter goes to 1 and the world is
untouched. -/
theorem restricted_target_takes_precedence_witness :
    onFailure calmEnv defaultConfig "bob" bothText 0 (worldWith (storeWithCount 3)) =
      (.ok (some 1), worldWith (storeWithCount 3)) ∧
    includes bothText "429" = true :=
  ⟨((restricted_target_takes_precedence calmEnv defaultConfig "bob" bothText 0
      (worldWith (storeWithCount 3))).1 (by decide)).1 (by decide), by decide⟩

/-! ## Logoffs on the trace -/

theorem logOffsOf_append (a b : List Event) : logOffsOf (a ++ b) = logOffsOf a ++ logOffsOf b := by
  induction a with
  | nil => rfl
  | cons e rest ih =>
    cases e <;> simp [logOffsOf, ih]

theorem logOffsOf_onlySaves (es : List Event) (h : OnlySaves es) : logOffsOf es = [] := by
  induction es with
  | nil => rfl
  | cons e rest ih =>
    obtain ⟨s, hs⟩ := h e (List.mem_cons_self _ _)
    subst hs
    simp only [logOffsOf]
    exact ih (fun e he => h e (List.mem_cons_of_mem _ he))

theorem saveState_logOffs (env : Env) (w : World) (st : State) :
    logOffsOf (saveState env w st).2.trace = logOffsOf w.trace := by
  unfold saveState
  split_ifs <;> simp [logOffsOf_append, logOffsOf]

theorem sync_logOffs (env : Env) (w : World) :
    logOffsOf (syncDashboardAccounts env w).2.trace = logOffsOf w.trace := by
  obtain ⟨-, -, -, -, -, more, ht, hs⟩ := checkDateResets_storeOnly env w
  unfold syncDashboardAccounts
  rw [ht, logOffsOf_append, logOffsOf_onlySaves more hs, List.append_nil]

theorem persistAndStop_logOffs (env : Env) (w : World) (st : Option State) :
    logOffsOf (persistAndStop env w st).2.trace = logOffsOf w.trace := by
  unfold persistAndStop
  cases st with
  | none => rfl
  | some st1 =>
    simp only
    have h1 := saveState_logOffs env w st1
    cases hs : saveState env w st1 with
    | mk res w1 =>
      rw [hs] at h1
      cases res with
      | error e => simpa using h1
      | ok u =>
        simp only
        have h2 := sync_logOffs env w1
        cases hy : syncDashboardAccounts env w1 with
        | mk res2 w2 =>
          rw [hy] at h2
          cases res2 <;> simp only [] <;> rw [h2] <;> exact h1

theorem onSuccess_logOffs (env : Env) (cfg : Config) (username profileId : String)
    (task : Task) (w : World) :
    logOffsOf (onSuccess env cfg username profileId task w).2.trace = logOffsOf w.trace := by
  unfold onSuccess
  simp only
  cases env.completeTask w.requests with
  | some e => simp [logOffsOf_append, logOffsOf]
  | none =>
    simp only
    generalize hW : ({ (loadState env { w with
        requests := w.requests + 1,
        trace := w.trace ++
          [Event.complete task.taskId task.requiredCommentId profileId] }).2 with
      clockReads := (loadState env { w with
        requests := w.requests + 1,
        trace := w.trace ++
          [Event.complete task.taskId task.requiredCommentId profileId] }).2.clockReads + 1 }
      : World) = W
    have hWt : logOffsOf W.trace = logOffsOf w.trace := by
      rw [← hW]
      unfold loadState
      cases w.disk <;> simp [logOffsOf_append, logOffsOf]
    generalize successUpdate _ _ _ = st1
    have h1 := saveState_logOffs env W st1
    cases hs : saveState env W st1 with
    | mk res w1 =>
      rw [hs] at h1
      cases res with
      | error e => simp only []; rw [h1, hWt]
      | ok u =>
        simp only
        have h2 := sync_logOffs env w1
        cases hy : syncDashboardAccounts env w1 with
        | mk res2 w2 =>
          rw [hy] at h2
          cases res2 with
          | error e => simp only []; rw [h2, h1, hWt]
          | ok u2 =>
            simp only [logOffsOf_append, logOffsOf, List.append_nil]
            rw [h2, h1, hWt]

theorem loadState_logOffs (env : Env) (w : World) :
    logOffsOf (loadState env w).2.trace = logOffsOf w.trace := by
  unfold loadState
  cases w.disk <;> rfl

theorem onFailure_logOffs (env : Env) (cfg : Config) (username : String) (error : String)
    (f : Int) (w : World) :
    logOffsOf (onFailure env cfg username error f w).2.trace = logOffsOf w.trace := by
  unfold onFailure
  simp only
  split_ifs
  · rw [persistAndStop_logOffs]
    exact loadState_logOffs env w
  · rfl
  · rw [persistAndStop_logOffs]
    exact loadState_logOffs env w
  · simp [logOffsOf_append, logOffsOf]

theorem taskStep_logOffs (env : Env) (cfg : Config) (username profileId : String)
    (task : Task) (f : Int) (w : World) :
    logOffsOf (taskStep env cfg username profileId task f w).2.trace = logOffsOf w.trace := by
  unfold taskStep
  simp only
  split_ifs
  · rfl
  · rw [persistAndStop_logOffs]
    exact loadState_logOffs env _
  · split
    · rw [onSuccess_logOffs]
      simp only [logOffsOf_append, logOffsOf, List.append_nil]
      exact loadState_logOffs env _
    · rw [onFailure_logOffs]
      simp only [logOffsOf_append, logOffsOf, List.append_nil]
      exact loadState_logOffs env _

theorem taskLoop_logOffs (env : Env) (cfg : Config) (username profileId : String)
    (tasks : List Task) :
    ∀ (f : Int) (w : World),
      logOffsOf (taskLoop env cfg username profileId tasks f w).2.trace = logOffsOf w.trace := by
  induction tasks with
  | nil => intro f w; rfl
  | cons t rest ih =>
    intro f w
    have h := taskStep_logOffs env cfg username profileId t f w
    rw [taskLoop]
    cases hs : taskStep env cfg username profileId t f w with
    | mk res w1 =>
      rw [hs] at h
      cases res with
      | error e => exact h
      | ok o =>
        cases o with
        | none => exact h
        | some n => simp only []; rw [ih n w1]; exact h

theorem fetchAndRun_logOffs (env : Env) (cfg : Config) (session : Session) (profile : Profile)
    (w : World) :
    logOffsOf (fetchAndRun env cfg session profile w).2.trace = logOffsOf w.trace := by
  unfold fetchAndRun
  simp only
  cases env.getTasks w.requests with
  | error e => rfl
  | ok tasks =>
    simp only
    split_ifs
    · rfl
    · rw [taskLoop_logOffs]

theorem sessionBody_logOffs (env : Env) (cfg : Config) (session : Session) (w : World) :
    logOffsOf (sessionBody env cfg session w).2.trace = logOffsOf w.trace := by
  unfold sessionBody
  simp only
  cases env.getSteamProfiles w.requests with
  | error e => rfl
  | ok profiles =>
    simp only
    cases profiles.find? (fun p => p.steamId = session.steamID) with
    | some p => simp only []; rw [fetchAndRun_logOffs]
    | none =>
      simp only
      cases env.addSteamProfile (w.requests + 1) with
      | some e => rfl
      | none =>
        simp only
        cases env.getSteamProfiles (w.requests + 1 + 1) with
        | error e => rfl
        | ok updated =>
          simp only
          cases updated.find? (fun p => p.steamId = session.steamID) with
          | some p => simp only []; rw [fetchAndRun_logOffs]
          | none => rfl

/-- Once the identity write, its save and the first sync have gone through,
`processAccount` returns normally whatever the session body does, and logs the
session off exactly once, as its last effect. -/
theorem processAccount_logs_off_once (env : Env) (cfg : Config) (session : Session)
    (w : World) (st s1 : State) (hdisk : w.disk = some st)
    (hid : identityWrite st session = some s1)
    (hwrite : ∀ n, env.writeOk n = true) :
    (processAccount env cfg session w).1 = .ok () ∧
    logOffsOf (processAccount env cfg session w).2.trace =
      logOffsOf w.trace ++ [session.username] ∧
    ∃ before, (processAccount env cfg session w).2.trace =
      before ++ [Event.logOff session.username] := by
  have hl : loadState env w = (st, w) := by
    unfold loadState
    rw [hdisk]
  unfold processAccount
  rw [hl]
  simp only [hid]
  rw [saveState_ok env w s1 (hwrite _)]
  simp only
  generalize hW : ({ w with disk := some s1, writes := w.writes + 1,
                            trace := w.trace ++ [Event.save s1] } : World) = W
  have hWt : logOffsOf W.trace = logOffsOf w.trace := by
    rw [← hW]
    simp [logOffsOf_append, logOffsOf]
  have hok := checkDateResets_ok env hwrite W
  have h2 := sync_logOffs env W
  unfold syncDashboardAccounts at h2 ⊢
  cases hy : checkDateResets env W with
  | mk res2 w3 =>
    rw [hy] at hok h2
    simp only at hok
    subst hok
    simp only [logOffsOf_append, logOffsOf, List.append_nil]
    refine ⟨trivial, ?_, _, rfl⟩
    rw [sessionBody_logOffs, h2, hWt]

/-! ## Resets and the cycle -/

theorem applyResets_daily_zero (st : State) (today : String) (week : Int)
    (hstale : st.get "lastResetDate" ≠ some (.str today)) :
    ∀ k r, (applyResets st today week).1.get k = some (.obj r) →
      r.completedToday = some 0 := by
  intro k r hk
  by_cases h1 : k = "lastResetDate"
  · subst h1
    rw [(applyResets_markers st _ _).1] at hk
    cases hk
  by_cases h2 : k = "lastWeeklyReset"
  · subst h2
    rw [(applyResets_markers st _ _).2] at hk
    cases hk
  rw [applyResets_get st _ _ k h1 h2] at hk
  cases hg : st.get k with
  | none => rw [hg] at hk; cases hk
  | some e =>
    rw [hg] at hk
    simp only [Option.map_some', Option.some.injEq] at hk
    cases e with
    | str s => simp [resetEntry] at hk
    | num n => simp [resetEntry] at hk
    | obj r0 =>
      simp only [resetEntry, Entry.obj.injEq] at hk
      rw [← hk]
      simp [hstale]

/-- When its write goes through, `checkDateResets` returns and leaves on file
the store with the resets of its two clock readings applied. -/
theorem checkDateResets_applied (env : Env) (w : World) (st : State)
    (hdisk : w.disk = some st) (hwrite : env.writeOk w.writes = true) :
    ∃ w3, checkDateResets env w = (.ok (), w3) ∧
      w3.disk = some (applyResets st (toDateString (env.clock w.clockReads))
        (getWeekNumber (env.clock (w.clockReads + 1)))).1 := by
  by_cases hch : st.get "lastResetDate" ≠ some (.str (toDateString (env.clock w.clockReads))) ∨
      st.get "lastWeeklyReset" ≠ some (.num (getWeekNumber (env.clock (w.clockReads + 1))))
  · rw [checkDateResets_rollover env w st hdisk hch hwrite]
    exact ⟨_, rfl, rfl⟩
  · have hd : st.get "lastResetDate" =
        some (.str (toDateString (env.clock w.clockReads))) := by
      by_contra h
      exact hch (Or.inl h)
    have hw : st.get "lastWeeklyReset" =
        some (.num (getWeekNumber (env.clock (w.clockReads + 1)))) := by
      by_contra h
      exact hch (Or.inr h)
    rw [checkDateResets_current env w st hdisk hd hw, applyResets_current st _ _ hd hw]
    exact ⟨_, rfl, hdisk⟩

/-- A day marker other than today's string is still other than today's string
after the identity write. -/
theorem identityWrite_stale (st s1 : State) (session : Session) (today : String)
    (hid : identityWrite st session = some s1)
    (hstale : st.get "lastResetDate" ≠ some (.str today)) :
    s1.get "lastResetDate" ≠ some (.str today) := by
  unfold identityWrite at hid
  simp only at hid
  split at hid
  · rename_i r hr
    simp only [Option.some.injEq] at hid
    rw [← hid]
    by_cases hu : session.username = "lastResetDate"
    · rw [← hu, State.get_set_self]
      simp
    · rw [State.get_set_ne _ _ _ _ (Ne.symm hu)]
      split_ifs
      · exact hstale
      · rw [State.get_set_ne _ _ _ _ (Ne.symm hu)]
        exact hstale
  · cases hid

/-- C17 (as the code has it). A cycle does not run the reset before it examines
the accounts: `main` runs it once at startup, and afterwards it runs only as
part of an account attempt. In a cycle whose accounts are all in cooldown the
state file is not touched: after the account loop it holds the same store as
before, a stale `lastResetDate` and old `completedToday` included. The startup
sync is what applies a pending daily reset: when its write goes through, the
store then has `lastResetDate` at today and `completedToday = 0` in every
record. And for an account that is attempted, with the writes going through,
`processAccount` returns after a session body (task fetch and task loop with
its daily-limit checks) that starts from a world `w3` whose file has the reset
applied: `lastResetDate` is today, and when the day had changed every record,
the account's included, has `completedToday = 0`. -/
theorem reset_runs_at_startup_not_at_cycle_start
    (env : Env) (cfg : Config) (accounts : List Account) (w : World) (st : State)
    (hdisk : w.disk = some st)
    (hrun : ∀ n, env.running n = true)
    (hcool : ∀ a ∈ accounts, ∀ n, (env.clock n).ms < cooldownOf st a.username) :
    (cyclePass env cfg accounts w).2.disk = some st ∧
    (cyclePass env cfg accounts w).2.writes = w.writes ∧
    (cyclePass env cfg accounts w).2.trace = w.trace ∧
    (env.writeOk w.writes = true →
      st.get "lastResetDate" ≠ some (.str (toDateString (env.clock w.clockReads))) →
      ∃ st2, (mainStartup env w).2.disk = some st2 ∧
        st2.get "lastResetDate" = some (.str (toDateString (env.clock w.clockReads))) ∧
        ∀ k r, st2.get k = some (.obj r) → r.completedToday = some 0) ∧
    (∀ (session : Session) (s1 : State),
      identityWrite st session = some s1 →
      env.writeOk w.writes = true → env.writeOk (w.writes + 1) = true →
      ∃ w3 st3,
        processAccount env cfg session w =
          (.ok (), { (sessionBody env cfg session w3).2 with
            trace := (sessionBody env cfg session w3).2.trace ++
              [Event.logOff session.username] }) ∧
        w3.disk = some st3 ∧
        st3.get "lastResetDate" = some (.str (toDateString (env.clock w.clockReads))) ∧
        (st.get "lastResetDate" ≠ some (.str (toDateString (env.clock w.clockReads))) →
          (∀ k r, st3.get k = some (.obj r) → r.completedToday = some 0) ∧
          completedTodayOf st3 session.username = 0)) := by
  have hl : loadState env w = (st, w) := by
    unfold loadState
    rw [hdisk]
  have hpass : cyclePass env cfg accounts w =
      (.ok (0, earlier none
          (minimumTime (accounts.map (fun a => cooldownOf st a.username)))),
        { w with flagReads := w.flagReads + accounts.length,
                 clockReads := w.clockReads + accounts.length }) := by
    unfold cyclePass
    rw [hl]
    exact accountsPass_all_skipped env cfg st hrun accounts 0 none w hcool
  rw [hpass]
  refine ⟨hdisk, rfl, rfl, fun hw hstale => ?_, fun session s1 hid hw1 hw2 => ?_⟩
  · unfold mainStartup syncDashboardAccounts
    rw [checkDateResets_rollover env w st hdisk (Or.inl hstale) hw]
    exact ⟨_, rfl, (applyResets_markers st _ _).1, applyResets_daily_zero st _ _ hstale⟩
  · obtain ⟨w3, hsync, hd3⟩ := checkDateResets_applied env
      { w with disk := some s1, writes := w.writes + 1, trace := w.trace ++ [Event.save s1] }
      s1 rfl hw2
    refine ⟨w3, _, ?_, hd3, (applyResets_markers s1 _ _).1, fun hstale => ?_⟩
    · unfold processAccount
      rw [hl]
      simp only [hid]
      rw [saveState_ok env w s1 hw1]
      simp only
      unfold syncDashboardAccounts
      rw [hsync]
    · have hz := applyResets_daily_zero s1 (toDateString (env.clock w.clockReads))
        (getWeekNumber (env.clock (w.clockReads + 1)))
        (identityWrite_stale st s1 session _ hid hstale)
      refine ⟨hz, ?_⟩
      unfold completedTodayOf
      split
      · rename_i r hr
        rw [hz _ r hr]
        rfl
      · rfl

/-- Instance of C17: "alice" and "bob" in cooldown, the store still marked with
the day before; the cycle leaves the file as it is, the startup sync brings the
marker to today, and so does the sync at the start of a session of "bob". -/
theorem reset_runs_at_startup_not_at_cycle_start_witness :
    (cyclePass calmEnv defaultConfig twoAccounts (worldWith coolingStore)).2.disk =
      some coolingStore ∧
    (∃ st2, (mainStartup calmEnv (worldWith coolingStore)).2.disk = some st2 ∧
      st2.get "lastResetDate" = some (.str (toDateString (calmEnv.clock 0)))) ∧
    ∃ w3 st3,
      processAccount calmEnv defaultConfig bobSession (worldWith coolingStore) =
        (.ok (), { (sessionBody calmEnv defaultConfig bobSession w3).2 with
          trace := (sessionBody calmEnv defaultConfig bobSession w3).2.trace ++
            [Event.logOff "bob"] }) ∧
      w3.disk = some st3 ∧ completedTodayOf st3 "bob" = 0 := by
  have h := reset_runs_at_startup_not_at_cycle_start calmEnv defaultConfig twoAccounts
    (worldWith coolingStore) coolingStore rfl (fun _ => rfl)
    (by
      intro a ha n
      have hc : (calmEnv.clock n).ms = 1793880000000 := rfl
      rw [hc]
      simp only [twoAccounts, List.mem_cons, List.mem_singleton, List.not_mem_nil,
        or_false] at ha
      rcases ha with h | h <;> subst h <;> decide)
  obtain ⟨st2, h1, h2, -⟩ := h.2.2.2.1 rfl (by decide)
  obtain ⟨w3, st3, h3, h4, -, h5⟩ := h.2.2.2.2 bobSession
    ((identityWrite coolingStore bobSession).getD []) rfl rfl rfl
  exact ⟨h.1, ⟨st2, h1, h2⟩, w3, st3, h3, h4, (h5 (by decide)).2⟩

/-- Counterexample to C17 as stated: the cycle starts on Thursday 5 November
2026 with the store last reset on Wednesday; both accounts are in cooldown. When
the account loop is over, hence also when the first cooldown was checked, the
file still carries Wednesday as `lastResetDate` and "alice" still has
`completedToday = 3`. -/
theorem stale_store_through_cycle_counterexample :
    (cyclePass calmEnv defaultConfig twoAccounts (worldWith coolingStore)).2.disk =
      some coolingStore ∧
    coolingStore.get "lastResetDate" = some (.str "Wed Nov 04 2026") ∧
    toDateString (calmEnv.clock 0) = "Thu Nov 05 2026" ∧
    completedTodayOf coolingStore "alice" = 3 := by
  refine ⟨rfl, rfl, by decide, by decide⟩

/-! ## Storage failures -/

/-- C18. With the state file missing, unreadable or unparsable `loadState`
returns the default: the two markers, from two readings of the clock, and no
account record. The resets find nothing to do on such a default for the same
day and week, so `checkDateResets`, when its own readings show the day and week
of the default, saves nothing and returns. -/
theorem loadState_default_on_bad_storage
    (env : Env) (w : World) (hdisk : w.disk = none)
    (hday : toDateString (env.clock (w.clockReads + 2)) = toDateString (env.clock w.clockReads))
    (hweek : getWeekNumber (env.clock (w.clockReads + 3)) =
      getWeekNumber (env.clock (w.clockReads + 1))) :
    loadState env w =
      ([("lastResetDate", .str (toDateString (env.clock w.clockReads))),
        ("lastWeeklyReset", .num (getWeekNumber (env.clock (w.clockReads + 1))))],
       { w with clockReads := w.clockReads + 2 }) ∧
    (∀ k r, (loadState env w).1.get k ≠ some (.obj r)) ∧
    applyResets (loadState env w).1 (toDateString (env.clock w.clockReads))
        (getWeekNumber (env.clock (w.clockReads + 1))) = ((loadState env w).1, false) ∧
    checkDateResets env w = (.ok (), { w with clockReads := w.clockReads + 4 }) := by
  have hl : loadState env w =
      ([("lastResetDate", .str (toDateString (env.clock w.clockReads))),
        ("lastWeeklyReset", .num (getWeekNumber (env.clock (w.clockReads + 1))))],
       { w with clockReads := w.clockReads + 2 }) := by
    unfold loadState
    rw [hdisk]
  have hcur : ∀ today week,
      applyResets [("lastResetDate", Entry.str today), ("lastWeeklyReset", Entry.num week)]
        today week =
      ([("lastResetDate", Entry.str today), ("lastWeeklyReset", Entry.num week)], false) := by
    intro today week
    apply applyResets_current
    · simp [State.get]
    · simp [State.get]
  refine ⟨hl, ?_, ?_, ?_⟩
  · intro k r
    rw [hl]
    simp only [State.get]
    split_ifs <;> simp
  · rw [hl]
    exact hcur _ _
  · unfold checkDateResets
    rw [hl]
    simp only
    rw [hday, hweek, hcur]
    simp

/-- Instance of C18: no state file at noon of 5 November 2026. -/
theorem loadState_default_on_bad_storage_witness :
    (loadState calmEnv { worldWith [] with disk := none }).1 =
      [("lastResetDate", .str "Thu Nov 05 2026"), ("lastWeeklyReset", .num 45)] ∧
    (checkDateResets calmEnv { worldWith [] with disk := none }).2.writes = 0 := by
  have h := loadState_default_on_bad_storage calmEnv { worldWith [] with disk := none }
    rfl rfl rfl
  rw [h.1, h.2.2.2]
  exact ⟨by decide, rfl⟩

/-- C19 (as the code has it). `saveState` has no handler of its own: when the
file write fails it throws, for every state; the file keeps its old content.
The callers without a handler pass the failure on: so does
`syncDashboardAccounts` whenever a reset is pending, which at the start of
`main` stands outside every `try`. -/
theorem saveState_raises_on_failed_write
    (env : Env) (w : World) (st : State) (hfail : env.writeOk w.writes = false) :
    saveState env w st = (.error "write failed", { w with writes := w.writes + 1 }) ∧
    (saveState env w st).2.disk = w.disk ∧
    (∀ old, w.disk = some old →
      old.get "lastResetDate" ≠ some (.str (toDateString (env.clock w.clockReads))) →
      (mainStartup env w).1 = .error "write failed") := by
  have hs : ∀ (W : World) (s : State), env.writeOk W.writes = false →
      saveState env W s = (.error "write failed", { W with writes := W.writes + 1 }) := by
    intro W s h
    simp [saveState, h]
  refine ⟨hs w st hfail, ?_, fun old hold hstale => ?_⟩
  · rw [hs w st hfail]
  · unfold mainStartup syncDashboardAccounts
    rw [checkDateResets_some env w old hold,
      if_pos ((applyResets_changed old _ _).mpr (Or.inl hstale)),
      hs { w with clockReads := w.clockReads + 2 } _ hfail]

/-- Instance of C19: the disk is full and the store is a day old; the startup
sync throws. -/
theorem saveState_raises_on_failed_write_witness :
    (mainStartup readOnlyEnv (worldWith staleStore)).1 = .error "write failed" :=
  (saveState_raises_on_failed_write readOnlyEnv (worldWith staleStore) staleStore rfl).2.2
    staleStore rfl (by decide)

/-- C20 (as the code has it). The identity write and its save stand before the
`try` of `processAccount`: when that save fails, `processAccount` throws to its
caller, having done nothing else. -/
theorem processAccount_raises_on_failed_identity_save
    (env : Env) (cfg : Config) (session : Session) (w : World) (st s1 : State)
    (hdisk : w.disk = some st)
    (hid : identityWrite st session = some s1)
    (hfail : env.writeOk w.writes = false) :
    processAccount env cfg session w =
      (.error "write failed", { w with writes := w.writes + 1 }) := by
  have hl : loadState env w = (st, w) := by
    unfold loadState
    rw [hdisk]
  unfold processAccount
  rw [hl]
  simp [hid, saveState, hfail]

/-- Instance of C20: the session of "bob" on a disk that cannot be written. -/
theorem processAccount_raises_on_failed_identity_save_witness :
    (processAccount readOnlyEnv defaultConfig bobSession (worldWith (storeWithCount 3))).1 =
      .error "write failed" := by
  rw [processAccount_raises_on_failed_identity_save readOnlyEnv defaultConfig bobSession
    (worldWith (storeWithCount 3)) (storeWithCount 3) _ rfl rfl rfl]

/-- C21 (as the code has it). When the save of the identity write fails, the
account attempt has logged in and `processAccount` leaves before its `try`, so
the `finally` block does not run: the attempt adds the login to the trace and
nothing else, and no logoff. -/
theorem no_logOff_when_identity_save_fails
    (env : Env) (cfg : Config) (account : Account) (w : World) (st s1 : State)
    (steamID : String) (avatarUrl steamNickname : JString)
    (hlogin : env.login w.logins = .ok (steamID, avatarUrl, steamNickname))
    (hdisk : w.disk = some st)
    (hid : identityWrite st
      { steamID := steamID, username := account.username,
        avatarUrl := avatarUrl, steamNickname := steamNickname } = some s1)
    (hfail : env.writeOk w.writes = false) :
    (attemptAccount env cfg account w).1 = .error "write failed" ∧
    (attemptAccount env cfg account w).2.trace = w.trace ++ [Event.login account.username] ∧
    logOffsOf (attemptAccount env cfg account w).2.trace = logOffsOf w.trace := by
  have hp : ∀ (W : World), W.disk = some st → env.writeOk W.writes = false →
      processAccount env cfg
        { steamID := steamID, username := account.username,
          avatarUrl := avatarUrl, steamNickname := steamNickname } W =
      (.error "write failed", { W with writes := W.writes + 1 }) := by
    intro W hW hWf
    have hl : loadState env W = (st, W) := by
      unfold loadState
      rw [hW]
    unfold processAccount
    rw [hl]
    simp [hid, saveState, hWf]
  have ha : attemptAccount env cfg account w =
      (.error "write failed",
        { w with logins := w.logins + 1, writes := w.writes + 1,
                 trace := w.trace ++ [Event.login account.username] }) := by
    unfold attemptAccount
    simp only [hlogin]
    rw [hp { w with logins := w.logins + 1,
                    trace := w.trace ++ [Event.login account.username] } hdisk hfail]
  rw [ha]
  refine ⟨rfl, rfl, ?_⟩
  simp [logOffsOf_append, logOffsOf]

/-- Instance of C21: "bob" logs in, the disk cannot be written; the trace of the
attempt is the login alone. -/
theorem no_logOff_when_identity_save_fails_witness :
    (attemptAccount readOnlyEnv defaultConfig { username := "bob", password := "pw" }
      (worldWith (storeWithCount 3))).2.trace = [Event.login "bob"] :=
  (no_logOff_when_identity_save_fails readOnlyEnv defaultConfig
    { username := "bob", password := "pw" } (worldWith (storeWithCount 3))
    (storeWithCount 3) _ "7656" .null .null rfl rfl rfl rfl).2.1

/-! ## Frame of the reset -/

theorem resetEntry_frame (d wk : Bool) (r : AccountRecord) :
    ∃ r2, resetEntry d wk (.obj r) = .obj r2 ∧
      r2.cooldownUntil = r.cooldownUntil ∧ r2.totalCompleted = r.totalCompleted ∧
      r2.lastError = r.lastError ∧ r2.lastErrorType = r.lastErrorType ∧
      r2.lastSuccess = r.lastSuccess ∧ r2.avatarUrl = r.avatarUrl ∧
      r2.steamNickname = r.steamNickname ∧ r2.steamID = r.steamID ∧
      (r2.completedToday = r.completedToday ∨ r2.completedToday = some 0) ∧
      (r2.completedThisWeek = r.completedThisWeek ∨ r2.completedThisWeek = some 0) := by
  refine ⟨_, rfl, rfl, rfl, rfl, rfl, rfl, rfl, rfl, rfl, ?_, ?_⟩
  · cases d <;> simp
  · cases wk <;> simp

/-- C27. Whatever the stored state and the clock, after `checkDateResets` the
file holds a store `st2` that differs from the old one in nothing but
`completedToday`, `completedThisWeek` and the two markers: under every other
key the old value is there, a string or number as it was, a record with the
same `cooldownUntil`, `totalCompleted`, `lastError`, `lastErrorType`,
`lastSuccess` and identity fields and each of the two counters either as it was
or 0; a key other than the markers is present after exactly when it was
before; and each marker is either the entry it was or the plain string (day) or
number (week) of the clock reading, so no marker comes out as a record with
counter fields. -/
theorem checkDateResets_frame (env : Env) (w : World) (st : State)
    (hdisk : w.disk = some st) :
    ∃ st2, (checkDateResets env w).2.disk = some st2 ∧
      (∀ k, k ≠ "lastResetDate" → k ≠ "lastWeeklyReset" →
        (st2.get k = none ↔ st.get k = none) ∧
        (∀ s, st.get k = some (.str s) → st2.get k = some (.str s)) ∧
        (∀ n, st.get k = some (.num n) → st2.get k = some (.num n)) ∧
        (∀ r, st.get k = some (.obj r) →
          ∃ r2, st2.get k = some (.obj r2) ∧
            r2.cooldownUntil = r.cooldownUntil ∧ r2.totalCompleted = r.totalCompleted ∧
            r2.lastError = r.lastError ∧ r2.lastErrorType = r.lastErrorType ∧
            r2.lastSuccess = r.lastSuccess ∧ r2.avatarUrl = r.avatarUrl ∧
            r2.steamNickname = r.steamNickname ∧ r2.steamID = r.steamID ∧
            (r2.completedToday = r.completedToday ∨ r2.completedToday = some 0) ∧
            (r2.completedThisWeek = r.completedThisWeek ∨
              r2.completedThisWeek = some 0))) ∧
      (st2.get "lastResetDate" = st.get "lastResetDate" ∨
        st2.get "lastResetDate" = some (.str (toDateString (env.clock w.clockReads)))) ∧
      (st2.get "lastWeeklyReset" = st.get "lastWeeklyReset" ∨
        st2.get "lastWeeklyReset" =
          some (.num (getWeekNumber (env.clock (w.clockReads + 1))))) := by
  have key : ∀ (st2 : State) (d wk : Bool),
      (∀ k, k ≠ "lastResetDate" → k ≠ "lastWeeklyReset" →
        st2.get k = (st.get k).map (resetEntry d wk)) →
      ∀ k, k ≠ "lastResetDate" → k ≠ "lastWeeklyReset" →
        (st2.get k = none ↔ st.get k = none) ∧
        (∀ s, st.get k = some (.str s) → st2.get k = some (.str s)) ∧
        (∀ n, st.get k = some (.num n) → st2.get k = some (.num n)) ∧
        (∀ r, st.get k = some (.obj r) →
          ∃ r2, st2.get k = some (.obj r2) ∧
            r2.cooldownUntil = r.cooldownUntil ∧ r2.totalCompleted = r.totalCompleted ∧
            r2.lastError = r.lastError ∧ r2.lastErrorType = r.lastErrorType ∧
            r2.lastSuccess = r.lastSuccess ∧ r2.avatarUrl = r.avatarUrl ∧
            r2.steamNickname = r.steamNickname ∧ r2.steamID = r.steamID ∧
            (r2.completedToday = r.completedToday ∨ r2.completedToday = some 0) ∧
            (r2.completedThisWeek = r.completedThisWeek ∨
              r2.completedThisWeek = some 0)) := by
    intro st2 d wk hget k h1 h2
    rw [hget k h1 h2]
    refine ⟨by simp, fun s hs => ?_, fun n hn => ?_, fun r hr => ?_⟩
    · rw [hs]; rfl
    · rw [hn]; rfl
    · rw [hr]
      obtain ⟨r2, he, hrest⟩ := resetEntry_frame d wk r
      exact ⟨r2, by simp [he], hrest⟩
  rcases checkDateResets_disk env w st hdisk with h | h
  · refine ⟨st, h, key st false false (fun k _ _ => ?_), Or.inl rfl, Or.inl rfl⟩
    cases st.get k with
    | none => rfl
    | some e => simp [resetEntry_false_false]
  · refine ⟨_, h, key _ _ _ (fun k h1 h2 => applyResets_get st _ _ k h1 h2),
      Or.inr (applyResets_markers st _ _).1, Or.inr (applyResets_markers st _ _).2⟩

/-- Instance of C27: a reset on the new day sets "bob"'s `completedToday` to 0
and leaves his `totalCompleted` at 3. -/
theorem checkDateResets_frame_witness :
    ∃ st2 r2, (checkDateResets calmEnv (worldWith staleStore)).2.disk = some st2 ∧
      st2.get "bob" = some (.obj r2) ∧ r2.totalCompleted = some 3 := by
  obtain ⟨st2, h, hk, -, -⟩ :=
    checkDateResets_frame calmEnv (worldWith staleStore) staleStore rfl
  obtain ⟨r2, hr, -, ht, -⟩ :=
    (hk "bob" (by decide) (by decide)).2.2.2 (recordWithCount 3) rfl
  exact ⟨st2, r2, h, hr, ht⟩

/-! ## The dashboard log buffer -/

theorem updateAppState_logs_le (time : String) (app : AppState) (u : Update)
    (h : app.logs.length ≤ 20) : (updateAppState time app u).logs.length ≤ 20 := by
  unfold updateAppState
  simp only
  cases u.logEntry with
  | none => exact h
  | some e =>
    simp only
    split_ifs
    · simp [List.length_take]
    · exact h

theorem runUpdates_logs_le (calls : List (String × Update)) :
    ∀ app : AppState, app.logs.length ≤ 20 → (runUpdates app calls).logs.length ≤ 20 := by
  induction calls with
  | nil => intro app h; exact h
  | cons c rest ih =>
    intro app h
    exact ih _ (updateAppState_logs_le c.1 app c.2 h)

/-- C28. The log buffer of the dashboard. After any series of calls of
`updateAppState` from the initial state the buffer holds at most 20 entries. A
call with a `logEntry` (an object, or a string that is not empty) puts the entry
made from it first, followed by the previous entries in their order, cut to 20;
a call without one leaves the buffer as it is. `status`, `accounts` and
`currentAccount` stay as they are when the call does not supply them. -/
theorem updateAppState_log_buffer (time : String) (app : AppState) (u : Update)
    (calls : List (String × Update)) :
    (runUpdates initialAppState calls).logs.length ≤ 20 ∧
    (app.logs.length ≤ 20 → (updateAppState time app u).logs.length ≤ 20) ∧
    (∀ e, u.logEntry = some e → logEntryTruthy (some e) = true →
      (updateAppState time app u).logs = (entryOf time e :: app.logs).take 20) ∧
    (logEntryTruthy u.logEntry = false → (updateAppState time app u).logs = app.logs) ∧
    (u.status = none → (updateAppState time app u).status = app.status) ∧
    (u.accounts = none → (updateAppState time app u).accounts = app.accounts) ∧
    (u.currentAccount = none →
      (updateAppState time app u).currentAccount = app.currentAccount) := by
  refine ⟨runUpdates_logs_le calls _ (by simp [initialAppState]),
    updateAppState_logs_le time app u, ?_, ?_, ?_, ?_, ?_⟩
  · intro e he ht
    simp only [updateAppState, he, ht, if_true]
  · intro hf
    unfold updateAppState
    simp only
    cases he : u.logEntry with
    | none => rfl
    | some e =>
      rw [he] at hf
      simp [hf]
  · intro h
    simp only [updateAppState, h]
  · intro h
    simp only [updateAppState, h]
  · intro h
    simp only [updateAppState, h]

/-- Instance of C28: the entry of a string `logEntry` goes first, with type
"info" and the time of the call. -/
theorem updateAppState_log_buffer_witness :
    (updateAppState "12:00:00" initialAppState
      { Update.none with logEntry := some (.text "Cycle started") }).logs =
      [{ text := "Cycle started", type := "info", time := "12:00:00" }] :=
  (updateAppState_log_buffer "12:00:00" initialAppState
    { Update.none with logEntry := some (.text "Cycle started") } []).2.2.1
    (.text "Cycle started") rfl (by decide)

/-! ## The account validator -/

theorem truthyValue_false_iff (v : FieldValue) :
    truthyValue v = false ↔
      (v = .missing ∨ v = .null ∨ v = .bool false ∨ v = .num 0 ∨ v = .str "") := by
  cases v <;> simp [truthyValue]

theorem truthyValue_true_iff (v : FieldValue) :
    truthyValue v = true ↔
      (v ≠ .missing ∧ v ≠ .null ∧ v ≠ .bool false ∧ v ≠ .num 0 ∧ v ≠ .str "") := by
  cases v <;> simp [truthyValue]

theorem checkElements_ok (elems : List AccountInput) :
    checkElements elems = .ok true ↔
      ∀ a ∈ elems, ∃ u p, a = .value u p ∧ truthyValue u = true ∧ truthyValue p = true := by
  induction elems with
  | nil => simp [checkElements]
  | cons a rest ih =>
    cases a with
    | nullish =>
      simp only [checkElements, List.mem_cons, forall_eq_or_imp]
      constructor
      · intro hc; cases hc
      · rintro ⟨⟨u, p, h, -⟩, -⟩
        cases h
    | value u p =>
      unfold checkElements
      by_cases h : (!truthyValue u || !truthyValue p) = true
      · rw [if_pos h]
        simp only [List.mem_cons, forall_eq_or_imp]
        constructor
        · intro hc; cases hc
        · rintro ⟨⟨u2, p2, he, h1, h2⟩, -⟩
          cases he
          simp [h1, h2] at h
      · rw [if_neg h, ih]
        simp only [List.mem_cons, forall_eq_or_imp]
        simp only [Bool.or_eq_true, Bool.not_eq_true', not_or, Bool.not_eq_false] at h
        exact ⟨fun hr => ⟨⟨u, p, rfl, h.1, h.2⟩, hr⟩, fun hall => hall.2⟩

theorem checkElements_cases (elems : List AccountInput) :
    checkElements elems = .ok true ∨ raised (checkElements elems) = true := by
  induction elems with
  | nil => left; rfl
  | cons a rest ih =>
    cases a with
    | nullish => right; rfl
    | value u p =>
      unfold checkElements
      split_ifs
      · right; rfl
      · exact ih

theorem checkElements_raised (elems : List AccountInput) :
    raised (checkElements elems) = true ↔
      ∃ a ∈ elems, a = .nullish ∨
        ∃ u p, a = .value u p ∧ (truthyValue u = false ∨ truthyValue p = false) := by
  constructor
  · intro hr
    by_contra hcon
    push_neg at hcon
    have hall : ∀ a ∈ elems,
        ∃ u p, a = .value u p ∧ truthyValue u = true ∧ truthyValue p = true := by
      intro a ha
      obtain ⟨hn, hv⟩ := hcon a ha
      cases a with
      | nullish => exact absurd rfl hn
      | value u p =>
        have := hv u p rfl
        exact ⟨u, p, rfl, by simpa using this.1, by simpa using this.2⟩
    rw [(checkElements_ok elems).mpr hall] at hr
    cases hr
  · rintro ⟨a, ha, hbad⟩
    rcases checkElements_cases elems with h | h
    · obtain ⟨u, p, he, h1, h2⟩ := (checkElements_ok elems).mp h a ha
      rcases hbad with hn | ⟨u2, p2, he2, hf⟩
      · rw [hn] at he; cases he
      · rw [he2] at he
        cases he
        rcases hf with hf | hf
        · rw [h1] at hf; cases hf
        · rw [h2] at hf; cases hf
    · exact h

/-- C29 (as the code has it). `validateAccounts` throws exactly when its
argument is not an array, or is an array with an element that is `null` or
`undefined` or whose username or password is falsy, that is missing, `null`,
`false`, 0 or the empty string; it returns `false` exactly for the empty array,
and `true` exactly for a non-empty array whose elements all have a username and
a password that are none of these. For elements whose username and password
are strings where present, it throws exactly when one of them is missing or
empty. -/
theorem validateAccounts_outcomes (x : AccountsInput) :
    (raised (validateAccounts x) = true ↔
      (x = .notArray ∨ ∃ elems, x = .array elems ∧
        ∃ a ∈ elems, a = .nullish ∨ ∃ u p, a = .value u p ∧
          ∃ v, (v = u ∨ v = p) ∧
            (v = .missing ∨ v = .null ∨ v = .bool false ∨ v = .num 0 ∨ v = .str ""))) ∧
    (validateAccounts x = .ok false ↔ x = .array []) ∧
    (validateAccounts x = .ok true ↔
      ∃ elems, x = .array elems ∧ elems ≠ [] ∧
        ∀ a ∈ elems, ∃ u p, a = .value u p ∧
          ∀ v, (v = u ∨ v = p) →
            (v ≠ .missing ∧ v ≠ .null ∧ v ≠ .bool false ∧ v ≠ .num 0 ∧ v ≠ .str "")) ∧
    (∀ elems, x = .array elems →
      (∀ a ∈ elems, ∃ u p, a = .value u p ∧
        (u = .missing ∨ ∃ s, u = .str s) ∧ (p = .missing ∨ ∃ s, p = .str s)) →
      (raised (validateAccounts x) = true ↔
        ∃ a ∈ elems, ∃ u p, a = .value u p ∧
          (u = .missing ∨ u = .str "" ∨ p = .missing ∨ p = .str ""))) := by
  have hbad : ∀ a : AccountInput,
      (a = .nullish ∨ ∃ u p, a = .value u p ∧
        (truthyValue u = false ∨ truthyValue p = false)) ↔
      (a = .nullish ∨ ∃ u p, a = .value u p ∧
        ∃ v, (v = u ∨ v = p) ∧
          (v = .missing ∨ v = .null ∨ v = .bool false ∨ v = .num 0 ∨ v = .str "")) := by
    intro a
    constructor
    · rintro (h | ⟨u, p, he, hf | hf⟩)
      · exact Or.inl h
      · exact Or.inr ⟨u, p, he, u, Or.inl rfl, (truthyValue_false_iff u).mp hf⟩
      · exact Or.inr ⟨u, p, he, p, Or.inr rfl, (truthyValue_false_iff p).mp hf⟩
    · rintro (h | ⟨u, p, he, v, hv | hv, hf⟩)
      · exact Or.inl h
      · subst hv
        exact Or.inr ⟨v, p, he, Or.inl ((truthyValue_false_iff v).mpr hf)⟩
      · subst hv
        exact Or.inr ⟨u, v, he, Or.inr ((truthyValue_false_iff v).mpr hf)⟩
  have hgood : ∀ a : AccountInput,
      (∃ u p, a = .value u p ∧ truthyValue u = true ∧ truthyValue p = true) ↔
      (∃ u p, a = .value u p ∧
        ∀ v, (v = u ∨ v = p) →
          (v ≠ .missing ∧ v ≠ .null ∧ v ≠ .bool false ∧ v ≠ .num 0 ∧ v ≠ .str "")) := by
    intro a
    constructor
    · rintro ⟨u, p, he, h1, h2⟩
      refine ⟨u, p, he, ?_⟩
      rintro v (hv | hv)
      · subst hv; exact (truthyValue_true_iff v).mp h1
      · subst hv; exact (truthyValue_true_iff v).mp h2
    · rintro ⟨u, p, he, hall⟩
      exact ⟨u, p, he, (truthyValue_true_iff u).mpr (hall u (Or.inl rfl)),
        (truthyValue_true_iff p).mpr (hall p (Or.inr rfl))⟩
  cases x with
  | notArray =>
    refine ⟨by simp [validateAccounts, raised], by simp [validateAccounts],
      by simp [validateAccounts], ?_⟩
    intro elems he
    cases he
  | array elems =>
    have hraise : raised (validateAccounts (.array elems)) = true ↔
        ∃ a ∈ elems, a = .nullish ∨
          ∃ u p, a = .value u p ∧ (truthyValue u = false ∨ truthyValue p = false) := by
      cases elems with
      | nil => simp [validateAccounts, raised]
      | cons a rest =>
        have hv : validateAccounts (.array (a :: rest)) = checkElements (a :: rest) := by
          simp [validateAccounts]
        rw [hv]
        exact checkElements_raised (a :: rest)
    refine ⟨?_, ?_, ?_, ?_⟩
    · rw [hraise]
      constructor
      · rintro ⟨a, ha, hb⟩
        exact Or.inr ⟨elems, rfl, a, ha, (hbad a).mp hb⟩
      · rintro (h | ⟨elems2, he, a, ha, hb⟩)
        · cases h
        · cases he
          exact ⟨a, ha, (hbad a).mpr hb⟩
    · cases elems with
      | nil => simp [validateAccounts]
      | cons a rest =>
        have hv : validateAccounts (.array (a :: rest)) = checkElements (a :: rest) := by
          simp [validateAccounts]
        rw [hv]
        constructor
        · intro h
          rcases checkElements_cases (a :: rest) with h1 | h1
          · rw [h1] at h; cases h
          · rw [h] at h1; cases h1
        · intro h; cases h
    · cases elems with
      | nil => simp [validateAccounts]
      | cons a rest =>
        have hv : validateAccounts (.array (a :: rest)) = checkElements (a :: rest) := by
          simp [validateAccounts]
        rw [hv, checkElements_ok]
        constructor
        · intro hall
          exact ⟨a :: rest, rfl, by simp, fun b hb => (hgood b).mp (hall b hb)⟩
        · rintro ⟨elems2, he, -, hall⟩
          cases he
          exact fun b hb => (hgood b).mpr (hall b hb)
    · intro elems2 he hshape
      cases he
      rw [hraise]
      constructor
      · rintro ⟨a, ha, hb⟩
        obtain ⟨u, p, he, hu, hp⟩ := hshape a ha
        refine ⟨a, ha, u, p, he, ?_⟩
        rcases hb with hn | ⟨u2, p2, he2, hf⟩
        · rw [hn] at he; cases he
        · rw [he2] at he
          cases he
          rcases hf with hf | hf
          · rcases hu with hu | ⟨s, hu⟩
            · exact Or.inl hu
            · subst hu
              have : s = "" := by simpa [truthyValue] using hf
              subst this
              exact Or.inr (Or.inl rfl)
          · rcases hp with hp | ⟨s, hp⟩
            · exact Or.inr (Or.inr (Or.inl hp))
            · subst hp
              have : s = "" := by simpa [truthyValue] using hf
              subst this
              exact Or.inr (Or.inr (Or.inr rfl))
      · rintro ⟨a, ha, u, p, he, hf⟩
        refine ⟨a, ha, Or.inr ⟨u, p, he, ?_⟩⟩
        rcases hf with h | h | h | h
        · subst h; exact Or.inl rfl
        · subst h; exact Or.inl rfl
        · subst h; exact Or.inr rfl
        · subst h; exact Or.inr rfl

/-- Instances of C29: an account with both fields is accepted, an account with
an empty username and an account without password are refused, and so is a
`null` element. -/
theorem validateAccounts_outcomes_witness :
    validateAccounts (.array [.value (.str "bob") (.str "pw")]) = .ok true ∧
    raised (validateAccounts (.array [.value (.str "bob") (.str "pw"),
      .value (.str "") (.str "pw")])) = true ∧
    raised (validateAccounts (.array [.value (.str "bob") .missing])) = true ∧
    raised (validateAccounts (.array [.nullish])) = true := by
  refine ⟨?_, ?_, ?_, ?_⟩
  · refine (validateAccounts_outcomes _).2.2.1.mpr ⟨_, rfl, by simp, ?_⟩
    intro a ha
    simp only [List.mem_singleton] at ha
    subst ha
    refine ⟨_, _, rfl, ?_⟩
    rintro v (hv | hv) <;> subst hv <;> simp
  · exact (validateAccounts_outcomes _).1.mpr (Or.inr ⟨_, rfl, .value (.str "") (.str "pw"),
      by simp, Or.inr ⟨_, _, rfl, .str "", Or.inl rfl, by simp⟩⟩)
  · exact (validateAccounts_outcomes _).1.mpr (Or.inr ⟨_, rfl, .value (.str "bob") .missing,
      by simp, Or.inr ⟨_, _, rfl, .missing, Or.inr rfl, by simp⟩⟩)
  · exact (validateAccounts_outcomes _).1.mpr (Or.inr ⟨_, rfl, .nullish, by simp, Or.inl rfl⟩)

/-- Counterexample to C29 as stated: a username that is the number 0, or
`false`, is present and is not the empty string, yet the validator throws. -/
theorem validateAccounts_zero_username_counterexample :
    raised (validateAccounts (.array [.value (.num 0) (.str "pw")])) = true ∧
    raised (validateAccounts (.array [.value (.bool false) (.str "pw")])) = true ∧
    FieldValue.num 0 ≠ .missing ∧ FieldValue.num 0 ≠ .str "" ∧
    FieldValue.bool false ≠ .missing ∧ FieldValue.bool false ≠ .str "" := by
  refine ⟨?_, ?_, by simp, by simp, by simp, by simp⟩
  · simp [validateAccounts, checkElements, truthyValue, raised]
  · simp [validateAccounts, checkElements, truthyValue, raised]

/-! ## The day string determines the date -/

theorem charVal_digitChar (k : Nat) (h : k < 10) : charVal (Nat.digitChar k) = k := by
  interval_cases k <;> rfl

theorem valFrom_toDigitsCore (fuel : Nat) :
    ∀ (n : Nat) (ds : List Char), n < fuel →
      valFrom 0 (Nat.toDigitsCore 10 fuel n ds) = valFrom n ds := by
  induction fuel with
  | zero => intro n ds h; omega
  | succ f ih =>
    intro n ds h
    unfold Nat.toDigitsCore
    simp only
    have hd : charVal (Nat.digitChar (n % 10)) = n % 10 :=
      charVal_digitChar _ (Nat.mod_lt _ (by decide))
    split_ifs with h0
    · simp only [valFrom, List.foldl_cons, hd]
      congr 1
      omega
    · rw [ih (n / 10) _ (by omega)]
      simp only [valFrom, List.foldl_cons, hd]
      congr 1
      omega

theorem valFrom_zeros (k : Nat) (cs : List Char) :
    valFrom 0 (List.replicate k '0' ++ cs) = valFrom 0 cs := by
  induction k with
  | zero => rfl
  | succ k ih =>
    simp only [List.replicate_succ, List.cons_append]
    simp only [valFrom, List.foldl_cons] at ih ⊢
    exact ih

/-- Reading the digits of `padZero width n` gives `n` back. -/
theorem valFrom_padZero (width n : Nat) : valFrom 0 (padZero width n).data = n := by
  have hr : (toString n).data = Nat.toDigits 10 n := rfl
  unfold padZero
  simp only [String.data_append, hr]
  rw [valFrom_zeros]
  unfold Nat.toDigits
  rw [valFrom_toDigitsCore (n + 1) n [] (by omega)]
  rfl

theorem padZero_two_length : ∀ n < 32, (padZero 2 n).data.length = 2 := by
  decide

theorem ite_length_three (c : Prop) [Decidable c] (a b : String)
    (ha : a.data.length = 3) (hb : b.data.length = 3) :
    (if c then a else b).data.length = 3 := by
  split <;> assumption

theorem dayName_length (w : Int) : (dayName w).data.length = 3 := by
  unfold dayName
  repeat' apply ite_length_three
  all_goals rfl

theorem monthName_length (m : Int) : (monthName m).data.length = 3 := by
  unfold monthName
  repeat' apply ite_length_three
  all_goals rfl

theorem monthIndex_monthName (m : Int) (h0 : 0 ≤ m) (h11 : m ≤ 11) :
    monthIndex (monthName m) = m := by
  interval_cases m <;> decide

theorem daysInMonth_le (m y : Int) :
    daysInMonth m (if daysInYear y = 366 then 1 else 0) ≤ 31 := by
  unfold daysInMonth
  split_ifs <;> omega

/-- Two existing dates of years from 0 on with the same day string are the same
date. -/
theorem toDateString_fields (d1 d2 : Instant)
    (hv1 : ValidDate d1.year d1.month d1.date) (hv2 : ValidDate d2.year d2.month d2.date)
    (hy1 : 0 ≤ d1.year) (hy2 : 0 ≤ d2.year)
    (h : toDateString d1 = toDateString d2) :
    d1.year = d2.year ∧ d1.month = d2.month ∧ d1.date = d2.date := by
  obtain ⟨hya, hma, hda⟩ := valid_date_fields d1.year d1.month d1.date hv1
  obtain ⟨hyb, hmb, hdb⟩ := valid_date_fields d2.year d2.month d2.date hv2
  have hle1 := daysInMonth_le d1.month d1.year
  have hle2 := daysInMonth_le d2.month d2.year
  obtain ⟨hm0, hm11, hd1, hd31⟩ := hv1
  obtain ⟨hn0, hn11, he1, he31⟩ := hv2
  unfold toDateString at h
  simp only [hya, hma, hda, hyb, hmb, hdb, not_lt.mpr hy1, not_lt.mpr hy2, if_false] at h
  have hd := congrArg String.data h
  simp only [String.data_append, List.append_assoc] at hd
  obtain ⟨-, h1⟩ := List.append_inj hd (by rw [dayName_length, dayName_length])
  obtain ⟨-, h2⟩ := List.append_inj h1 rfl
  obtain ⟨hm, h3⟩ := List.append_inj h2 (by rw [monthName_length, monthName_length])
  obtain ⟨-, h4⟩ := List.append_inj h3 rfl
  obtain ⟨hp2, h5⟩ := List.append_inj h4
    (by rw [padZero_two_length _ (by omega), padZero_two_length _ (by omega)])
  obtain ⟨-, h6⟩ := List.append_inj h5 rfl
  have hp4 : (padZero 4 d1.year.natAbs).data = (padZero 4 d2.year.natAbs).data := by
    simpa using h6
  have hmonth : monthName d1.month = monthName d2.month := String.ext hm
  have hmi := congrArg monthIndex hmonth
  rw [monthIndex_monthName _ hm0 hm11, monthIndex_monthName _ hn0 hn11] at hmi
  have hdv := congrArg (valFrom 0) hp2
  rw [valFrom_padZero, valFrom_padZero] at hdv
  have hyv := congrArg (valFrom 0) hp4
  rw [valFrom_padZero, valFrom_padZero] at hyv
  refine ⟨by omega, hmi, by omega⟩

/-- A change of the week number comes with a change of the day string: clock
readings with the same day string have the same week number. -/
theorem toDateString_determines_week (d1 d2 : Instant)
    (hv1 : ValidDate d1.year d1.month d1.date) (hv2 : ValidDate d2.year d2.month d2.date)
    (hy1 : 0 ≤ d1.year) (hy2 : 0 ≤ d2.year)
    (h : toDateString d1 = toDateString d2) :
    getWeekNumber d1 = getWeekNumber d2 := by
  obtain ⟨hy, hm, hd⟩ := toDateString_fields d1 d2 hv1 hv2 hy1 hy2 h
  unfold getWeekNumber
  rw [hy, hm, hd]

/-! ## The order of the counters -/

theorem ordered_empty : Ordered AccountRecord.empty := by
  simp [Ordered, AccountRecord.empty, orZero]

theorem storeInv_default (a b : Instant) (h : ClockOk a b) : StoreInv (defaultState a b) := by
  obtain ⟨hv, hy, e1, e2, e3⟩ := h
  have hw : getWeekNumber b = getWeekNumber a := by
    unfold getWeekNumber
    rw [e1, e2, e3]
  refine ⟨⟨a, hv, hy, ?_, ?_⟩, ?_⟩
  · simp [defaultState, State.get]
  · simp [defaultState, State.get, hw]
  · intro k r hk
    simp only [defaultState, State.get] at hk
    split_ifs at hk <;> simp at hk

theorem storeInv_set (st : State) (u : String) (r : AccountRecord)
    (hinv : StoreInv st) (hu : NotMarker u) (hr : Ordered r) :
    StoreInv (st.set u (.obj r)) := by
  obtain ⟨⟨i, hv, hy, hd, hw⟩, hrec⟩ := hinv
  refine ⟨⟨i, hv, hy, ?_, ?_⟩, ?_⟩
  · rw [State.get_set_ne st u _ _ (Ne.symm hu.1)]; exact hd
  · rw [State.get_set_ne st u _ _ (Ne.symm hu.2)]; exact hw
  · intro k r2 hk
    by_cases hku : k = u
    · subst hku
      rw [State.get_set_self] at hk
      cases hk
      exact hr
    · rw [State.get_set_ne st u k _ hku] at hk
      exact hrec k r2 hk

theorem storeInv_reset (st : State) (a b : Instant) (hinv : StoreInv st) (h : ClockOk a b) :
    StoreInv (applyResets st (toDateString a) (getWeekNumber b)).1 := by
  obtain ⟨hv, hy, e1, e2, e3⟩ := h
  have hw : getWeekNumber b = getWeekNumber a := by
    unfold getWeekNumber
    rw [e1, e2, e3]
  rw [hw]
  obtain ⟨⟨i, hvi, hyi, hdi, hwi⟩, hrec⟩ := hinv
  have hm := applyResets_markers st (toDateString a) (getWeekNumber a)
  refine ⟨⟨a, hv, hy, hm.1, hm.2⟩, ?_⟩
  intro k r hk
  by_cases h1 : k = "lastResetDate"
  · subst h1
    rw [hm.1] at hk
    cases hk
  by_cases h2 : k = "lastWeeklyReset"
  · subst h2
    rw [hm.2] at hk
    cases hk
  rw [applyResets_get st _ _ k h1 h2] at hk
  cases hg : st.get k with
  | none => rw [hg] at hk; cases hk
  | some e =>
    rw [hg] at hk
    simp only [Option.map_some', Option.some.injEq] at hk
    cases e with
    | str s => simp [resetEntry] at hk
    | num n => simp [resetEntry] at hk
    | obj r0 =>
      obtain ⟨o1, o2, o3⟩ := hrec k r0 hg
      simp only [resetEntry, Entry.obj.injEq] at hk
      rw [← hk]
      rw [hdi, hwi]
      by_cases hday : toDateString i = toDateString a
      · have hweek := toDateString_determines_week i a hvi hv hyi hy hday
        simp [Ordered, hday, hweek, o1, o2, o3]
      · by_cases hweek : getWeekNumber i = getWeekNumber a
        · simp only [Ordered, ne_eq, Option.some.injEq, Entry.str.injEq, hday,
            not_false_eq_true, decide_True, if_true, Entry.num.injEq, hweek, not_true_eq_false,
            decide_False, Bool.false_eq_true, if_false, orZero]
          exact ⟨le_refl _, le_trans o1 o2, o3⟩
        · simp only [Ordered, ne_eq, Option.some.injEq, Entry.str.injEq, hday,
            not_false_eq_true, decide_True, if_true, Entry.num.injEq, hweek, orZero]
          exact ⟨le_refl _, le_refl _, le_trans (le_trans o1 o2) o3⟩

theorem storeInv_identity (st : State) (session : Session) (hinv : StoreInv st)
    (hu : NotMarker session.username) :
    StoreInv ((identityWrite st session).getD st) := by
  unfold identityWrite
  simp only
  by_cases ht : truthy (st.get session.username) = true
  · simp only [ht, if_true]
    cases hg : st.get session.username with
    | none => exact hinv
    | some e =>
      cases e with
      | str s => exact hinv
      | num n => exact hinv
      | obj r =>
        simp only [Option.getD_some]
        exact storeInv_set st _ _ hinv hu (hinv.2 _ r hg)
  · simp only [ht, Bool.false_eq_true, if_false, State.get_set_self, Option.getD_some]
    apply storeInv_set _ _ _ _ hu
    · exact ordered_empty
    · exact storeInv_set st _ _ hinv hu ordered_empty

theorem storeInv_success (st : State) (u : String) (now : Int) (hinv : StoreInv st)
    (hu : NotMarker u) : StoreInv (successUpdate st u now) := by
  unfold successUpdate
  simp only
  apply storeInv_set st _ _ hinv hu
  have hold : Ordered (match st.get u with
      | some (.obj r) => r
      | _ => AccountRecord.empty) := by
    cases hg : st.get u with
    | none => exact ordered_empty
    | some e =>
      cases e with
      | str s => exact ordered_empty
      | num n => exact ordered_empty
      | obj r => exact hinv.2 u r hg
  generalize (match st.get u with
      | some (.obj r) => r
      | _ => AccountRecord.empty) = old at hold ⊢
  obtain ⟨o1, o2, o3⟩ := hold
  refine ⟨?_, ?_, ?_⟩
  · show 0 ≤ orZero old.completedToday + 1
    omega
  · show orZero old.completedToday + 1 ≤ orZero old.completedThisWeek + 1
    omega
  · show orZero old.completedThisWeek + 1 ≤ orZero old.totalCompleted + 1
    omega

theorem storeInv_step (st : State) (s : StoreStep) (hinv : StoreInv st) (hs : StepOk s) :
    StoreInv (applyStep st s) := by
  cases s with
  | reset a b => exact storeInv_reset st a b hinv hs
  | identity session => exact storeInv_identity st session hinv hs
  | success u now => exact storeInv_success st u now hinv hs
  | dailyLimit u now hrs =>
    simp only [applyStep, limitCooldown]
    cases hg : st.get u with
    | none => exact hinv
    | some e =>
      cases e with
      | str s => exact hinv
      | num n => exact hinv
      | obj r => exact storeInv_set st _ _ hinv hs (hinv.2 u r hg)
  | restricted u now =>
    simp only [applyStep, restrictedCooldown]
    cases hg : st.get u with
    | none => exact hinv
    | some e =>
      cases e with
      | str s => exact hinv
      | num n => exact hinv
      | obj r => exact storeInv_set st _ _ hinv hs (hinv.2 u r hg)
  | rateLimit u now error =>
    simp only [applyStep, rateLimitCooldown]
    cases hg : st.get u with
    | none => exact hinv
    | some e =>
      cases e with
      | str s => exact hinv
      | num n => exact hinv
      | obj r => exact storeInv_set st _ _ hinv hs (hinv.2 u r hg)

theorem storeInv_run (steps : List StoreStep) :
    ∀ st : State, StoreInv st → (∀ s ∈ steps, StepOk s) → StoreInv (runSteps st steps) := by
  induction steps with
  | nil => intro st h _; exact h
  | cons s rest ih =>
    intro st h hs
    exact ih _ (storeInv_step st s h (hs s (List.mem_cons_self _ _)))
      (fun t ht => hs t (List.mem_cons_of_mem _ ht))

/-- What `checkDateResets` leaves in the file is the old store or the reset step
for its two clock readings. -/
theorem checkDateResets_is_step (env : Env) (w : World) (st : State) (h : w.disk = some st) :
    (checkDateResets env w).2.disk = some st ∨
    (checkDateResets env w).2.disk =
      some (applyStep st (.reset (env.clock w.clockReads) (env.clock (w.clockReads + 1)))) :=
  checkDateResets_disk env w st h

/-- C24 (as the code has it). In every store reached from the default of
`loadState` by resets and writes of `processAccount` (identity write, success
update, the three cooldown writes), every record has
`0 ≤ completedToday ≤ completedThisWeek ≤ totalCompleted`, missing counters
counting as 0, provided the two clock readings of each reset, and of the
default, show one calendar day (an existing date of a year from 0 on) and no
username is a marker key. Under that proviso the two markers describe one
reading, and a change of week comes with a change of day string. -/
theorem counter_ordering_invariant (today weekNow : Instant) (steps : List StoreStep)
    (hstart : ClockOk today weekNow) (hsteps : ∀ s ∈ steps, StepOk s) :
    Coherent (runSteps (defaultState today weekNow) steps) ∧
    ∀ k r, (runSteps (defaultState today weekNow) steps).get k = some (.obj r) →
      0 ≤ orZero r.completedToday ∧
      orZero r.completedToday ≤ orZero r.completedThisWeek ∧
      orZero r.completedThisWeek ≤ orZero r.totalCompleted :=
  storeInv_run steps _ (storeInv_default today weekNow hstart) hsteps

/-- Instance of C24: three tasks of "bob" on Sunday and a reset on Monday
morning: his counters are 0, 0 and 3. -/
theorem counter_ordering_invariant_witness :
    ∃ r, (runSteps sundayStore [.reset mondayMorning mondayMorning]).get "bob" =
        some (.obj r) ∧
      0 ≤ orZero r.completedToday ∧ orZero r.completedToday ≤ orZero r.completedThisWeek ∧
      orZero r.completedThisWeek ≤ orZero r.totalCompleted ∧
      r.totalCompleted = some 3 := by
  have h := (counter_ordering_invariant sundayNoon sundayNoon
    [.identity bobSession, .success "bob" 1794139200000, .success "bob" 1794139260000,
     .success "bob" 1794139320000, .reset mondayMorning mondayMorning]
    (by decide) (by decide)).2 "bob"
  have hg : ∃ r, (runSteps sundayStore [.reset mondayMorning mondayMorning]).get "bob" =
      some (.obj r) ∧ r.totalCompleted = some 3 :=
    ⟨{ bobAfterThree with completedToday := some 0, completedThisWeek := some 0 },
      by decide, rfl⟩
  obtain ⟨r, hr, ht⟩ := hg
  obtain ⟨o1, o2, o3⟩ := h r hr
  exact ⟨r, hr, o1, o2, o3, ht⟩

/-- Counterexample to C24 as stated: `checkDateResets` reads the clock twice.
With the day string read in the last millisecond of Sunday 8 November 2026 and
the week number read in the first of Monday, on the store of Sunday with three
tasks of "bob" done, only the weekly reset runs: the file then holds
`completedToday = 3` above `completedThisWeek = 0` for "bob". -/
theorem midnight_reset_counterexample :
    toDateString sundayNight = "Sun Nov 08 2026" ∧
    getWeekNumber sundayNight = 45 ∧
    getWeekNumber mondayMorning = 46 ∧
    sundayStore.get "lastResetDate" = some (.str "Sun Nov 08 2026") ∧
    sundayStore.get "lastWeeklyReset" = some (.num 45) ∧
    ∃ st2 r, (checkDateResets midnightEnv (worldWith sundayStore)).2.disk = some st2 ∧
      st2.get "bob" = some (.obj r) ∧
      r.completedToday = some 3 ∧ r.completedThisWeek = some 0 := by
  refine ⟨by decide, by decide, by decide, by decide, by decide, ?_⟩
  exact ⟨(applyResets sundayStore "Sun Nov 08 2026" 46).1,
    { bobAfterThree with completedThisWeek := some 0 }, by decide, by decide, rfl, rfl⟩

/-! ## The JSON text of a store is read back -/

theorem toDigitsCore_isDigit (fuel : Nat) :
    ∀ (n : Nat) (ds : List Char), (∀ c ∈ ds, c.isDigit = true) →
      ∀ c ∈ Nat.toDigitsCore 10 fuel n ds, c.isDigit = true := by
  induction fuel with
  | zero => intro n ds h; simpa [Nat.toDigitsCore] using h
  | succ f ih =>
    intro n ds h
    have hd : (Nat.digitChar (n % 10)).isDigit = true := by
      have : n % 10 < 10 := Nat.mod_lt _ (by decide)
      interval_cases (n % 10) <;> rfl
    unfold Nat.toDigitsCore
    simp only
    split_ifs
    · intro c hc
      rcases List.mem_cons.mp hc with h1 | h1
      · rw [h1]; exact hd
      · exact h c h1
    · apply ih
      intro c hc
      rcases List.mem_cons.mp hc with h1 | h1
      · rw [h1]; exact hd
      · exact h c h1

theorem toDigits_isDigit (n : Nat) : ∀ c ∈ Nat.toDigits 10 n, c.isDigit = true :=
  toDigitsCore_isDigit (n + 1) n [] (by simp)

theorem toDigitsCore_head (fuel : Nat) :
    ∀ (n : Nat) (ds : List Char), 0 < n → n < fuel →
      ∃ c tl, Nat.toDigitsCore 10 fuel n ds = c :: tl ∧ c ≠ '0' := by
  induction fuel with
  | zero => intro n ds _ h; omega
  | succ f ih =>
    intro n ds hpos hlt
    unfold Nat.toDigitsCore
    simp only
    split_ifs with h0
    · refine ⟨_, _, rfl, ?_⟩
      have h10 : n < 10 := by omega
      have hm : n % 10 = n := Nat.mod_eq_of_lt h10
      rw [hm]
      interval_cases n <;> decide
    · exact ih (n / 10) _ (by omega) (by omega)

theorem toDigits_no_leading_zero (n : Nat) :
    ¬ ((Nat.toDigits 10 n).head? = some '0' ∧ 1 < (Nat.toDigits 10 n).length) := by
  rcases Nat.eq_zero_or_pos n with h | h
  · subst h
    decide
  · obtain ⟨c, tl, he, hc⟩ := toDigitsCore_head (n + 1) n [] h (by omega)
    unfold Nat.toDigits
    rw [he]
    simp [hc]

theorem toDigits_ne_nil (n : Nat) : Nat.toDigits 10 n ≠ [] := by
  rcases Nat.eq_zero_or_pos n with h | h
  · subst h
    decide
  · obtain ⟨c, tl, he, -⟩ := toDigitsCore_head (n + 1) n [] h (by omega)
    unfold Nat.toDigits
    rw [he]
    simp

theorem valFrom_toDigits (n : Nat) : valFrom 0 (Nat.toDigits 10 n) = n := by
  unfold Nat.toDigits
  rw [valFrom_toDigitsCore (n + 1) n [] (by omega)]
  rfl

theorem takeDigits_append (ds : List Char) (c : Char) (rest : List Char)
    (hds : ∀ d ∈ ds, d.isDigit = true) (hc : c.isDigit = false) :
    takeDigits (ds ++ c :: rest) = (ds, c :: rest) := by
  induction ds with
  | nil => simp [takeDigits, hc]
  | cons d tl ih =>
    have hd := hds d (List.mem_cons_self _ _)
    have ih' := ih (fun x hx => hds x (List.mem_cons_of_mem _ hx))
    simp [takeDigits, hd, ih']

theorem endsValue_not_digit (c : Char) (h : EndsValue c) : c.isDigit = false := by
  rcases h with h | h <;> subst h <;> decide

/-- The digits of `n`, followed by a comma or a line feed, are read as `n`. -/
theorem lexDigits_toDigits (n : Nat) (c : Char) (rest : List Char) (hc : EndsValue c) :
    lexDigits (Nat.toDigits 10 n ++ c :: rest) = some (n, c :: rest) := by
  unfold lexDigits
  simp only
  rw [takeDigits_append _ c rest (toDigits_isDigit n) (endsValue_not_digit c hc)]
  simp only [toDigits_ne_nil n, if_false, toDigits_no_leading_zero n, valFrom_toDigits]
  have hne : ¬ ((c :: rest).head? = some '.' ∨ (c :: rest).head? = some 'e' ∨
      (c :: rest).head? = some 'E') := by
    simp only [List.head?_cons, Option.some.injEq]
    rcases hc with h | h <;> subst h <;> decide
  rw [if_neg hne]

theorem lexString_cons (c : Char) (rest acc : List Char) :
    lexString (c :: rest) acc =
      if c = quoteChar then some (String.mk acc.reverse, rest)
      else if c = backslashChar then
        match rest with
        | [] => none
        | e :: rest2 =>
          if e = 'u' then
            match rest2 with
            | a :: b :: x :: y :: rest3 =>
              match unicodeEscape a b x y with
              | some ch => lexString rest3 (ch :: acc)
              | none => none
            | _ => none
          else
            match unescapeChar e with
            | some ch => lexString rest2 (ch :: acc)
            | none => none
      else if c.toNat < 32 then none
      else lexString rest (c :: acc) := by
  rw [lexString.eq_def]

theorem lexString_short (e ch : Char) (more acc : List Char)
    (h1 : e ≠ 'u') (h2 : unescapeChar e = some ch) :
    lexString (backslashChar :: e :: more) acc = lexString more (ch :: acc) := by
  have h0 : backslashChar ≠ quoteChar := by decide
  rw [lexString_cons]
  simp only [h0, if_false, if_true, h1, h2]

theorem lexString_unicode (a b x y ch : Char) (more acc : List Char)
    (h : unicodeEscape a b x y = some ch) :
    lexString (backslashChar :: 'u' :: a :: b :: x :: y :: more) acc =
      lexString more (ch :: acc) := by
  have h0 : backslashChar ≠ quoteChar := by decide
  rw [lexString_cons]
  simp only [h0, if_false, if_true, h]

theorem lexString_escapeChar (c : Char) (more acc : List Char) :
    lexString (escapeChar c ++ more) acc = lexString more (c :: acc) := by
  by_cases h1 : c = quoteChar
  · subst h1
    exact lexString_short quoteChar quoteChar more acc (by decide) (by decide)
  by_cases h2 : c = backslashChar
  · subst h2
    exact lexString_short backslashChar backslashChar more acc (by decide) (by decide)
  by_cases h3 : c = Char.ofNat 8
  · subst h3
    exact lexString_short 'b' (Char.ofNat 8) more acc (by decide) (by decide)
  by_cases h4 : c = Char.ofNat 12
  · subst h4
    exact lexString_short 'f' (Char.ofNat 12) more acc (by decide) (by decide)
  by_cases h5 : c = Char.ofNat 10
  · subst h5
    exact lexString_short 'n' (Char.ofNat 10) more acc (by decide) (by decide)
  by_cases h6 : c = Char.ofNat 13
  · subst h6
    exact lexString_short 'r' (Char.ofNat 13) more acc (by decide) (by decide)
  by_cases h7 : c = Char.ofNat 9
  · subst h7
    exact lexString_short 't' (Char.ofNat 9) more acc (by decide) (by decide)
  by_cases hlt : c.toNat < 32
  · have e : escapeChar c =
        [backslashChar, 'u', '0', '0', Nat.digitChar (c.toNat / 16),
          Nat.digitChar (c.toNat % 16)] := by
      unfold escapeChar
      rw [if_neg h1, if_neg h2, if_neg h3, if_neg h4, if_neg h5, if_neg h6, if_neg h7,
        if_pos hlt]
    rw [e]
    apply lexString_unicode
    have hc : Char.ofNat c.toNat = c := Char.ofNat_toNat c
    generalize c.toNat = k at hc hlt
    subst hc
    interval_cases k <;> rfl
  · have e : escapeChar c = [c] := by
      unfold escapeChar
      rw [if_neg h1, if_neg h2, if_neg h3, if_neg h4, if_neg h5, if_neg h6, if_neg h7,
        if_neg hlt]
    rw [e]
    simp only [List.singleton_append]
    rw [lexString_cons]
    simp only [h1, h2, hlt, if_false]

theorem lexString_escapeChars (cs : List Char) :
    ∀ (acc rest : List Char),
      lexString (escapeChars cs ++ quoteChar :: rest) acc =
        some (String.mk (acc.reverse ++ cs), rest) := by
  induction cs with
  | nil =>
    intro acc rest
    simp only [escapeChars, List.nil_append, List.append_nil]
    rw [lexString_cons]
    simp
  | cons c tl ih =>
    intro acc rest
    simp only [escapeChars, List.append_assoc]
    rw [lexString_escapeChar, ih]
    simp

theorem lexes_nil : Lexes [] [] := by
  intro fuel h
  cases fuel with
  | zero => simp at h
  | succ f => rfl

theorem lexes_space (rest : List Char) (toks : List Token) (h : Lexes rest toks) :
    Lexes (' ' :: rest) toks := by
  intro fuel hf
  cases fuel with
  | zero => simp at hf
  | succ f =>
    simp only [List.length_cons, Nat.add_lt_add_iff_right] at hf
    simp only [lexJson, true_or, if_true]
    exact h f hf

theorem lexes_spaces (n : Nat) (rest : List Char) (toks : List Token) (h : Lexes rest toks) :
    Lexes (List.replicate n ' ' ++ rest) toks := by
  induction n with
  | zero => simpa using h
  | succ n ih =>
    simp only [List.replicate_succ, List.cons_append]
    exact lexes_space _ _ ih

theorem lexes_newline (rest : List Char) (toks : List Token) (h : Lexes rest toks) :
    Lexes (newlineChar :: rest) toks := by
  intro fuel hf
  cases fuel with
  | zero => simp at hf
  | succ f =>
    simp only [List.length_cons, Nat.add_lt_add_iff_right] at hf
    have hc : (newlineChar = ' ' ∨ newlineChar = Char.ofNat 10 ∨ newlineChar = Char.ofNat 13 ∨
        newlineChar = Char.ofNat 9) := by decide
    simp only [lexJson, hc, if_true]
    exact h f hf

theorem lexes_openBrace (rest : List Char) (toks : List Token) (h : Lexes rest toks) :
    Lexes (openBrace :: rest) (.lbrace :: toks) := by
  intro fuel hf
  cases fuel with
  | zero => simp at hf
  | succ f =>
    simp only [List.length_cons, Nat.add_lt_add_iff_right] at hf
    have hc : ¬ (openBrace = ' ' ∨ openBrace = Char.ofNat 10 ∨ openBrace = Char.ofNat 13 ∨
        openBrace = Char.ofNat 9) := by decide
    simp only [lexJson, hc, if_false, if_true, h f hf, Option.map_some']

theorem lexes_closeBrace (rest : List Char) (toks : List Token) (h : Lexes rest toks) :
    Lexes (closeBrace :: rest) (.rbrace :: toks) := by
  intro fuel hf
  cases fuel with
  | zero => simp at hf
  | succ f =>
    simp only [List.length_cons, Nat.add_lt_add_iff_right] at hf
    have hc : ¬ (closeBrace = ' ' ∨ closeBrace = Char.ofNat 10 ∨ closeBrace = Char.ofNat 13 ∨
        closeBrace = Char.ofNat 9) := by decide
    have h1 : closeBrace ≠ openBrace := by decide
    simp only [lexJson, hc, h1, if_false, if_true, h f hf, Option.map_some']

theorem lexes_colon (rest : List Char) (toks : List Token) (h : Lexes rest toks) :
    Lexes (':' :: rest) (.colon :: toks) := by
  intro fuel hf
  cases fuel with
  | zero => simp at hf
  | succ f =>
    simp only [List.length_cons, Nat.add_lt_add_iff_right] at hf
    have hc : ¬ (':' = ' ' ∨ ':' = Char.ofNat 10 ∨ ':' = Char.ofNat 13 ∨
        ':' = Char.ofNat 9) := by decide
    have h1 : ':' ≠ openBrace := by decide
    have h2 : ':' ≠ closeBrace := by decide
    simp only [lexJson, hc, h1, h2, if_false, if_true, h f hf, Option.map_some']

theorem lexes_comma (rest : List Char) (toks : List Token) (h : Lexes rest toks) :
    Lexes (',' :: rest) (.comma :: toks) := by
  intro fuel hf
  cases fuel with
  | zero => simp at hf
  | succ f =>
    simp only [List.length_cons, Nat.add_lt_add_iff_right] at hf
    have hc : ¬ (',' = ' ' ∨ ',' = Char.ofNat 10 ∨ ',' = Char.ofNat 13 ∨
        ',' = Char.ofNat 9) := by decide
    have h1 : ',' ≠ openBrace := by decide
    have h2 : ',' ≠ closeBrace := by decide
    have h3 : ',' ≠ ':' := by decide
    simp only [lexJson, hc, h1, h2, h3, if_false, if_true, h f hf, Option.map_some']

theorem lexes_quoteJson (s : String) (rest : List Char) (toks : List Token)
    (h : Lexes rest toks) : Lexes (quoteJson s ++ rest) (.str s :: toks) := by
  intro fuel hf
  cases fuel with
  | zero => simp at hf
  | succ f =>
    have he : quoteJson s ++ rest = quoteChar :: (escapeChars s.data ++ quoteChar :: rest) := by
      simp [quoteJson]
    rw [he] at hf ⊢
    simp only [List.length_cons, List.length_append] at hf
    have hc : ¬ (quoteChar = ' ' ∨ quoteChar = Char.ofNat 10 ∨ quoteChar = Char.ofNat 13 ∨
        quoteChar = Char.ofNat 9) := by decide
    have h1 : quoteChar ≠ openBrace := by decide
    have h2 : quoteChar ≠ closeBrace := by decide
    have h3 : quoteChar ≠ ':' := by decide
    have h4 : quoteChar ≠ ',' := by decide
    simp only [lexJson, hc, h1, h2, h3, h4, if_false, if_true, lexString_escapeChars,
      List.reverse_nil, List.nil_append, h f (by omega), Option.map_some']

theorem lexes_null (rest : List Char) (toks : List Token) (h : Lexes rest toks) :
    Lexes ('n' :: 'u' :: 'l' :: 'l' :: rest) (.null :: toks) := by
  intro fuel hf
  cases fuel with
  | zero => simp at hf
  | succ f =>
    simp only [List.length_cons] at hf
    have hc : ¬ ('n' = ' ' ∨ 'n' = Char.ofNat 10 ∨ 'n' = Char.ofNat 13 ∨
        'n' = Char.ofNat 9) := by decide
    have h1 : 'n' ≠ openBrace := by decide
    have h2 : 'n' ≠ closeBrace := by decide
    have h3 : 'n' ≠ ':' := by decide
    have h4 : 'n' ≠ ',' := by decide
    have h5 : 'n' ≠ quoteChar := by decide
    have h6 : 'n' ≠ '-' := by decide
    have h7 : ('n' : Char).isDigit = false := by decide
    simp only [lexJson, hc, h1, h2, h3, h4, h5, h6, h7, if_false, if_true, and_self,
      Bool.false_eq_true, h f (by omega), Option.map_some']

theorem showInt_ofNat (m : Nat) : showInt (Int.ofNat m) = Nat.toDigits 10 m := rfl

theorem showInt_negSucc (m : Nat) :
    showInt (Int.negSucc m) = '-' :: Nat.toDigits 10 (m + 1) := rfl

theorem lexJson_digit (f : Nat) (d : Char) (rest : List Char) (hd : d.isDigit = true) :
    lexJson (f + 1) (d :: rest) =
      match lexDigits (d :: rest) with
      | some (n, rest2) => (lexJson f rest2).map (Token.num (n : Int) :: ·)
      | none => none := by
  have hc : ¬ (d = ' ' ∨ d = Char.ofNat 10 ∨ d = Char.ofNat 13 ∨ d = Char.ofNat 9) := by
    rintro (h | h | h | h) <;> subst h <;> exact absurd hd (by decide)
  have h1 : d ≠ openBrace := by rintro rfl; exact absurd hd (by decide)
  have h2 : d ≠ closeBrace := by rintro rfl; exact absurd hd (by decide)
  have h3 : d ≠ ':' := by rintro rfl; exact absurd hd (by decide)
  have h4 : d ≠ ',' := by rintro rfl; exact absurd hd (by decide)
  have h5 : d ≠ quoteChar := by rintro rfl; exact absurd hd (by decide)
  have h6 : d ≠ '-' := by rintro rfl; exact absurd hd (by decide)
  simp only [lexJson, hc, h1, h2, h3, h4, h5, h6, hd, if_false, if_true]

theorem lexJson_minus (f : Nat) (rest : List Char) :
    lexJson (f + 1) ('-' :: rest) =
      match lexDigits rest with
      | some (n, rest2) => (lexJson f rest2).map (Token.num (-(n : Int)) :: ·)
      | none => none := by
  have hc : ¬ ('-' = ' ' ∨ '-' = Char.ofNat 10 ∨ '-' = Char.ofNat 13 ∨
      '-' = Char.ofNat 9) := by decide
  have h1 : '-' ≠ openBrace := by decide
  have h2 : '-' ≠ closeBrace := by decide
  have h3 : '-' ≠ ':' := by decide
  have h4 : '-' ≠ ',' := by decide
  have h5 : '-' ≠ quoteChar := by decide
  simp only [lexJson, hc, h1, h2, h3, h4, h5, if_false, if_true]

/-- The text of a number, followed by a comma or a line feed, is one number
token. -/
theorem lexes_showInt (n : Int) (c : Char) (rest : List Char) (toks : List Token)
    (hc : EndsValue c) (h : Lexes (c :: rest) toks) :
    Lexes (showInt n ++ c :: rest) (.num n :: toks) := by
  intro fuel hf
  cases fuel with
  | zero => simp at hf
  | succ f =>
    cases n with
    | ofNat m =>
      rw [showInt_ofNat] at hf ⊢
      have hne := toDigits_ne_nil m
      have hdig := toDigits_isDigit m
      have hlex := lexDigits_toDigits m c rest hc
      cases hds : Nat.toDigits 10 m with
      | nil => exact absurd hds hne
      | cons d tl =>
        rw [hds] at hf hdig hlex
        simp only [List.cons_append, List.length_cons, List.length_append] at hf
        rw [List.cons_append, lexJson_digit f d _ (hdig d (List.mem_cons_self _ _))]
        rw [List.cons_append] at hlex
        rw [hlex]
        simp only
        rw [h f (by simp only [List.length_cons]; omega)]
        rfl
    | negSucc m =>
      rw [showInt_negSucc] at hf ⊢
      simp only [List.cons_append, List.length_cons, List.length_append] at hf
      rw [List.cons_append, lexJson_minus, lexDigits_toDigits (m + 1) c rest hc]
      simp only
      rw [h f (by simp only [List.length_cons]; omega)]
      rfl

/-- The text of a scalar, followed by a comma or a line feed, is its token. -/
theorem lexes_showScalar (v : Scalar) (c : Char) (rest : List Char) (toks : List Token)
    (hc : EndsValue c) (h : Lexes (c :: rest) toks) :
    Lexes (showScalar v ++ c :: rest) (tokenOf v :: toks) := by
  cases v with
  | str s => exact lexes_quoteJson s _ _ h
  | num n => exact lexes_showInt n c rest toks hc h
  | null => exact lexes_null _ _ h

theorem endsValue_comma : EndsValue ',' := Or.inl rfl

theorem endsValue_newline : EndsValue newlineChar := Or.inr rfl

/-- One member line of a record, followed by a comma or a line feed. -/
theorem lexes_showMember (indent : Nat) (k : String) (v : Scalar) (c : Char)
    (rest : List Char) (toks : List Token) (hc : EndsValue c) (h : Lexes (c :: rest) toks) :
    Lexes (showMember indent k (showScalar v) ++ c :: rest)
      (.str k :: .colon :: tokenOf v :: toks) := by
  unfold showMember
  simp only [List.append_assoc, List.cons_append]
  apply lexes_spaces
  apply lexes_quoteJson
  apply lexes_colon
  apply lexes_space
  exact lexes_showScalar v c rest toks hc h

theorem lexes_recordMembers (indent : Nat) (scalars : List (String × Scalar)) :
    ∀ (rest : List Char) (toks : List Token), scalars ≠ [] →
      Lexes (newlineChar :: rest) toks →
      Lexes (showMembers indent (scalars.map (fun kv => (kv.1, showScalar kv.2))) ++
          newlineChar :: rest)
        (memberTokens scalars ++ toks) := by
  induction scalars with
  | nil => intro rest toks h; exact absurd rfl h
  | cons kv tl ih =>
    intro rest toks _ h
    cases tl with
    | nil =>
      simp only [List.map_cons, List.map_nil, showMembers, memberTokens, List.cons_append,
        List.nil_append]
      exact lexes_showMember indent kv.1 kv.2 newlineChar rest toks endsValue_newline h
    | cons kv2 tl2 =>
      have ih' := ih rest toks (by simp) h
      simp only [List.map_cons, showMembers, memberTokens, List.cons_append,
        List.append_assoc] at ih' ⊢
      apply lexes_showMember indent kv.1 kv.2 ',' _ _ endsValue_comma
      apply lexes_comma
      apply lexes_newline
      exact ih'

/-- The text of a record is its tokens between braces. -/
theorem lexes_record (scalars : List (String × Scalar)) (rest : List Char)
    (toks : List Token) (h : Lexes rest toks) :
    Lexes (showObject 2 (scalars.map (fun kv => (kv.1, showScalar kv.2))) ++ rest)
      (.lbrace :: (memberTokens scalars ++ (.rbrace :: toks))) := by
  cases scalars with
  | nil =>
    simp only [List.map_nil, showObject, memberTokens, List.cons_append, List.nil_append]
    exact lexes_openBrace _ _ (lexes_closeBrace _ _ h)
  | cons kv tl =>
    simp only [List.map_cons, showObject, List.cons_append, List.append_assoc]
    apply lexes_openBrace
    apply lexes_newline
    have hm := lexes_recordMembers (2 + 2) (kv :: tl)
      (List.replicate 2 ' ' ++ ([closeBrace] ++ rest)) (.rbrace :: toks) (by simp)
      (lexes_newline _ _ (lexes_spaces 2 _ _ (lexes_closeBrace _ _ h)))
    simpa only [List.map_cons, List.cons_append, List.append_assoc, List.nil_append,
      List.singleton_append] using hm

/-- The text of a top-level value, followed by a comma or a line feed. -/
theorem lexes_showEntry (e : Entry) (c : Char) (rest : List Char) (toks : List Token)
    (hc : EndsValue c) (h : Lexes (c :: rest) toks) :
    Lexes (showEntry e ++ c :: rest) (entryTokens e ++ toks) := by
  cases e with
  | str s => exact lexes_quoteJson s _ _ h
  | num n => exact lexes_showInt n c rest toks hc h
  | obj r =>
    have := lexes_record (recordScalars r) (c :: rest) toks h
    simpa only [showEntry, entryTokens, List.cons_append, List.append_assoc,
      List.singleton_append] using this

theorem lexes_stateMembers (indent : Nat) (st : State) :
    ∀ (rest : List Char) (toks : List Token), st ≠ [] →
      Lexes (newlineChar :: rest) toks →
      Lexes (showMembers indent (st.map (fun kv => (kv.1, showEntry kv.2))) ++
          newlineChar :: rest)
        (stateTokens st ++ toks) := by
  induction st with
  | nil => intro rest toks h; exact absurd rfl h
  | cons kv tl ih =>
    intro rest toks _ h
    cases tl with
    | nil =>
      simp only [List.map_cons, List.map_nil, showMembers, stateTokens, showMember,
        List.cons_append, List.append_assoc]
      apply lexes_spaces
      apply lexes_quoteJson
      apply lexes_colon
      apply lexes_space
      exact lexes_showEntry kv.2 newlineChar rest toks endsValue_newline h
    | cons kv2 tl2 =>
      have ih' := ih rest toks (by simp) h
      simp only [List.map_cons, showMembers, stateTokens, showMember, List.cons_append,
        List.append_assoc] at ih' ⊢
      apply lexes_spaces
      apply lexes_quoteJson
      apply lexes_colon
      apply lexes_space
      apply lexes_showEntry kv.2 ',' _ _ endsValue_comma
      apply lexes_comma
      apply lexes_newline
      exact ih'

/-- The text of a store is its tokens between braces. -/
theorem lexes_state (st : State) :
    Lexes (showObject 0 (st.map (fun kv => (kv.1, showEntry kv.2))))
      (.lbrace :: (stateTokens st ++ [.rbrace])) := by
  cases st with
  | nil =>
    simp only [List.map_nil, showObject, stateTokens, List.nil_append]
    exact lexes_openBrace _ _ (lexes_closeBrace _ _ lexes_nil)
  | cons kv tl =>
    simp only [List.map_cons, showObject]
    apply lexes_openBrace
    apply lexes_newline
    have hm := lexes_stateMembers (0 + 2) (kv :: tl)
      (List.replicate 0 ' ' ++ [closeBrace]) [.rbrace] (by simp)
      (lexes_newline _ _ (lexes_spaces 0 _ _ (lexes_closeBrace _ _ lexes_nil)))
    simpa only [List.map_cons] using hm

theorem scalarOf_tokenOf (v : Scalar) : scalarOf (tokenOf v) = some v := by
  cases v <;> rfl

theorem parseMembers_memberTokens (scalars : List (String × Scalar)) :
    ∀ (rest : List Token), scalars ≠ [] →
      parseMembers (memberTokens scalars ++ .rbrace :: rest) = some (scalars, rest) := by
  induction scalars with
  | nil => intro rest h; exact absurd rfl h
  | cons kv tl ih =>
    intro rest _
    cases tl with
    | nil =>
      simp only [memberTokens, List.cons_append, List.nil_append, parseMembers,
        scalarOf_tokenOf]
    | cons kv2 tl2 =>
      have ih' := ih rest (by simp)
      simp only [memberTokens, List.cons_append] at ih' ⊢
      simp only [parseMembers, scalarOf_tokenOf, ih']

theorem parseRecord_memberTokens (scalars : List (String × Scalar)) (rest : List Token) :
    parseRecord (memberTokens scalars ++ .rbrace :: rest) = some (scalars, rest) := by
  cases scalars with
  | nil => simp [memberTokens, parseRecord]
  | cons kv tl =>
    have h := parseMembers_memberTokens (kv :: tl) rest (by simp)
    cases tl with
    | nil =>
      simp only [memberTokens, List.cons_append, List.nil_append] at h ⊢
      simp only [parseRecord, h]
    | cons kv2 tl2 =>
      simp only [memberTokens, List.cons_append] at h ⊢
      simp only [parseRecord, h]

theorem recordOf_present_cons (k : String) (o : Option Scalar)
    (l : List (String × Option Scalar)) (acc : AccountRecord) :
    recordOf (List.filterMap present ((k, o) :: l)) acc =
      match o with
      | none => recordOf (List.filterMap present l) acc
      | some v =>
        match setField acc k v with
        | some r2 => recordOf (List.filterMap present l) r2
        | none => none := by
  cases o with
  | none => simp [List.filterMap_cons, present]
  | some v => simp [List.filterMap_cons, present, recordOf]

theorem recordOf_step (k : String) (o : Option Scalar) (l : List (String × Option Scalar))
    (acc upd : AccountRecord)
    (h1 : ∀ v, o = some v → setField acc k v = some upd) (h0 : o = none → upd = acc) :
    recordOf (List.filterMap present ((k, o) :: l)) acc =
      recordOf (List.filterMap present l) upd := by
  rw [recordOf_present_cons]
  cases o with
  | none => simp only; rw [h0 rfl]
  | some v => simp only [h1 v rfl]

/-- Reading the present properties of a record into the empty record gives the
record back. -/
theorem recordOf_recordScalars (r : AccountRecord) :
    recordOf (recordScalars r) AccountRecord.empty = some r := by
  obtain ⟨a1, a2, a3, a4, a5, a6, a7, a8, a9, a10⟩ := r
  unfold recordScalars AccountRecord.empty
  simp only
  rw [recordOf_step "avatarUrl" (scalarOfJString a1) _
    (⟨.absent, .absent, .absent, none, none, none, none, none, .absent, .absent⟩ :
      AccountRecord)
    (⟨a1, .absent, .absent, none, none, none, none, none, .absent, .absent⟩ :
      AccountRecord)
    (by
      intro v hv
      cases a1 with
      | absent => simp [scalarOfJString] at hv
      | null => simp [scalarOfJString] at hv; subst hv; rfl
      | str s => simp [scalarOfJString] at hv; subst hv; rfl)
    (by
      intro hv
      cases a1 with
      | absent => rfl
      | null => simp [scalarOfJString] at hv
      | str s => simp [scalarOfJString] at hv)]
  rw [recordOf_step "steamNickname" (scalarOfJString a2) _
    (⟨a1, .absent, .absent, none, none, none, none, none, .absent, .absent⟩ :
      AccountRecord)
    (⟨a1, a2, .absent, none, none, none, none, none, .absent, .absent⟩ :
      AccountRecord)
    (by
      intro v hv
      cases a2 with
      | absent => simp [scalarOfJString] at hv
      | null => simp [scalarOfJString] at hv; subst hv; rfl
      | str s => simp [scalarOfJString] at hv; subst hv; rfl)
    (by
      intro hv
      cases a2 with
      | absent => rfl
      | null => simp [scalarOfJString] at hv
      | str s => simp [scalarOfJString] at hv)]
  rw [recordOf_step "steamID" (scalarOfJString a3) _
    (⟨a1, a2, .absent, none, none, none, none, none, .absent, .absent⟩ :
      AccountRecord)
    (⟨a1, a2, a3, none, none, none, none, none, .absent, .absent⟩ :
      AccountRecord)
    (by
      intro v hv
      cases a3 with
      | absent => simp [scalarOfJString] at hv
      | null => simp [scalarOfJString] at hv; subst hv; rfl
      | str s => simp [scalarOfJString] at hv; subst hv; rfl)
    (by
      intro hv
      cases a3 with
      | absent => rfl
      | null => simp [scalarOfJString] at hv
      | str s => simp [scalarOfJString] at hv)]
  rw [recordOf_step "cooldownUntil" (scalarOfNumber a4) _
    (⟨a1, a2, a3, none, none, none, none, none, .absent, .absent⟩ :
      AccountRecord)
    (⟨a1, a2, a3, a4, none, none, none, none, .absent, .absent⟩ :
      AccountRecord)
    (by
      intro v hv
      cases a4 with
      | none => simp [scalarOfNumber] at hv
      | some n => simp [scalarOfNumber] at hv; subst hv; rfl)
    (by
      intro hv
      cases a4 with
      | none => rfl
      | some n => simp [scalarOfNumber] at hv)]
  rw [recordOf_step "completedToday" (scalarOfNumber a5) _
    (⟨a1, a2, a3, a4, none, none, none, none, .absent, .absent⟩ :
      AccountRecord)
    (⟨a1, a2, a3, a4, a5, none, none, none, .absent, .absent⟩ :
      AccountRecord)
    (by
      intro v hv
      cases a5 with
      | none => simp [scalarOfNumber] at hv
      | some n => simp [scalarOfNumber] at hv; subst hv; rfl)
    (by
      intro hv
      cases a5 with
      | none => rfl
      | some n => simp [scalarOfNumber] at hv)]
  rw [recordOf_step "completedThisWeek" (scalarOfNumber a6) _
    (⟨a1, a2, a3, a4, a5, none, none, none, .absent, .absent⟩ :
      AccountRecord)
    (⟨a1, a2, a3, a4, a5, a6, none, none, .absent, .absent⟩ :
      AccountRecord)
    (by
      intro v hv
      cases a6 with
      | none => simp [scalarOfNumber] at hv
      | some n => simp [scalarOfNumber] at hv; subst hv; rfl)
    (by
      intro hv
      cases a6 with
      | none => rfl
      | some n => simp [scalarOfNumber] at hv)]
  rw [recordOf_step "totalCompleted" (scalarOfNumber a7) _
    (⟨a1, a2, a3, a4, a5, a6, none, none, .absent, .absent⟩ :
      AccountRecord)
    (⟨a1, a2, a3, a4, a5, a6, a7, none, .absent, .absent⟩ :
      AccountRecord)
    (by
      intro v hv
      cases a7 with
      | none => simp [scalarOfNumber] at hv
      | some n => simp [scalarOfNumber] at hv; subst hv; rfl)
    (by
      intro hv
      cases a7 with
      | none => rfl
      | some n => simp [scalarOfNumber] at hv)]
  rw [recordOf_step "lastSuccess" (scalarOfNumber a8) _
    (⟨a1, a2, a3, a4, a5, a6, a7, none, .absent, .absent⟩ :
      AccountRecord)
    (⟨a1, a2, a3, a4, a5, a6, a7, a8, .absent, .absent⟩ :
      AccountRecord)
    (by
      intro v hv
      cases a8 with
      | none => simp [scalarOfNumber] at hv
      | some n => simp [scalarOfNumber] at hv; subst hv; rfl)
    (by
      intro hv
      cases a8 with
      | none => rfl
      | some n => simp [scalarOfNumber] at hv)]
  rw [recordOf_step "lastError" (scalarOfJString a9) _
    (⟨a1, a2, a3, a4, a5, a6, a7, a8, .absent, .absent⟩ :
      AccountRecord)
    (⟨a1, a2, a3, a4, a5, a6, a7, a8, a9, .absent⟩ :
      AccountRecord)
    (by
      intro v hv
      cases a9 with
      | absent => simp [scalarOfJString] at hv
      | null => simp [scalarOfJString] at hv; subst hv; rfl
      | str s => simp [scalarOfJString] at hv; subst hv; rfl)
    (by
      intro hv
      cases a9 with
      | absent => rfl
      | null => simp [scalarOfJString] at hv
      | str s => simp [scalarOfJString] at hv)]
  rw [recordOf_step "lastErrorType" (scalarOfJString a10) _
    (⟨a1, a2, a3, a4, a5, a6, a7, a8, a9, .absent⟩ :
      AccountRecord)
    (⟨a1, a2, a3, a4, a5, a6, a7, a8, a9, a10⟩ :
      AccountRecord)
    (by
      intro v hv
      cases a10 with
      | absent => simp [scalarOfJString] at hv
      | null => simp [scalarOfJString] at hv; subst hv; rfl
      | str s => simp [scalarOfJString] at hv; subst hv; rfl)
    (by
      intro hv
      cases a10 with
      | absent => rfl
      | null => simp [scalarOfJString] at hv
      | str s => simp [scalarOfJString] at hv)]
  rfl

theorem set_append_new (acc : State) (k : String) (v : Entry)
    (h : k ∉ acc.map Prod.fst) : acc.set k v = acc ++ [(k, v)] := by
  induction acc with
  | nil => rfl
  | cons kv tl ih =>
    obtain ⟨k0, v0⟩ := kv
    simp only [List.map_cons, List.mem_cons, not_or] at h
    have hne : k0 ≠ k := fun e => h.1 e.symm
    simp only [State.set, hne, if_false, List.cons_append, ih h.2]

theorem foldl_set_append (entries : List (String × Entry)) :
    ∀ acc : State, ((acc ++ entries).map Prod.fst).Nodup →
      entries.foldl (fun st kv => st.set kv.1 kv.2) acc = acc ++ entries := by
  induction entries with
  | nil => intro acc _; simp
  | cons kv tl ih =>
    intro acc h
    have hk : kv.1 ∉ acc.map Prod.fst := by
      intro hmem
      simp only [List.map_append, List.map_cons] at h
      have := (List.nodup_append.mp h).2.2
      exact this hmem (List.mem_cons_self _ _)
    simp only [List.foldl_cons]
    rw [set_append_new acc kv.1 kv.2 hk]
    have hre : acc ++ [(kv.1, kv.2)] ++ tl = acc ++ kv :: tl := by simp
    rw [ih (acc ++ [(kv.1, kv.2)]) (by rw [hre]; exact h), hre]

/-- A list of members with distinct keys is its own store. -/
theorem stateOf_nodup (st : State) (h : (st.map Prod.fst).Nodup) : stateOf st = st := by
  unfold stateOf
  rw [foldl_set_append st [] (by simpa using h)]
  rfl

theorem parseEntries_object (f : Nat) (k : String) (r : AccountRecord) (rest : List Token) :
    parseEntries (f + 1)
        (.str k :: .colon :: .lbrace :: (memberTokens (recordScalars r) ++ .rbrace :: rest)) =
      match rest with
      | .comma :: rest3 =>
        match parseEntries f rest3 with
        | some (entries, rest4) => some ((k, .obj r) :: entries, rest4)
        | none => none
      | .rbrace :: rest3 => some ([(k, .obj r)], rest3)
      | _ => none := by
  simp only [parseEntries, parseRecord_memberTokens, recordOf_recordScalars]
  split <;> simp_all

theorem stateTokens_cons_cons (kv kv2 : String × Entry) (tl : State) :
    stateTokens (kv :: kv2 :: tl) =
      .str kv.1 :: .colon :: (entryTokens kv.2 ++ (.comma :: stateTokens (kv2 :: tl))) := rfl

theorem stateTokens_head (kv : String × Entry) (tl : State) :
    ∃ more, stateTokens (kv :: tl) = .str kv.1 :: .colon :: more := by
  cases tl with
  | nil => exact ⟨_, rfl⟩
  | cons kv2 tl2 => exact ⟨_, rfl⟩

theorem parseEntries_stateTokens (st : State) :
    ∀ (fuel : Nat) (rest : List Token), st ≠ [] → (stateTokens st).length < fuel →
      parseEntries fuel (stateTokens st ++ .rbrace :: rest) = some (st, rest) := by
  induction st with
  | nil => intro fuel rest h; exact absurd rfl h
  | cons kv tl ih =>
    intro fuel rest _ hf
    obtain ⟨k, e⟩ := kv
    cases fuel with
    | zero => simp at hf
    | succ f =>
      cases tl with
      | nil =>
        cases e with
        | str s => simp [stateTokens, entryTokens, parseEntries]
        | num n => simp [stateTokens, entryTokens, parseEntries]
        | obj r =>
          simp only [stateTokens, entryTokens, List.cons_append, List.append_assoc,
            List.singleton_append]
          rw [parseEntries_object]
          rfl
      | cons kv2 tl2 =>
        rw [stateTokens_cons_cons] at hf ⊢
        have hlen : (stateTokens (kv2 :: tl2)).length < f := by
          simp only [List.length_cons, List.length_append] at hf
          omega
        have ih' := ih f rest (by simp) hlen
        cases e with
        | str s =>
          simp only [entryTokens, List.cons_append, List.nil_append]
          simp only [parseEntries, ih']
        | num n =>
          simp only [entryTokens, List.cons_append, List.nil_append]
          simp only [parseEntries, ih']
        | obj r =>
          simp only [entryTokens, List.cons_append, List.append_assoc,
            List.singleton_append]
          rw [parseEntries_object]
          simp only [List.nil_append, ih']

/-- The text that `JSON.stringify` makes of a store with distinct keys is read
back by `JSON.parse` as that store. -/
theorem parseState_stringifyState (st : State) (h : (st.map Prod.fst).Nodup) :
    parseState (stringifyState st) = some st := by
  unfold parseState stringifyState
  simp only
  rw [lexes_state st _ (Nat.lt_succ_self _)]
  cases st with
  | nil => rfl
  | cons kv tl =>
    have hp := parseEntries_stateTokens (kv :: tl)
      ((stateTokens (kv :: tl) ++ [Token.rbrace]).length + 1) [] (by simp)
      (by simp only [List.length_append]; omega)
    have hs := stateOf_nodup (kv :: tl) h
    obtain ⟨more, hm⟩ := stateTokens_head kv tl
    rw [hm] at hp ⊢
    simp only [List.cons_append] at hp ⊢
    simp only [hp, hs]

/-! ## Round trip of the store -/

/-- The store-level `loadState` is the text-level one, the disk of the world
being what `JSON.parse` makes of the file. -/
theorem loadState_of_text (json : JsonCodec) (env : Env) (w : World) (file : Option String)
    (h : w.disk = file.bind json.parse) :
    (loadState env w).1 =
      loadStateText json file (env.clock w.clockReads) (env.clock (w.clockReads + 1)) := by
  unfold loadState loadStateText
  rw [h]
  cases file with
  | none => rfl
  | some text =>
    simp only [Option.some_bind]
    cases json.parse text <;> rfl

/-- Whatever the JSON built-ins are, loading the saved text gives the snapshot
back once `parse` reads the text of `stringify` for it back as the snapshot. -/
theorem loadStateText_saveStateText (json : JsonCodec) (snapshot : State)
    (today weekNow : Instant)
    (hrep : json.parse (json.stringify snapshot) = some snapshot) :
    loadStateText json (some (saveStateText json snapshot)) today weekNow = snapshot := by
  simp only [loadStateText, saveStateText, hrep]

/-- C22. For every snapshot of the store (a mapping: distinct keys; values
strings, integers, records of strings, integers and `null`), loading after
saving gives the snapshot back, markers included: `saveState` writes the text
that `JSON.stringify` makes of the whole snapshot, `JSON.parse` reads that text
back as the snapshot, and `loadState` returns what it parsed as it is, without
reading the clock. In the store-level model the disk after the save is what
`JSON.parse` makes of the written text. -/
theorem store_round_trip (snapshot : State) (today weekNow : Instant)
    (env : Env) (w : World)
    (hkeys : (snapshot.map Prod.fst).Nodup) :
    ecmaJson.parse (ecmaJson.stringify snapshot) = some snapshot ∧
    loadStateText ecmaJson (some (saveStateText ecmaJson snapshot)) today weekNow = snapshot ∧
    (loadStateText ecmaJson (some (saveStateText ecmaJson snapshot)) today weekNow).get
      "lastResetDate" = snapshot.get "lastResetDate" ∧
    (loadStateText ecmaJson (some (saveStateText ecmaJson snapshot)) today weekNow).get
      "lastWeeklyReset" = snapshot.get "lastWeeklyReset" ∧
    (env.writeOk w.writes = true →
      (saveState env w snapshot).2.disk =
        (some (saveStateText ecmaJson snapshot)).bind ecmaJson.parse ∧
      loadState env (saveState env w snapshot).2 = (snapshot, (saveState env w snapshot).2)) := by
  have hrep : ecmaJson.parse (ecmaJson.stringify snapshot) = some snapshot :=
    parseState_stringifyState snapshot hkeys
  have h := loadStateText_saveStateText ecmaJson snapshot today weekNow hrep
  rw [h]
  refine ⟨hrep, rfl, rfl, rfl, fun hw => ?_⟩
  rw [saveState_ok env w snapshot hw]
  simp only [loadState, saveStateText, Option.some_bind, hrep, and_self]

/-- Instance of C22: `sampleStore` (records, a negative number, a string with a
quote, a backslash and control characters) comes back from its JSON text. -/
theorem store_round_trip_witness :
    loadStateText ecmaJson (some (saveStateText ecmaJson sampleStore)) sundayNoon sundayNoon =
      sampleStore :=
  (store_round_trip sampleStore sundayNoon sundayNoon calmEnv (worldWith [])
    (by decide)).2.1

end Rex
